import Mathlib

/-!
Verification development for the HogTrace probe VM (PostHog/hogtrace).

The definitions below are a shallow embedding of the Rust sources:
  * `src/src/value.rs`          — runtime `Value` and truthiness
  * `src/src/constant_pool.rs`  — `Constant`, `ConstantPool`
  * `src/src/opcodes.rs`        — the opcode table and byte codec
  * `src/src/dispatcher.rs`     — `Dispatcher` trait, default arith/comparison
  * `src/src/executor.rs`       — the stack VM loop
  * `src/src/parser/lexer.rs`   — the lexer
  * `src/vm/src/parser/mod.rs`  — the recursive-descent parser
  * `src/vm/src/parser/ast.rs`  — the AST
  * `src/src/parser/compiler.rs`— the AST → bytecode compiler
  * `src/src/python_dispatcher.rs` — capture/send decoding, store_variable
  * `src/src/program.rs`        — `Program` and its protobuf conversion

Machine integers are modelled as `Int` with explicit two's-complement
wrapping where the Rust code wraps, and IEEE-754 doubles are modelled by
their 64-bit bit patterns (`Nat` below `2^64`).  The numeric *results* of
float arithmetic and float comparisons are never needed by any property
proved here, so they are supplied by an explicit `FloatOps` record of
uninterpreted functions on bit patterns; the zero tests the Rust code
performs (`rf == 0.0`) are modelled exactly on bit patterns (`±0.0`).
-/

namespace HogTrace

deriving instance DecidableEq for Except

/-- Bit-pattern test for an IEEE-754 double being a NaN: exponent bits all
ones and a non-zero mantissa. -/
def f64IsNan (bits : Nat) : Bool :=
  decide ((bits / 2 ^ 52) % 2 ^ 11 = 0x7ff) && decide (bits % 2 ^ 52 ≠ 0)

/-- Bit-pattern test for an IEEE-754 double comparing equal to `0.0`
(that is, `+0.0` or `-0.0`): all bits below the sign bit are zero. -/
def f64IsZero (bits : Nat) : Bool :=
  decide (bits % 2 ^ 63 = 0)

/-- Bit pattern of the double `+0.0`. -/
def f64PosZeroBits : Nat := 0

/-- Bit pattern of the double `1.0`. -/
def f64OneBits : Nat := 0x3ff0000000000000

/-- Bit pattern of the 32-bit float `1.0` (the compiler's default sampling
rate). -/
def f32OneBits : Nat := 0x3f800000

/-- Bit-pattern test for an IEEE-754 single comparing equal to `0.0f32`. -/
def f32IsZero (bits : Nat) : Bool :=
  decide (bits % 2 ^ 31 = 0)

/-- Runtime value of the VM, from `value.rs`.  The `Object` variant is an
opaque host handle; we model the handle by a `Nat` identity (the VM never
inspects it and only passes it to the dispatcher). -/
inductive Value where
  | bool : Bool → Value
  | int : Int → Value
  | float : Nat → Value
  | str : String → Value
  | none : Value
  | obj : Nat → Value
  deriving Repr, DecidableEq

/-- Truthiness from `Value::is_truthy`: `false`, `0`, `0.0`, `NaN`, the
empty string and `None` are falsy; objects are truthy. -/
def Value.isTruthy : Value → Bool
  | .bool b => b
  | .int i => decide (i ≠ 0)
  | .float bits => !(f64IsZero bits) && !(f64IsNan bits)
  | .str s => !(s.isEmpty)
  | .none => false
  | .obj _ => true

/-- Type name used in error messages, from `Value::type_name`. -/
def Value.typeName : Value → String
  | .bool _ => "bool"
  | .int _ => "int"
  | .float _ => "float"
  | .str _ => "string"
  | .none => "none"
  | .obj _ => "object"

/-- Constant-pool entry, from `constant_pool.rs`.  Floats are stored by bit
pattern, which also makes structural equality coincide with the compiler's
`ConstantKey` (its float key is the raw bit pattern). -/
inductive Constant where
  | int : Int → Constant
  | float : Nat → Constant
  | str : String → Constant
  | bool : Bool → Constant
  | none : Constant
  | identifier : String → Constant
  | fieldName : String → Constant
  | functionName : String → Constant
  deriving Repr, DecidableEq

/-- Literal-to-value conversion, from `Constant::as_value`; identifiers,
field names and function names are not literals and yield an error. -/
def Constant.asValue : Constant → Except String Value
  | .int i => .ok (.int i)
  | .float bits => .ok (.float bits)
  | .str s => .ok (.str s)
  | .bool b => .ok (.bool b)
  | .none => .ok Value.none
  | c => .error s!"Cannot convert {repr c} to Value (not a literal)"

/-- Name extraction, from `Constant::as_string`: identifiers, field names,
function names and plain strings carry a string. -/
def Constant.asString : Constant → Except String String
  | .identifier s => .ok s
  | .fieldName s => .ok s
  | .functionName s => .ok s
  | .str s => .ok s
  | c => .error s!"Constant {repr c} is not a string"

/-- Outcome of a computation in code that may `panic!` in Rust: an ordinary
success, an error value returned to the caller, or a Rust panic (which is
not an error value — it aborts). -/
inductive Outcome (ε : Type) (α : Type) where
  | ok : α → Outcome ε α
  | err : ε → Outcome ε α
  | panic : String → Outcome ε α
  deriving Repr, DecidableEq

/-- Monadic bind for `Outcome`, threading errors and panics. -/
def Outcome.bind : Outcome ε α → (α → Outcome ε β) → Outcome ε β
  | .ok a, f => f a
  | .err e, _ => .err e
  | .panic m, _ => .panic m

instance : Monad (Outcome ε) where
  pure := .ok
  bind := Outcome.bind

/-- Constant pool, from `constant_pool.rs`: an ordered list indexed by u16. -/
structure ConstantPool where
  constants : List Constant
  deriving Repr, DecidableEq

/-- Empty pool, from `ConstantPool::new`. -/
def ConstantPool.new : ConstantPool := ⟨[]⟩

/-- Pool insertion, from `ConstantPool::add`: appends and returns the new
index, but PANICS when the index would reach `u16::MAX` (65535). -/
def ConstantPool.add (p : ConstantPool) (c : Constant) :
    Outcome ε (Nat × ConstantPool) :=
  let index := p.constants.length
  if index ≥ 65535 then .panic "Constant pool overflow: too many constants"
  else .ok (index, ⟨p.constants ++ [c]⟩)

/-- Pool lookup, from `ConstantPool::get`. -/
def ConstantPool.get (p : ConstantPool) (index : Nat) : Except String Constant :=
  match p.constants.get? index with
  | some c => .ok c
  | Option.none => .error s!"Constant pool index {index} out of bounds"

/-- Pool size, from `ConstantPool::len`. -/
def ConstantPool.len (p : ConstantPool) : Nat := p.constants.length

/-- Literal lookup, from `ConstantPool::get_value`. -/
def ConstantPool.getValue (p : ConstantPool) (index : Nat) : Except String Value := do
  let c ← p.get index
  c.asValue

/-- Name lookup, from `ConstantPool::get_string`. -/
def ConstantPool.getString (p : ConstantPool) (index : Nat) : Except String String := do
  let c ← p.get index
  c.asString

/-- Opcode enumeration from `opcodes.rs`. -/
inductive Opcode where
  | pushConst | pop | dup
  | loadVar | storeVar
  | add | sub | mul | div | mod
  | eq | ne | lt | gt | le | ge
  | and | or | not
  | getAttr | getItem | setAttr
  | callFunc
  deriving Repr, DecidableEq

/-- Opcode byte values, from the `#[repr(u8)]` discriminants. -/
def Opcode.toU8 : Opcode → Nat
  | .pushConst => 0x01
  | .pop => 0x02
  | .dup => 0x03
  | .loadVar => 0x10
  | .storeVar => 0x11
  | .add => 0x20
  | .sub => 0x21
  | .mul => 0x22
  | .div => 0x23
  | .mod => 0x24
  | .eq => 0x30
  | .ne => 0x31
  | .lt => 0x32
  | .gt => 0x33
  | .le => 0x34
  | .ge => 0x35
  | .and => 0x40
  | .or => 0x41
  | .not => 0x42
  | .getAttr => 0x50
  | .getItem => 0x51
  | .setAttr => 0x52
  | .callFunc => 0x60

/-- Byte decoding, from `Opcode::from_u8`. -/
def Opcode.fromU8 (byte : Nat) : Except String Opcode :=
  if byte = 0x01 then .ok .pushConst
  else if byte = 0x02 then .ok .pop
  else if byte = 0x03 then .ok .dup
  else if byte = 0x10 then .ok .loadVar
  else if byte = 0x11 then .ok .storeVar
  else if byte = 0x20 then .ok .add
  else if byte = 0x21 then .ok .sub
  else if byte = 0x22 then .ok .mul
  else if byte = 0x23 then .ok .div
  else if byte = 0x24 then .ok .mod
  else if byte = 0x30 then .ok .eq
  else if byte = 0x31 then .ok .ne
  else if byte = 0x32 then .ok .lt
  else if byte = 0x33 then .ok .gt
  else if byte = 0x34 then .ok .le
  else if byte = 0x35 then .ok .ge
  else if byte = 0x40 then .ok .and
  else if byte = 0x41 then .ok .or
  else if byte = 0x42 then .ok .not
  else if byte = 0x50 then .ok .getAttr
  else if byte = 0x51 then .ok .getItem
  else if byte = 0x52 then .ok .setAttr
  else if byte = 0x60 then .ok .callFunc
  else .error s!"Unknown opcode: {byte}"

/-- Binary arithmetic operation selector, from `dispatcher.rs`. -/
inductive BinaryOp where
  | add | sub | mul | div | mod
  deriving Repr, DecidableEq

/-- Comparison operation selector, from `dispatcher.rs`. -/
inductive ComparisonOp where
  | eq | ne | lt | gt | le | ge
  deriving Repr, DecidableEq

/-- Debug rendering of a `BinaryOp`, as produced by Rust `{:?}` in error
messages. -/
def BinaryOp.debugName : BinaryOp → String
  | .add => "Add"
  | .sub => "Sub"
  | .mul => "Mul"
  | .div => "Div"
  | .mod => "Mod"

/-- Debug rendering of a `ComparisonOp`, as produced by Rust `{:?}`. -/
def ComparisonOp.debugName : ComparisonOp → String
  | .eq => "Eq"
  | .ne => "Ne"
  | .lt => "Lt"
  | .gt => "Gt"
  | .le => "Le"
  | .ge => "Ge"

/-- Two's-complement wrap into the signed 64-bit range, the behaviour of
release-mode Rust `i64` arithmetic (the spec notes "overflow wraps as in
the source"). -/
def wrap64 (x : Int) : Int := (x + 2 ^ 63) % 2 ^ 64 - 2 ^ 63

/-- Uninterpreted IEEE-754 double operations on bit patterns.  Every
property proved in this file is independent of these functions: the
executor and dispatcher only ever *test* the bit patterns the Rust code
tests (`±0.0`, NaN), never the value of an arithmetic result. -/
structure FloatOps where
  fadd : Nat → Nat → Nat
  fsub : Nat → Nat → Nat
  fmul : Nat → Nat → Nat
  fdiv : Nat → Nat → Nat
  fmod : Nat → Nat → Nat
  intToBits : Int → Nat
  feq : Nat → Nat → Bool
  fne : Nat → Nat → Bool
  flt : Nat → Nat → Bool
  fgt : Nat → Nat → Bool
  fle : Nat → Nat → Bool
  fge : Nat → Nat → Bool

/-- Placeholder instantiation of `FloatOps` used for concrete evaluation;
the theorems below never depend on the values it returns. -/
def floatOps0 : FloatOps where
  fadd _ _ := 0
  fsub _ _ := 0
  fmul _ _ := 0
  fdiv _ _ := 0
  fmod _ _ := 0
  intToBits _ := 0
  feq _ _ := false
  fne _ _ := false
  flt _ _ := false
  fgt _ _ := false
  fle _ _ := false
  fge _ _ := false

/-- Widen an operand of the mixed float branch to double bits, as the Rust
code does with `*i as f64` / `*f`. -/
def Value.toF64Bits (F : FloatOps) : Value → Nat
  | .float bits => bits
  | .int i => F.intToBits i
  | _ => 0

/-- Default binary arithmetic from `binary_op_default` in `dispatcher.rs`.
Int/Int uses signed 64-bit arithmetic with `Div`/`Mod` by zero as errors;
any float operand widens the other side, `Div` by `0.0` is an error but
`Mod` performs the float remainder without a zero test; `String + String`
concatenates; everything else is a type error. -/
def binaryOpDefault (F : FloatOps) (op : BinaryOp) (left right : Value) :
    Except String Value :=
  match left, right with
  | .int l, .int r =>
    match op with
    | .add => .ok (.int (wrap64 (l + r)))
    | .sub => .ok (.int (wrap64 (l - r)))
    | .mul => .ok (.int (wrap64 (l * r)))
    | .div =>
      if r = 0 then .error "Division by zero"
      else .ok (.int (wrap64 (Int.tdiv l r)))
    | .mod =>
      if r = 0 then .error "Modulo by zero"
      else .ok (.int (wrap64 (Int.tmod l r)))
  | .float lb, .float rb => binaryFloat F op lb rb
  | .float lb, .int r => binaryFloat F op lb (F.intToBits r)
  | .int l, .float rb => binaryFloat F op (F.intToBits l) rb
  | .str l, .str r =>
    match op with
    | .add => .ok (.str (l ++ r))
    | _ =>
      .error s!"Cannot perform {op.debugName} on {(Value.str l).typeName} and {(Value.str r).typeName}"
  | l, r =>
    .error s!"Cannot perform {op.debugName} on {l.typeName} and {r.typeName}"
where
  /-- Float branch of `binary_op_default` after widening both sides. -/
  binaryFloat (F : FloatOps) (op : BinaryOp) (lf rf : Nat) : Except String Value :=
    match op with
    | .add => .ok (.float (F.fadd lf rf))
    | .sub => .ok (.float (F.fsub lf rf))
    | .mul => .ok (.float (F.fmul lf rf))
    | .div =>
      if f64IsZero rf then .error "Division by zero"
      else .ok (.float (F.fdiv lf rf))
    | .mod => .ok (.float (F.fmod lf rf))

/-- Float branch of `comparison_op_default` after widening both sides. -/
def comparisonFloat (F : FloatOps) (op : ComparisonOp) (lf rf : Nat) : Bool :=
  match op with
  | .eq => F.feq lf rf
  | .ne => F.fne lf rf
  | .lt => F.flt lf rf
  | .gt => F.fgt lf rf
  | .le => F.fle lf rf
  | .ge => F.fge lf rf

/-- Default comparisons from `comparison_op_default` in `dispatcher.rs`.
Bools support only equality; Int/Int compares exactly; a float operand
widens the other side; String/String is lexicographic; `None` equals only
`None` and cannot be ordered; every remaining combination is an error. -/
def comparisonOpDefault (F : FloatOps) (op : ComparisonOp) (left right : Value) :
    Except String Value := do
  let result ← match left, right with
    | .bool l, .bool r =>
      match op with
      | .eq => Except.ok (decide (l = r))
      | .ne => Except.ok (decide (l ≠ r))
      | _ => Except.error s!"Cannot compare bools with {op.debugName}"
    | .int l, .int r =>
      match op with
      | .eq => Except.ok (decide (l = r))
      | .ne => Except.ok (decide (l ≠ r))
      | .lt => Except.ok (decide (l < r))
      | .gt => Except.ok (decide (l > r))
      | .le => Except.ok (decide (l ≤ r))
      | .ge => Except.ok (decide (l ≥ r))
    | .float lb, .float rb => Except.ok (comparisonFloat F op lb rb)
    | .float lb, .int r => Except.ok (comparisonFloat F op lb (F.intToBits r))
    | .int l, .float rb => Except.ok (comparisonFloat F op (F.intToBits l) rb)
    | .str l, .str r =>
      match op with
      | .eq => Except.ok (decide (l = r))
      | .ne => Except.ok (decide (l ≠ r))
      | .lt => Except.ok (decide (l < r))
      | .gt => Except.ok (decide (r < l))
      | .le => Except.ok (decide (l ≤ r))
      | .ge => Except.ok (decide (r ≤ l))
    | .none, .none =>
      match op with
      | .eq => Except.ok true
      | .ne => Except.ok false
      | _ => Except.error "Cannot order-compare None values"
    | .none, _ =>
      match op with
      | .eq => Except.ok false
      | .ne => Except.ok true
      | _ => Except.error "Cannot order-compare with None"
    | _, .none =>
      match op with
      | .eq => Except.ok false
      | .ne => Except.ok true
      | _ => Except.error "Cannot order-compare with None"
    | l, r =>
      Except.error s!"Cannot compare {l.typeName} and {r.typeName} with {op.debugName}"
  return .bool result

/-- Shallow embedding of the `Dispatcher` trait from `dispatcher.rs`.
`σ` is the dispatcher's mutable state (e.g. its capture buffer); every
operation threads it explicitly.  `binaryOp`/`comparisonOp` are the
overridable hooks whose trait-default implementations are
`binaryOpDefault`/`comparisonOpDefault`. -/
structure Dispatcher (σ : Type) where
  loadVariable : σ → String → Except String (Value × σ)
  storeVariable : σ → String → Value → Except String σ
  getAttribute : σ → Value → String → Except String (Value × σ)
  setAttribute : σ → Value → String → Value → Except String σ
  getItem : σ → Value → Value → Except String (Value × σ)
  callFunction : σ → String → List Value → Except String (Value × σ)
  binaryOp : σ → BinaryOp → Value → Value → Except String (Value × σ)
  comparisonOp : σ → ComparisonOp → Value → Value → Except String (Value × σ)

/-- A dispatcher all of whose operations succeed on every input. -/
def Dispatcher.Total (D : Dispatcher σ) : Prop :=
  (∀ s n, ∃ r, D.loadVariable s n = .ok r) ∧
  (∀ s n v, ∃ r, D.storeVariable s n v = .ok r) ∧
  (∀ s o n, ∃ r, D.getAttribute s o n = .ok r) ∧
  (∀ s o n v, ∃ r, D.setAttribute s o n v = .ok r) ∧
  (∀ s o k, ∃ r, D.getItem s o k = .ok r) ∧
  (∀ s n args, ∃ r, D.callFunction s n args = .ok r) ∧
  (∀ s op l r, ∃ p, D.binaryOp s op l r = .ok p) ∧
  (∀ s op l r, ∃ p, D.comparisonOp s op l r = .ok p)

/-- Little-endian u16 decoding as performed by `Executor::read_u16`. -/
def u16le (b0 b1 : Nat) : Nat := b0 + 256 * b1

/-- One arithmetic opcode step (`Executor::binary_op`): pop right then
left, call the dispatcher hook, push the result. -/
def binStep (D : Dispatcher σ) (op : BinaryOp) (stack : List Value) (s : σ) :
    Except String (Value × List Value × σ) :=
  match stack with
  | right :: left :: stack' =>
    match D.binaryOp s op left right with
    | .error e => .error e
    | .ok (v, s') => .ok (v, stack', s')
  | _ => .error "Stack underflow"

/-- One comparison opcode step (`Executor::comparison_op`). -/
def cmpStep (D : Dispatcher σ) (op : ComparisonOp) (stack : List Value) (s : σ) :
    Except String (Value × List Value × σ) :=
  match stack with
  | right :: left :: stack' =>
    match D.comparisonOp s op left right with
    | .error e => .error e
    | .ok (v, s') => .ok (v, stack', s')
  | _ => .error "Stack underflow"

/-- The executor loop from `Executor::execute`, one step per instruction.
The value stack is a list with its head as the top.  The result pairs the
`Result` of the Rust method with the dispatcher state left behind (in Rust
the dispatcher outlives the failed call, so state survives errors). -/
def exec (pool : ConstantPool) (D : Dispatcher σ) :
    List Nat → List Value → σ → Except String (List Value) × σ
  | [], stack, s => (.ok stack, s)
  | b :: rest, stack, s =>
    match Opcode.fromU8 b with
    | .error e => (.error e, s)
    | .ok op =>
      match op with
      | .pushConst =>
        match rest with
        | b0 :: b1 :: rest' =>
          match pool.getValue (u16le b0 b1) with
          | .error e => (.error e, s)
          | .ok v => exec pool D rest' (v :: stack) s
        | _ => (.error "Unexpected end of bytecode while reading u16", s)
      | .pop =>
        match stack with
        | [] => (.error "Stack underflow", s)
        | _ :: stack' => exec pool D rest stack' s
      | .dup => (.error "DUP instruction not yet implemented", s)
      | .loadVar =>
        match rest with
        | b0 :: b1 :: rest' =>
          match pool.getString (u16le b0 b1) with
          | .error e => (.error e, s)
          | .ok name =>
            match D.loadVariable s name with
            | .error e => (.error e, s)
            | .ok (v, s') => exec pool D rest' (v :: stack) s'
        | _ => (.error "Unexpected end of bytecode while reading u16", s)
      | .storeVar =>
        match rest with
        | b0 :: b1 :: rest' =>
          match pool.getString (u16le b0 b1) with
          | .error e => (.error e, s)
          | .ok name =>
            match stack with
            | [] => (.error "Stack underflow", s)
            | v :: stack' =>
              match D.storeVariable s name v with
              | .error e => (.error e, s)
              | .ok s' => exec pool D rest' stack' s'
        | _ => (.error "Unexpected end of bytecode while reading u16", s)
      | .add =>
        match binStep D .add stack s with
        | .error e => (.error e, s)
        | .ok (v, stack', s') => exec pool D rest (v :: stack') s'
      | .sub =>
        match binStep D .sub stack s with
        | .error e => (.error e, s)
        | .ok (v, stack', s') => exec pool D rest (v :: stack') s'
      | .mul =>
        match binStep D .mul stack s with
        | .error e => (.error e, s)
        | .ok (v, stack', s') => exec pool D rest (v :: stack') s'
      | .div =>
        match binStep D .div stack s with
        | .error e => (.error e, s)
        | .ok (v, stack', s') => exec pool D rest (v :: stack') s'
      | .mod =>
        match binStep D .mod stack s with
        | .error e => (.error e, s)
        | .ok (v, stack', s') => exec pool D rest (v :: stack') s'
      | .eq =>
        match cmpStep D .eq stack s with
        | .error e => (.error e, s)
        | .ok (v, stack', s') => exec pool D rest (v :: stack') s'
      | .ne =>
        match cmpStep D .ne stack s with
        | .error e => (.error e, s)
        | .ok (v, stack', s') => exec pool D rest (v :: stack') s'
      | .lt =>
        match cmpStep D .lt stack s with
        | .error e => (.error e, s)
        | .ok (v, stack', s') => exec pool D rest (v :: stack') s'
      | .gt =>
        match cmpStep D .gt stack s with
        | .error e => (.error e, s)
        | .ok (v, stack', s') => exec pool D rest (v :: stack') s'
      | .le =>
        match cmpStep D .le stack s with
        | .error e => (.error e, s)
        | .ok (v, stack', s') => exec pool D rest (v :: stack') s'
      | .ge =>
        match cmpStep D .ge stack s with
        | .error e => (.error e, s)
        | .ok (v, stack', s') => exec pool D rest (v :: stack') s'
      | .and =>
        match stack with
        | right :: left :: stack' =>
          exec pool D rest (Value.bool (left.isTruthy && right.isTruthy) :: stack') s
        | _ => (.error "Stack underflow", s)
      | .or =>
        match stack with
        | right :: left :: stack' =>
          exec pool D rest (Value.bool (left.isTruthy || right.isTruthy) :: stack') s
        | _ => (.error "Stack underflow", s)
      | .not =>
        match stack with
        | v :: stack' => exec pool D rest (Value.bool (!v.isTruthy) :: stack') s
        | _ => (.error "Stack underflow", s)
      | .getAttr =>
        match rest with
        | b0 :: b1 :: rest' =>
          match pool.getString (u16le b0 b1) with
          | .error e => (.error e, s)
          | .ok attr =>
            match stack with
            | [] => (.error "Stack underflow", s)
            | o :: stack' =>
              match D.getAttribute s o attr with
              | .error e => (.error e, s)
              | .ok (v, s') => exec pool D rest' (v :: stack') s'
        | _ => (.error "Unexpected end of bytecode while reading u16", s)
      | .setAttr =>
        match rest with
        | b0 :: b1 :: rest' =>
          match pool.getString (u16le b0 b1) with
          | .error e => (.error e, s)
          | .ok attr =>
            match stack with
            | v :: o :: stack' =>
              match D.setAttribute s o attr v with
              | .error e => (.error e, s)
              | .ok s' => exec pool D rest' stack' s'
            | _ => (.error "Stack underflow", s)
        | _ => (.error "Unexpected end of bytecode while reading u16", s)
      | .getItem =>
        match stack with
        | key :: o :: stack' =>
          match D.getItem s o key with
          | .error e => (.error e, s)
          | .ok (v, s') => exec pool D rest (v :: stack') s'
        | _ => (.error "Stack underflow", s)
      | .callFunc =>
        match rest with
        | b0 :: b1 :: argc :: rest' =>
          match pool.getString (u16le b0 b1) with
          | .error e => (.error e, s)
          | .ok funcName =>
            if stack.length < argc then
              (.error s!"Stack underflow: need {argc} args for {funcName}(), but only {stack.length} on stack", s)
            else
              match D.callFunction s funcName ((stack.take argc).reverse) with
              | .error e => (.error e, s)
              | .ok (v, s') => exec pool D rest' (v :: (stack.drop argc)) s'
        | _ => (.error "Unexpected end of bytecode", s)

/-- Top-level `Executor::execute`: run the loop on a fresh stack, then pop
the final result, `None` when the stack is empty. -/
def execute (pool : ConstantPool) (D : Dispatcher σ) (bytecode : List Nat)
    (s : σ) : Except String Value × σ :=
  match exec pool D bytecode [] s with
  | (.ok stack, s') => (.ok (stack.headD Value.none), s')
  | (.error e, s') => (.error e, s')

/-- Source position from `lexer.rs` (1-indexed line and column, byte
offset). -/
structure Position where
  line : Nat
  column : Nat
  offset : Nat
  deriving Repr, DecidableEq

/-- The initial position, from `Position::start`. -/
def Position.start : Position := ⟨1, 1, 0⟩

/-- Source span from `lexer.rs`. -/
structure Span where
  start : Position
  stop : Position
  deriving Repr, DecidableEq

/-- Token kinds from `lexer.rs`.  Floats carry their bit pattern. -/
inductive TokenKind where
  | int : Int → TokenKind
  | float : Nat → TokenKind
  | str : String → TokenKind
  | bool : Bool → TokenKind
  | none : TokenKind
  | ident : String → TokenKind
  | fn | py | entry | exit | capture | send | sample | req | request
  | plus | minus | star | slash | percent
  | lt | gt | ltEq | gtEq | eqEq | notEq
  | and | or | not
  | eq
  | lparen | rparen | lbrace | rbrace | lbracket | rbracket
  | colon | semi | comma | dot | dollar
  | fslash | wildcard
  | eof
  deriving Repr, DecidableEq

/-- A token with its source span. -/
structure Token where
  kind : TokenKind
  span : Span
  deriving Repr, DecidableEq

/-- Error kinds from `parser/error.rs`. -/
inductive ErrorKind where
  | unexpectedToken | unexpectedEof | invalidToken | missingDelimiter
  | invalidProbeSpec | invalidExpression | invalidStatement | other
  deriving Repr, DecidableEq

/-- Parse error from `parser/error.rs` (the `level` field is always
`Error` in the source and is omitted). -/
structure ParseError where
  kind : ErrorKind
  message : String
  span : Span
  suggestion : Option String
  source : Option String
  deriving Repr, DecidableEq

/-- Constructor from `ParseError::at_span`. -/
def ParseError.atSpan (message : String) (span : Span) : ParseError :=
  ⟨.other, message, span, Option.none, Option.none⟩

/-- Constructor from `ParseError::with_kind`. -/
def ParseError.withKind (kind : ErrorKind) (message : String) (span : Span) :
    ParseError :=
  ⟨kind, message, span, Option.none, Option.none⟩

/-- From `ParseError::with_suggestion`. -/
def ParseError.withSuggestion (e : ParseError) (suggestion : String) : ParseError :=
  { e with suggestion := some suggestion }

/-- From `ParseError::with_source`. -/
def ParseError.withSource (e : ParseError) (src : String) : ParseError :=
  { e with source := some src }

/-- Token display used inside "expected" messages; only the shape matters
for the properties proved here, so keywords and operators print their
lexeme. -/
def TokenKind.display : TokenKind → String
  | .int n => s!"integer {n}"
  | .float b => s!"float bits {b}"
  | .str s => s!"string \"{s}\""
  | .bool b => s!"boolean {b}"
  | .none => "None"
  | .ident s => s!"identifier {s}"
  | .eof => "end of file"
  | k => s!"token {repr k}"

/-- From `ParseError::suggest_for_expected`. -/
def ParseError.suggestForExpected (expected found : TokenKind) : Option String :=
  match expected, found with
  | .semi, _ => some "Add a semicolon ';' at the end of the statement"
  | .rbrace, .eof => some "Add a closing brace to match the opening brace"
  | .rparen, .eof => some "Add a closing parenthesis ')' to match the opening parenthesis"
  | .rbracket, .eof => some "Add a closing bracket ']' to match the opening bracket"
  | _, _ => Option.none

/-- Constructor from `ParseError::expected`. -/
def ParseError.expected (expected : TokenKind) (found : Token) : ParseError :=
  { kind := if found.kind = .eof then .unexpectedEof else .unexpectedToken
    message := s!"Expected {expected.display}, found {found.kind.display}"
    span := found.span
    suggestion := ParseError.suggestForExpected expected found.kind
    source := Option.none }

/-- Binary AST operators, from `ast.rs`. -/
inductive AstBinaryOp where
  | add | sub | mul | div | mod
  | lt | gt | ltEq | gtEq | eq | notEq
  | and | or
  deriving Repr, DecidableEq

/-- Unary AST operators, from `ast.rs`. -/
inductive AstUnaryOp where
  | not
  deriving Repr, DecidableEq

/-- Request-scoped variable reference, from `ast.rs` (`RequestVar`). -/
structure RequestVar where
  isRequest : Bool
  field : String
  span : Span
  deriving Repr, DecidableEq

/-- Expressions, from `ast.rs` (`AstExpr`). -/
inductive AstExpr where
  | int : Int → Span → AstExpr
  | float : Nat → Span → AstExpr
  | str : String → Span → AstExpr
  | bool : Bool → Span → AstExpr
  | none : Span → AstExpr
  | ident : String → Span → AstExpr
  | requestVar : RequestVar → Span → AstExpr
  | binary : AstBinaryOp → AstExpr → AstExpr → Span → AstExpr
  | unary : AstUnaryOp → AstExpr → Span → AstExpr
  | fieldAccess : AstExpr → String → Span → AstExpr
  | indexAccess : AstExpr → AstExpr → Span → AstExpr
  | call : String → List AstExpr → Span → AstExpr
  deriving Repr

/-- Span projection, from `AstExpr::span`. -/
def AstExpr.span : AstExpr → Span
  | .int _ sp => sp
  | .float _ sp => sp
  | .str _ sp => sp
  | .bool _ sp => sp
  | .none sp => sp
  | .ident _ sp => sp
  | .requestVar _ sp => sp
  | .binary _ _ _ sp => sp
  | .unary _ _ sp => sp
  | .fieldAccess _ _ sp => sp
  | .indexAccess _ _ sp => sp
  | .call _ _ sp => sp

/-- A named capture argument, from `ast.rs`. -/
structure NamedArg where
  name : String
  value : AstExpr
  span : Span
  deriving Repr

/-- Capture argument forms, from `ast.rs`. -/
inductive CaptureArgs where
  | positional : List AstExpr → CaptureArgs
  | named : List NamedArg → CaptureArgs
  deriving Repr

/-- Sample directives, from `ast.rs`. -/
inductive SampleSpec where
  | percentage : Int → SampleSpec
  | ratio : Int → Int → SampleSpec
  deriving Repr, DecidableEq

/-- Statements, from `ast.rs` (`AstStatement`). -/
inductive AstStatement where
  | assignment : RequestVar → AstExpr → Span → AstStatement
  | sample : SampleSpec → Span → AstStatement
  | capture : Bool → CaptureArgs → Span → AstStatement
  deriving Repr

/-- Probe providers, from `ast.rs`. -/
inductive Provider where
  | fn | py
  deriving Repr, DecidableEq

/-- One segment of a probe's dotted module path, from `ast.rs`. -/
inductive ModulePart where
  | ident : String → ModulePart
  | wildcard : ModulePart
  deriving Repr, DecidableEq

/-- Dotted module/function path, from `ast.rs`. -/
structure ModuleFunction where
  parts : List ModulePart
  span : Span
  deriving Repr, DecidableEq

/-- Rendering from `impl Display for ModuleFunction`: parts joined by a
dot, with `*` for wildcards. -/
def ModuleFunction.render (mf : ModuleFunction) : String :=
  String.intercalate "."
    (mf.parts.map (fun p => match p with
      | .ident s => s
      | .wildcard => "*"))

/-- Probe points, from `ast.rs`. -/
inductive ProbePoint where
  | entry | exit
  | entryOffset : Int → ProbePoint
  | exitOffset : Int → ProbePoint
  deriving Repr, DecidableEq

/-- Probe specification in the AST; named `ProbeSpec` in `ast.rs` (renamed
here to avoid clashing with the VM-level `ProbeSpec` of `program.rs`). -/
structure AstProbeSpec where
  provider : Provider
  moduleFunction : ModuleFunction
  probePoint : ProbePoint
  span : Span
  deriving Repr, DecidableEq

/-- A probe definition, from `ast.rs` (`AstProbe`). -/
structure AstProbe where
  spec : AstProbeSpec
  predicate : Option AstExpr
  body : List AstStatement
  span : Span
  deriving Repr

/-- A whole program, from `ast.rs` (`AstProgram`). -/
structure AstProgram where
  probes : List AstProbe
  span : Span
  deriving Repr

/-- Function probe target, from `program.rs`. -/
inductive FnTarget where
  | entry | exit
  deriving Repr, DecidableEq

/-- VM-level probe specification, from `program.rs`. -/
inductive ProbeSpec where
  | fn : String → FnTarget → ProbeSpec
  deriving Repr, DecidableEq

/-- A compiled probe, from `program.rs`: identifier, spec, predicate
bytecode (empty when there is no predicate) and body bytecode. -/
structure Probe where
  id : String
  spec : ProbeSpec
  predicate : List Nat
  body : List Nat
  deriving Repr, DecidableEq

/-- A compiled program, from `program.rs`.  `sampling` is the `f32` bit
pattern. -/
structure Program where
  version : Nat
  constant_pool : ConstantPool
  probes : List Probe
  sampling : Nat
  deriving Repr, DecidableEq

/-- Deduplication key from `compiler.rs` (`ConstantKey`).  Our `Constant`
already stores floats by bit pattern, which is exactly what `ConstantKey`
does with `OrderedFloat(f.to_bits())`, so the key type coincides with
`Constant`. -/
abbrev ConstantKey := Constant

/-- From `Compiler::constant_to_key`: with bit-pattern floats the key is
the constant itself. -/
def Compiler.constantToKey (c : Constant) : ConstantKey := c

/-- Association-list lookup standing in for the `HashMap` of
`Compiler::constant_map` (only `get`/`insert` are used by the source). -/
def mapFind (m : List (ConstantKey × Nat)) (k : ConstantKey) : Option Nat :=
  (m.find? (fun p => p.1 = k)).map (·.2)

/-- Mutable compiler state, from the `Compiler` struct in `compiler.rs`:
the shared constant pool, the bytecode buffer being emitted, and the
deduplication map. -/
structure CState where
  constantPool : ConstantPool
  bytecode : List Nat
  constantMap : List (ConstantKey × Nat)
  deriving Repr, DecidableEq

/-- Fresh compiler, from `Compiler::new`. -/
def Compiler.new : CState := ⟨ConstantPool.new, [], []⟩

/-- From `Compiler::add_or_get_constant`: return an existing index for a
structurally equal constant, otherwise append to the pool (which panics at
65535 entries) and record the mapping. -/
def Compiler.addOrGetConstant (st : CState) (c : Constant) :
    Outcome ParseError (Nat × CState) :=
  let key := Compiler.constantToKey c
  match mapFind st.constantMap key with
  | some index => .ok (index, st)
  | Option.none =>
    match st.constantPool.add c with
    | .ok (index, pool') =>
      .ok (index, { st with
        constantPool := pool'
        constantMap := (key, index) :: st.constantMap })
    | .err e => .err e
    | .panic m => .panic m

/-- Little-endian byte pair for a u16 operand, from `u16::to_le_bytes`. -/
def u16Bytes (operand : Nat) : List Nat := [operand % 256, operand / 256]

/-- From `Compiler::emit`. -/
def Compiler.emit (st : CState) (op : Opcode) : CState :=
  { st with bytecode := st.bytecode ++ [op.toU8] }

/-- From `Compiler::emit_u16` (opcode followed by a little-endian u16). -/
def Compiler.emitU16 (st : CState) (op : Opcode) (operand : Nat) : CState :=
  { st with bytecode := st.bytecode ++ (op.toU8 :: u16Bytes operand) }

/-- From `Compiler::emit_call` (CallFunc, u16 function index, u8 count). -/
def Compiler.emitCall (st : CState) (funcIndex : Nat) (argCount : Nat) : CState :=
  { st with bytecode :=
      st.bytecode ++ (Opcode.callFunc.toU8 :: u16Bytes funcIndex ++ [argCount]) }

/-- From `Compiler::take_bytecode`: hand out the buffer and reset it. -/
def Compiler.takeBytecode (st : CState) : List Nat × CState :=
  (st.bytecode, { st with bytecode := [] })

mutual

/-- Expression lowering, from `Compiler::compile_expr` (post-order). -/
def Compiler.compileExpr (st : CState) : AstExpr → Outcome ParseError CState
  | .int value _ => do
    let (idx, st) ← Compiler.addOrGetConstant st (.int value)
    return Compiler.emitU16 st .pushConst idx
  | .float value _ => do
    let (idx, st) ← Compiler.addOrGetConstant st (.float value)
    return Compiler.emitU16 st .pushConst idx
  | .str value _ => do
    let (idx, st) ← Compiler.addOrGetConstant st (.str value)
    return Compiler.emitU16 st .pushConst idx
  | .bool value _ => do
    let (idx, st) ← Compiler.addOrGetConstant st (.bool value)
    return Compiler.emitU16 st .pushConst idx
  | .none _ => do
    let (idx, st) ← Compiler.addOrGetConstant st .none
    return Compiler.emitU16 st .pushConst idx
  | .ident name _ => do
    let (idx, st) ← Compiler.addOrGetConstant st (.identifier name)
    return Compiler.emitU16 st .loadVar idx
  | .requestVar var _ => do
    let varName := if var.isRequest then "request" else "req"
    let (varIdx, st) ← Compiler.addOrGetConstant st (.identifier varName)
    let st := Compiler.emitU16 st .loadVar varIdx
    let (fieldIdx, st) ← Compiler.addOrGetConstant st (.fieldName var.field)
    return Compiler.emitU16 st .getAttr fieldIdx
  | .binary op left right _ => do
    let st ← Compiler.compileExpr st left
    let st ← Compiler.compileExpr st right
    let opcode : Opcode :=
      match op with
      | .add => .add
      | .sub => .sub
      | .mul => .mul
      | .div => .div
      | .mod => .mod
      | .eq => .eq
      | .notEq => .ne
      | .lt => .lt
      | .gt => .gt
      | .ltEq => .le
      | .gtEq => .ge
      | .and => .and
      | .or => .or
    return Compiler.emit st opcode
  | .unary op e _ =>
    match op with
    | .not => do
      let st ← Compiler.compileExpr st e
      return Compiler.emit st .not
  | .fieldAccess object field _ => do
    let st ← Compiler.compileExpr st object
    let (idx, st) ← Compiler.addOrGetConstant st (.fieldName field)
    return Compiler.emitU16 st .getAttr idx
  | .indexAccess object index _ => do
    let st ← Compiler.compileExpr st object
    let st ← Compiler.compileExpr st index
    return Compiler.emit st .getItem
  | .call function args span => do
    let st ← Compiler.compileArgs st args
    let (idx, st) ← Compiler.addOrGetConstant st (.functionName function)
    if args.length > 255 then
      .err (ParseError.atSpan
        s!"Too many arguments to function {function}: {args.length} (max 255)" span)
    else
      return Compiler.emitCall st idx args.length

/-- Left-to-right compilation of call arguments (the `for arg in args`
loop of the `Call` arm). -/
def Compiler.compileArgs (st : CState) : List AstExpr → Outcome ParseError CState
  | [] => .ok st
  | e :: es => do
    let st ← Compiler.compileExpr st e
    Compiler.compileArgs st es

end

/-- Named-argument pair compilation (the `for named_arg in entries` loop
of the `Named` capture arm): push the name as a string constant, then the
value. -/
def Compiler.compileNamedArgs (st : CState) :
    List NamedArg → Outcome ParseError CState
  | [] => .ok st
  | a :: rest => do
    let (nameIdx, st) ← Compiler.addOrGetConstant st (.str a.name)
    let st := Compiler.emitU16 st .pushConst nameIdx
    let st ← Compiler.compileExpr st a.value
    Compiler.compileNamedArgs st rest

/-- Statement lowering, from `Compiler::compile_stmt`. -/
def Compiler.compileStmt (st : CState) : AstStatement → Outcome ParseError CState
  | .assignment var value _ => do
    let st ← Compiler.compileExpr st value
    let varName :=
      if var.isRequest then "request." ++ var.field else "req." ++ var.field
    let (idx, st) ← Compiler.addOrGetConstant st (.identifier varName)
    return Compiler.emitU16 st .storeVar idx
  | .capture isSend args span => do
    let st ←
      match args with
      | .positional exprs => do
        let st ← Compiler.compileArgs st exprs
        let funcName := if isSend then "send" else "capture"
        let (idx, st) ← Compiler.addOrGetConstant st (.functionName funcName)
        if exprs.length > 255 then
          Outcome.err (ParseError.atSpan
            s!"Too many arguments to {funcName}: {exprs.length} (max 255)" span)
        else
          Outcome.ok (Compiler.emitCall st idx exprs.length)
      | .named entries => do
        let st ← Compiler.compileNamedArgs st entries
        let funcName := if isSend then "send" else "capture"
        let (idx, st) ← Compiler.addOrGetConstant st (.functionName funcName)
        let argCount := entries.length * 2
        if argCount > 255 then
          Outcome.err (ParseError.atSpan
            s!"Too many arguments to {funcName}: {argCount} (max 255)" span)
        else
          Outcome.ok (Compiler.emitCall st idx argCount)
    return Compiler.emit st .pop
  | .sample _ span =>
    .err (ParseError.atSpan "Sample statements should be handled at probe level" span)

/-- Statement list compilation (the `for stmt in &probe.body` loop of
`Compiler::compile_probe`). -/
def Compiler.compileStmts (st : CState) :
    List AstStatement → Outcome ParseError CState
  | [] => .ok st
  | stmt :: rest => do
    let st ← Compiler.compileStmt st stmt
    Compiler.compileStmts st rest

/-- From `Compiler::compile_probe_spec`: render the dotted specifier and
keep only entry/exit (offsets are "simplified for now"). -/
def Compiler.compileProbeSpec (spec : AstProbeSpec) : Outcome ParseError ProbeSpec :=
  let specifier := spec.moduleFunction.render
  let target : FnTarget :=
    match spec.probePoint with
    | .entry => .entry
    | .exit => .exit
    | .entryOffset _ => .entry
    | .exitOffset _ => .exit
  .ok (.fn specifier target)

/-- From `Compiler::compile_probe`: auto-generated id, compiled spec,
predicate bytecode (empty when absent), body bytecode. -/
def Compiler.compileProbe (st : CState) (probe : AstProbe) (idx : Nat) :
    Outcome ParseError (Probe × CState) := do
  let id := "probe_" ++ toString idx
  let spec ← Compiler.compileProbeSpec probe.spec
  let (predicate, st) ←
    match probe.predicate with
    | some predExpr => do
      let st ← Compiler.compileExpr st predExpr
      Outcome.ok (Compiler.takeBytecode st)
    | Option.none => Outcome.ok (([] : List Nat), st)
  let st ← Compiler.compileStmts st probe.body
  let (body, st) := Compiler.takeBytecode st
  return (⟨id, spec, predicate, body⟩, st)

/-- The probe loop of `Compiler::compile`, carrying the enumeration
index. -/
def Compiler.compileProbes (st : CState) (idx : Nat) :
    List AstProbe → Outcome ParseError (List Probe × CState)
  | [] => .ok ([], st)
  | p :: ps => do
    let (probe, st) ← Compiler.compileProbe st p idx
    let (probes, st) ← Compiler.compileProbes st (idx + 1) ps
    return (probe :: probes, st)

/-- From `Compiler::compile`: compile every probe against one shared pool
and build the program (version 1, default sampling rate `1.0f32`). -/
def Compiler.compile (ast : AstProgram) : Outcome ParseError Program := do
  let (probes, st) ← Compiler.compileProbes Compiler.new 0 ast.probes
  return { version := 1
           constant_pool := st.constantPool
           probes := probes
           sampling := f32OneBits }

/-- Lexer state from `lexer.rs`: the remaining characters (head =
`self.current`), the current position, and the start of the token in
progress. -/
structure LexState where
  rest : List Char
  pos : Position
  tokenStart : Position
  deriving Repr

/-- Current character (`self.current`). -/
def LexState.cur (st : LexState) : Option Char := st.rest.head?

/-- Peek at the character after the current one (`Lexer::peek`). -/
def LexState.peekChar (st : LexState) : Option Char := (st.rest.drop 1).head?

/-- From `Lexer::advance`: step over the current character, updating line,
column and byte offset. -/
def LexState.advance (st : LexState) : LexState :=
  match st.rest with
  | [] => st
  | c :: cs =>
    let pos :=
      if c = '\n' then
        { line := st.pos.line + 1, column := 1, offset := st.pos.offset + c.utf8Size }
      else
        { st.pos with column := st.pos.column + 1, offset := st.pos.offset + c.utf8Size }
    { st with rest := cs, pos := pos }

/-- Body of the `#`-comment case of `skip_whitespace_and_comments`:
consume until (but not including) a newline or the end of input. -/
def skipLineComment : Nat → LexState → LexState
  | 0, st => st
  | fuel + 1, st =>
    match st.rest with
    | [] => st
    | c :: _ =>
      if c = '\n' then st
      else skipLineComment fuel st.advance

/-- Body of the `/* */`-comment case of `skip_whitespace_and_comments`:
consume until after a `*/` or the end of input.  As in every lexer scan
below, the fuel argument is the length of the remaining input at the call
site; each step consumes at least one character, so the fuel never runs
out before the input does and the zero-fuel arm coincides with the
end-of-input arm. -/
def skipBlockComment : Nat → LexState → LexState
  | 0, st => st
  | fuel + 1, st =>
    match st.rest with
    | [] => st
    | c :: _ =>
      if c = '*' ∧ st.peekChar = some '/' then st.advance.advance
      else skipBlockComment fuel st.advance

/-- From `Lexer::skip_whitespace_and_comments`: skip whitespace, `#` line
comments, and non-nesting `/* */` block comments. -/
def skipWs : Nat → LexState → LexState
  | 0, st => st
  | fuel + 1, st =>
    match st.rest with
    | [] => st
    | c :: _ =>
      if c = ' ' ∨ c = '\t' ∨ c = '\r' ∨ c = '\n' then
        skipWs fuel st.advance
      else if c = '#' then
        skipWs fuel (skipLineComment st.advance.rest.length st.advance)
      else if c = '/' ∧ st.peekChar = some '*' then
        skipWs fuel
          (skipBlockComment st.advance.advance.rest.length st.advance.advance)
      else st

/-- Build a token spanning from `token_start` to the current position
(`Lexer::make_token`). -/
def LexState.makeToken (st : LexState) (kind : TokenKind) : Token :=
  ⟨kind, ⟨st.tokenStart, st.pos⟩⟩

/-- String-literal body scan from `Lexer::lex_string`: process escapes
(`\n \r \t \\ \" \'`, unknown escapes kept verbatim), stop at the closing
quote (consumed) or the end of input. -/
def lexStringBody (quote : Char) : Nat → LexState → List Char →
    String × LexState
  | 0, st, acc => (String.mk acc.reverse, st)
  | fuel + 1, st, acc =>
    match st.rest with
    | [] => (String.mk acc.reverse, st)
    | c :: cs =>
      if c = quote then (String.mk acc.reverse, st.advance)
      else if c = '\\' then
        match cs with
        | [] => (String.mk acc.reverse, st.advance)
        | e :: _ =>
          let ch :=
            if e = 'n' then '\n'
            else if e = 'r' then '\r'
            else if e = 't' then '\t'
            else e
          lexStringBody quote fuel st.advance.advance (ch :: acc)
      else lexStringBody quote fuel st.advance (c :: acc)

/-- Digit run scan (the integer-part / fraction / exponent loops of
`Lexer::lex_number`). -/
def lexDigits : Nat → LexState → List Char → List Char × LexState
  | 0, st, acc => (acc, st)
  | fuel + 1, st, acc =>
    match st.rest with
    | [] => (acc, st)
    | c :: _ =>
      if '0' ≤ c ∧ c ≤ '9' then lexDigits fuel st.advance (c :: acc)
      else (acc, st)

/-- Numeric value of a digit character. -/
def digitVal (c : Char) : Nat := c.toNat - '0'.toNat

/-- Decimal value of a digit run (most significant first). -/
def digitsToNat (ds : List Char) : Nat :=
  ds.foldl (fun acc c => acc * 10 + digitVal c) 0

/-- Stand-in for Rust's `str::parse::<f64>` producing IEEE-754 bit
patterns.  No property proved in this development depends on the numeric
value of a float literal, so the conversion is left abstract (it returns
the bits `0`); the `unwrap_or(0.0)` overflow fallback of the source is
thereby indistinguishable here. -/
def f64ParseBits (_s : String) : Nat := 0

/-- Digit test on an optional character. -/
def isDigitOpt : Option Char → Bool
  | some d => decide ('0' ≤ d ∧ d ≤ '9')
  | Option.none => false

/-- Number scan from `Lexer::lex_number`: integer part, optional fraction
(only when a digit follows the dot), optional exponent; integers falling
outside `i64` parse to `0` (`unwrap_or(0)`).  The collected characters
are accumulated most-recent-first and reversed when the token is built. -/
def lexNumber (st : LexState) : Token × LexState :=
  let r1 : List Char × LexState := lexDigits st.rest.length st []
  let intDigits := r1.1
  let st1 := r1.2
  let r2 : Bool × List Char × LexState :=
    if st1.cur = some '.' ∧ isDigitOpt st1.peekChar then
      let r : List Char × LexState :=
        lexDigits st1.advance.rest.length st1.advance []
      (true, r.1 ++ ['.'], r.2)
    else (false, [], st1)
  let isFloat1 := r2.1
  let fracDigits := r2.2.1
  let st2 := r2.2.2
  let r3 : Bool × List Char × LexState :=
    if st2.cur = some 'e' ∨ st2.cur = some 'E' then
      let eChar := (st2.cur).getD 'e'
      let stE := st2.advance
      let r4 : List Char × LexState :=
        if stE.cur = some '+' ∨ stE.cur = some '-' then
          ([(stE.cur).getD '+'], stE.advance)
        else ([], stE)
      let r : List Char × LexState := lexDigits (r4.2).rest.length r4.2 []
      (true, eChar :: r4.1 ++ r.1.reverse, r.2)
    else (false, [], st2)
  let isFloat2 := r3.1
  let expChars := r3.2.1
  let st3 := r3.2.2
  let value := String.mk (intDigits.reverse ++ fracDigits.reverse ++ expChars)
  if isFloat1 ∨ isFloat2 then
    (st3.makeToken (.float (f64ParseBits value)), st3)
  else
    let n := digitsToNat intDigits.reverse
    let i : Int := if n > 9223372036854775807 then 0 else (n : Int)
    (st3.makeToken (.int i), st3)

/-- Identifier/keyword character test from `lex_ident`
(`is_alphanumeric() || ch == '_'`). -/
def isIdentChar (c : Char) : Bool := c.isAlphanum || c = '_'

/-- Identifier run scan (the loop of `Lexer::lex_ident` /
`lex_dollar_ident`). -/
def lexIdentChars : Nat → LexState → List Char → String × LexState
  | 0, st, acc => (String.mk acc.reverse, st)
  | fuel + 1, st, acc =>
    match st.rest with
    | [] => (String.mk acc.reverse, st)
    | c :: _ =>
      if isIdentChar c then lexIdentChars fuel st.advance (c :: acc)
      else (String.mk acc.reverse, st)

/-- Keyword table from `Lexer::lex_ident`. -/
def identKind (value : String) : TokenKind :=
  if value = "fn" then .fn
  else if value = "py" then .py
  else if value = "entry" then .entry
  else if value = "exit" then .exit
  else if value = "capture" then .capture
  else if value = "send" then .send
  else if value = "sample" then .sample
  else if value = "True" then .bool true
  else if value = "False" then .bool false
  else if value = "None" then .none
  else .ident value

/-- From `Lexer::lex_dollar_ident`: `$req` and `$request` are keywords;
any other `$…` becomes a single identifier token retaining the `$`. -/
def dollarIdentKind (value : String) : TokenKind :=
  if value = "req" then .req
  else if value = "request" then .request
  else .ident ("$" ++ value)

/-- From `Lexer::next_token`: skip whitespace/comments, then scan one
token.  The lexer never fails; unknown characters become identifier
tokens. -/
def nextToken (st0 : LexState) : Token × LexState :=
  let st1 := skipWs st0.rest.length st0
  let st := { st1 with tokenStart := st1.pos }
  match st.cur with
  | Option.none => (st.makeToken .eof, st)
  | some ch =>
    if ch = '(' then (st.advance.makeToken .lparen, st.advance)
    else if ch = ')' then (st.advance.makeToken .rparen, st.advance)
    else if ch = '{' then (st.advance.makeToken .lbrace, st.advance)
    else if ch = '}' then (st.advance.makeToken .rbrace, st.advance)
    else if ch = '[' then (st.advance.makeToken .lbracket, st.advance)
    else if ch = ']' then (st.advance.makeToken .rbracket, st.advance)
    else if ch = ';' then (st.advance.makeToken .semi, st.advance)
    else if ch = ',' then (st.advance.makeToken .comma, st.advance)
    else if ch = '.' then (st.advance.makeToken .dot, st.advance)
    else if ch = '%' then (st.advance.makeToken .percent, st.advance)
    else if ch = ':' then (st.advance.makeToken .colon, st.advance)
    else if ch = '+' then (st.advance.makeToken .plus, st.advance)
    else if ch = '-' then (st.advance.makeToken .minus, st.advance)
    else if ch = '*' then (st.advance.makeToken .star, st.advance)
    else if ch = '/' then (st.advance.makeToken .slash, st.advance)
    else if ch = '!' then
      let st' := st.advance
      if st'.cur = some '=' then (st'.advance.makeToken .notEq, st'.advance)
      else (st'.makeToken .not, st')
    else if ch = '=' then
      let st' := st.advance
      if st'.cur = some '=' then (st'.advance.makeToken .eqEq, st'.advance)
      else (st'.makeToken .eq, st')
    else if ch = '<' then
      let st' := st.advance
      if st'.cur = some '=' then (st'.advance.makeToken .ltEq, st'.advance)
      else (st'.makeToken .lt, st')
    else if ch = '>' then
      let st' := st.advance
      if st'.cur = some '=' then (st'.advance.makeToken .gtEq, st'.advance)
      else (st'.makeToken .gt, st')
    else if ch = '&' then
      let st' := st.advance
      if st'.cur = some '&' then (st'.advance.makeToken .and, st'.advance)
      else (st'.makeToken (.ident "&"), st')
    else if ch = '|' then
      let st' := st.advance
      if st'.cur = some '|' then (st'.advance.makeToken .or, st'.advance)
      else (st'.makeToken (.ident "|"), st')
    else if ch = '$' then
      let (value, st') := lexIdentChars st.advance.rest.length st.advance []
      (st'.makeToken (dollarIdentKind value), st')
    else if ch = '"' ∨ ch = '\'' then
      let (value, st') := lexStringBody ch st.advance.rest.length st.advance []
      (st'.makeToken (.str value), st')
    else if '0' ≤ ch ∧ ch ≤ '9' then
      lexNumber st
    else if ch.isAlpha ∨ ch = '_' then
      let (value, st') := lexIdentChars st.rest.length st []
      (st'.makeToken (identKind value), st')
    else
      (st.advance.makeToken (.ident ch.toString), st.advance)

/-- Fuelled tokenisation driver: collect tokens until `Eof`.  Each
non-`Eof` token consumes at least one character, so fuel
`chars.length + 1` always suffices; the fallback `Eof` on exhausted fuel
is unreachable for the concrete inputs evaluated in this file. -/
def lexAllFuel : Nat → LexState → List Token
  | 0, st => [st.makeToken .eof]
  | fuel + 1, st =>
    let (tok, st') := nextToken st
    if tok.kind = .eof then [tok]
    else tok :: lexAllFuel fuel st'

/-- Tokenise a whole source string (`Lexer::new` + repeated
`next_token`). -/
def lexAll (source : String) : List Token :=
  let chars := source.data
  lexAllFuel (chars.length + 1) ⟨chars, Position.start, Position.start⟩

/-- Token produced when reading past the end of the stream (the real
lexer keeps yielding `Eof`). -/
def eofToken : Token := ⟨.eof, ⟨Position.start, Position.start⟩⟩

/-- The parser's `current` token over a token-list stream. -/
def curTok (ts : List Token) : Token := ts.headD eofToken

/-- The parser's `peek` token. -/
def peekTok (ts : List Token) : Token := (ts.drop 1).headD eofToken

/-- From `Parser::advance`. -/
def advanceTok (ts : List Token) : List Token := ts.drop 1

/-- From `Parser::check`: kind comparison with a wildcard match between
any two identifier tokens. -/
def checkTok (ts : List Token) (kind : TokenKind) : Bool :=
  match kind, (curTok ts).kind with
  | .ident _, .ident _ => true
  | k, ck => decide (k = ck)

/-- From `Parser::expect`: return the current token and advance, or fail
with an `expected` error. -/
def expectTok (ts : List Token) (kind : TokenKind) :
    Except ParseError (Token × List Token) :=
  if checkTok ts kind then .ok (curTok ts, advanceTok ts)
  else .error (ParseError.expected kind (curTok ts))

/-- From `Parser::current_binary_op`: the binary operator at the current
token together with its precedence (1 lowest … 6 highest). -/
def currentBinaryOp (ts : List Token) : Option (AstBinaryOp × Nat) :=
  match (curTok ts).kind with
  | .or => some (.or, 1)
  | .and => some (.and, 2)
  | .eqEq => some (.eq, 3)
  | .notEq => some (.notEq, 3)
  | .lt => some (.lt, 4)
  | .gt => some (.gt, 4)
  | .ltEq => some (.ltEq, 4)
  | .gtEq => some (.gtEq, 4)
  | .plus => some (.add, 5)
  | .minus => some (.sub, 5)
  | .star => some (.mul, 6)
  | .slash => some (.div, 6)
  | .percent => some (.mod, 6)
  | _ => Option.none

/-- From `Parser::current_binary_op_for_predicate`: at delimiter depth 0 a
`/` is the predicate terminator, not division. -/
def currentBinaryOpForPredicate (depth : Nat) (ts : List Token) :
    Option (AstBinaryOp × Nat) :=
  if depth = 0 ∧ (curTok ts).kind = .slash then Option.none
  else currentBinaryOp ts

/-- Error reported when the parser's fuel budget is exhausted.  Every
recursive parser function below consumes fuel linearly; the budget chosen
in `parseSource` is ample for the inputs evaluated in this file, so this
error is never reached there. -/
def fuelError (ts : List Token) : ParseError :=
  ParseError.atSpan "parser fuel exhausted" (curTok ts).span

/-- From `Parser::parse_probe_point` (non-recursive): `entry`/`exit` with
an optional `+N` offset; anything else is an `InvalidProbeSpec` error
carrying a typo-aware suggestion and the source text. -/
def parseProbePoint (src : String) (ts : List Token) :
    Except ParseError (ProbePoint × List Token) :=
  match (curTok ts).kind with
  | .entry =>
    let ts := advanceTok ts
    if checkTok ts .plus then
      let ts := advanceTok ts
      match (curTok ts).kind with
      | .int n => .ok (.entryOffset n, advanceTok ts)
      | _ => .error (ParseError.atSpan "Expected integer offset" (curTok ts).span)
    else .ok (.entry, ts)
  | .exit =>
    let ts := advanceTok ts
    if checkTok ts .plus then
      let ts := advanceTok ts
      match (curTok ts).kind with
      | .int n => .ok (.exitOffset n, advanceTok ts)
      | _ => .error (ParseError.atSpan "Expected integer offset" (curTok ts).span)
    else .ok (.exit, ts)
  | k =>
    let suggestion :=
      match k with
      | .ident s =>
        if s = "entr" ∨ s = "entyr" ∨ s = "entre" then "Did you mean 'entry'?"
        else if s = "exi" ∨ s = "ext" ∨ s = "exti" then "Did you mean 'exit'?"
        else "Probe points must be 'entry', 'exit', 'entry+N', or 'exit+N'"
      | _ => "Probe points must be 'entry', 'exit', 'entry+N', or 'exit+N'"
    .error ((((ParseError.withKind .invalidProbeSpec
        s!"Expected 'entry' or 'exit', found {k.display}"
        (curTok ts).span).withSuggestion suggestion).withSource src))

/-- The parts loop of `Parser::parse_module_function`. -/
def parseModuleFunction (fuel : Nat) (ts : List Token)
    (acc : List ModulePart) (start : Position) :
    Except ParseError (ModuleFunction × List Token) :=
  match fuel with
  | 0 => .error (fuelError ts)
  | fuel + 1 => do
    let (part, ts) ←
      match (curTok ts).kind with
      | .ident name => Except.ok (ModulePart.ident name, advanceTok ts)
      | .star => Except.ok (ModulePart.wildcard, advanceTok ts)
      | _ =>
        Except.error (ParseError.atSpan "Expected identifier or '*'" (curTok ts).span)
    let acc := acc ++ [part]
    if checkTok ts .dot then
      parseModuleFunction fuel (advanceTok ts) acc start
    else if acc.isEmpty then
      .error (ParseError.atSpan "Expected module/function path" (curTok ts).span)
    else
      .ok (⟨acc, ⟨start, (curTok ts).span.start⟩⟩, ts)

/-- From `Parser::parse_probe_spec`: provider, colon, dotted path, colon,
probe point. -/
def parseProbeSpec (fuel : Nat) (src : String) (ts : List Token) :
    Except ParseError (AstProbeSpec × List Token) := do
  let start := (curTok ts).span.start
  let (provider, ts) ←
    match (curTok ts).kind with
    | .fn => Except.ok (Provider.fn, advanceTok ts)
    | .py => Except.ok (Provider.py, advanceTok ts)
    | _ =>
      Except.error (((ParseError.withKind .invalidProbeSpec
          "Expected 'fn' or 'py' at start of probe specification"
          (curTok ts).span).withSuggestion
          "Probe specifications must start with 'fn:' or 'py:'").withSource src)
  let (_, ts) ← expectTok ts .colon
  let (moduleFunction, ts) ←
    parseModuleFunction fuel ts [] (curTok ts).span.start
  let (_, ts) ← expectTok ts .colon
  let (probePoint, ts) ← parseProbePoint src ts
  let stop := (curTok ts).span.start
  return (⟨provider, moduleFunction, probePoint, ⟨start, stop⟩⟩, ts)

/-- From `Parser::parse_sample_directive`: `sample N%;` or `sample N/M;`. -/
def parseSampleDirective (ts : List Token) :
    Except ParseError (AstStatement × List Token) := do
  let start := (curTok ts).span.start
  let ts := advanceTok ts
  let (numerator, ts) ←
    match (curTok ts).kind with
    | .int n => Except.ok (n, advanceTok ts)
    | _ => Except.error (ParseError.atSpan "Expected integer" (curTok ts).span)
  let (spec, ts) ←
    if checkTok ts .percent then
      Except.ok (SampleSpec.percentage numerator, advanceTok ts)
    else if checkTok ts .slash then
      let ts := advanceTok ts
      match (curTok ts).kind with
      | .int n => Except.ok (SampleSpec.ratio numerator n, advanceTok ts)
      | _ => Except.error (ParseError.atSpan "Expected integer" (curTok ts).span)
    else
      Except.error
        (ParseError.atSpan "Expected '%' or '/' after sample number" (curTok ts).span)
  let (semi, ts) ← expectTok ts .semi
  return (.sample spec ⟨start, semi.span.stop⟩, ts)

/-- From `Parser::parse_request_var_expr`: `$req.field`/`$request.field`
as an expression. -/
def parseRequestVarExpr (ts : List Token) :
    Except ParseError (AstExpr × List Token) := do
  let start := (curTok ts).span.start
  let isRequest := (curTok ts).kind = .request
  let ts := advanceTok ts
  let (_, ts) ← expectTok ts .dot
  let (fieldTok, ts) ← expectTok ts (.ident "")
  let field ←
    match fieldTok.kind with
    | .ident s => Except.ok s
    | _ =>
      Except.error
        (ParseError.atSpan "Expected field name after $req. or $request." fieldTok.span)
  let span : Span := ⟨start, fieldTok.span.stop⟩
  return (.requestVar ⟨isRequest, field, span⟩ span, ts)

/-- The family of mutually recursive parsing functions of
`parser/mod.rs`, one field per source method.  Packaging them in a record
lets the whole family be defined by a single structural recursion on the
shared fuel (`parserFns src fuel`), so that parsing computes inside the
kernel; every call between the source's mutual methods goes through the
family at the decremented fuel, exactly as the fuel was threaded in the
individual functions. -/
structure ParserFns where
  probes : List Token → Except ParseError (List AstProbe × List Token)
  probe : List Token → Except ParseError (AstProbe × List Token)
  stmtList : List Token → Except ParseError (List AstStatement × List Token)
  predicate : List Token → Except ParseError (AstExpr × List Token)
  predicateExprWithPrecedence :
    Nat → Nat → List Token → Except ParseError (AstExpr × List Token)
  predBinLoop :
    AstExpr → Nat → Nat → List Token → Except ParseError (AstExpr × List Token)
  unaryExprForPredicate :
    Nat → List Token → Except ParseError (AstExpr × List Token)
  postfixExprForPredicate :
    AstExpr → Nat → List Token → Except ParseError (AstExpr × List Token)
  statement : List Token → Except ParseError (AstStatement × List Token)
  assignment : List Token → Except ParseError (AstStatement × List Token)
  captureStatement : List Token → Except ParseError (AstStatement × List Token)
  captureArgs : List Token → Except ParseError (CaptureArgs × List Token)
  positionalArgsLoop : List Token → Except ParseError (List AstExpr × List Token)
  namedArgsLoop : List Token → Except ParseError (List NamedArg × List Token)
  expr : List Token → Except ParseError (AstExpr × List Token)
  exprWithPrecedence :
    Nat → List Token → Except ParseError (AstExpr × List Token)
  binLoop :
    AstExpr → Nat → List Token → Except ParseError (AstExpr × List Token)
  unaryExpr : List Token → Except ParseError (AstExpr × List Token)
  primaryExpr : List Token → Except ParseError (AstExpr × List Token)
  postfixExpr : AstExpr → List Token → Except ParseError (AstExpr × List Token)
  functionCall :
    String → Span → List Token → Except ParseError (AstExpr × List Token)
  callArgsLoop : List Token → Except ParseError (List AstExpr × List Token)

/-- Zero-fuel parser family: every entry reports fuel exhaustion (the
`0` arm shared by all the fuelled functions). -/
def parserFnsZero : ParserFns where
  probes ts := .error (fuelError ts)
  probe ts := .error (fuelError ts)
  stmtList ts := .error (fuelError ts)
  predicate ts := .error (fuelError ts)
  predicateExprWithPrecedence _ _ ts := .error (fuelError ts)
  predBinLoop _ _ _ ts := .error (fuelError ts)
  unaryExprForPredicate _ ts := .error (fuelError ts)
  postfixExprForPredicate _ _ ts := .error (fuelError ts)
  statement ts := .error (fuelError ts)
  assignment ts := .error (fuelError ts)
  captureStatement ts := .error (fuelError ts)
  captureArgs ts := .error (fuelError ts)
  positionalArgsLoop ts := .error (fuelError ts)
  namedArgsLoop ts := .error (fuelError ts)
  expr ts := .error (fuelError ts)
  exprWithPrecedence _ ts := .error (fuelError ts)
  binLoop _ _ ts := .error (fuelError ts)
  unaryExpr ts := .error (fuelError ts)
  primaryExpr ts := .error (fuelError ts)
  postfixExpr _ ts := .error (fuelError ts)
  functionCall _ _ ts := .error (fuelError ts)
  callArgsLoop ts := .error (fuelError ts)

/-- The parser family at a given fuel.  Each field is the `fuel + 1` arm
of the corresponding source method; `P` is the family at the decremented
fuel. -/
def parserFns (src : String) : Nat → ParserFns
  | 0 => parserFnsZero
  | fuel + 1 =>
    let P := parserFns src fuel
    { probes := fun ts =>
        if (curTok ts).kind = .eof then .ok ([], ts)
        else do
          let (probe, ts) ← P.probe ts
          let (probes, ts) ← P.probes ts
          return (probe :: probes, ts)
      probe := fun ts => do
        let start := (curTok ts).span.start
        let (spec, ts) ← parseProbeSpec fuel src ts
        let (predicate, ts) ←
          if checkTok ts .slash then do
            let (e, ts) ← P.predicate ts
            Except.ok (some e, ts)
          else Except.ok ((Option.none : Option AstExpr), ts)
        let (_, ts) ← expectTok ts .lbrace
        let (body, ts) ← P.stmtList ts
        let (close, ts) ← expectTok ts .rbrace
        return (⟨spec, predicate, body, ⟨start, close.span.stop⟩⟩, ts)
      stmtList := fun ts =>
        if !(checkTok ts .rbrace) ∧ (curTok ts).kind ≠ .eof then do
          let (stmt, ts) ← P.statement ts
          let (stmts, ts) ← P.stmtList ts
          return (stmt :: stmts, ts)
        else .ok ([], ts)
      predicate := fun ts => do
        let ts := advanceTok ts
        let (e, ts) ← P.predicateExprWithPrecedence 0 0 ts
        return (e, advanceTok ts)
      predicateExprWithPrecedence := fun minPrecedence depth ts => do
        let (left, ts) ← P.unaryExprForPredicate depth ts
        let (left, ts) ← P.postfixExprForPredicate left depth ts
        P.predBinLoop left minPrecedence depth ts
      predBinLoop := fun left minPrecedence depth ts =>
        match currentBinaryOpForPredicate depth ts with
        | Option.none => .ok (left, ts)
        | some (op, precedence) =>
          if precedence < minPrecedence then .ok (left, ts)
          else do
            let ts := advanceTok ts
            let (right, ts) ←
              P.predicateExprWithPrecedence (precedence + 1) depth ts
            let span : Span := ⟨left.span.start, right.span.stop⟩
            P.predBinLoop (.binary op left right span) minPrecedence depth ts
      unaryExprForPredicate := fun depth ts =>
        match (curTok ts).kind with
        | .not => do
          let start := (curTok ts).span.start
          let ts := advanceTok ts
          let (e, ts) ← P.unaryExprForPredicate depth ts
          return (.unary .not e ⟨start, e.span.stop⟩, ts)
        | .lparen => do
          let ts := advanceTok ts
          let (e, ts) ← P.predicateExprWithPrecedence 0 (depth + 1) ts
          let (_, ts) ← expectTok ts .rparen
          return (e, ts)
        | _ => P.primaryExpr ts
      postfixExprForPredicate := fun e depth ts =>
        match (curTok ts).kind with
        | .dot => do
          let ts := advanceTok ts
          let (fieldTok, ts) ← expectTok ts (.ident "")
          match fieldTok.kind with
          | .ident field =>
            P.postfixExprForPredicate
              (.fieldAccess e field ⟨e.span.start, fieldTok.span.stop⟩) depth ts
          | _ =>
            .error (ParseError.atSpan "Expected field name after '.'" fieldTok.span)
        | .lbracket => do
          let ts := advanceTok ts
          let (index, ts) ← P.predicateExprWithPrecedence 0 (depth + 1) ts
          let (close, ts) ← expectTok ts .rbracket
          P.postfixExprForPredicate
            (.indexAccess e index ⟨e.span.start, close.span.stop⟩) depth ts
        | _ => .ok (e, ts)
      statement := fun ts =>
        match (curTok ts).kind with
        | .req => P.assignment ts
        | .request => P.assignment ts
        | .sample => parseSampleDirective ts
        | .capture => P.captureStatement ts
        | .send => P.captureStatement ts
        | k =>
          .error (ParseError.atSpan s!"Expected statement, found {k.display}"
            (curTok ts).span)
      assignment := fun ts => do
        let start := (curTok ts).span.start
        let isRequest := (curTok ts).kind = .request
        let ts := advanceTok ts
        let (_, ts) ← expectTok ts .dot
        let (fieldTok, ts) ← expectTok ts (.ident "")
        let field ←
          match fieldTok.kind with
          | .ident s => Except.ok s
          | _ => Except.error (ParseError.atSpan "Expected field name" fieldTok.span)
        let var : RequestVar := ⟨isRequest, field, ⟨start, fieldTok.span.stop⟩⟩
        let (_, ts) ← expectTok ts .eq
        let (value, ts) ← P.expr ts
        let (semi, ts) ← expectTok ts .semi
        return (.assignment var value ⟨start, semi.span.stop⟩, ts)
      captureStatement := fun ts => do
        let start := (curTok ts).span.start
        let isSend := (curTok ts).kind = .send
        let ts := advanceTok ts
        let (_, ts) ← expectTok ts .lparen
        let (args, ts) ←
          if checkTok ts .rparen then Except.ok (CaptureArgs.positional [], ts)
          else P.captureArgs ts
        let (_, ts) ← expectTok ts .rparen
        let (semi, ts) ← expectTok ts .semi
        return (.capture isSend args ⟨start, semi.span.stop⟩, ts)
      captureArgs := fun ts =>
        match (curTok ts).kind, (peekTok ts).kind with
        | .ident _, .eq => do
          let (entries, ts) ← P.namedArgsLoop ts
          return (.named entries, ts)
        | _, _ => do
          let (args, ts) ← P.positionalArgsLoop ts
          return (.positional args, ts)
      positionalArgsLoop := fun ts => do
        let (arg, ts) ← P.expr ts
        if checkTok ts .comma then do
          let (args, ts) ← P.positionalArgsLoop (advanceTok ts)
          return (arg :: args, ts)
        else
          return ([arg], ts)
      namedArgsLoop := fun ts => do
        let start := (curTok ts).span.start
        let (nameTok, ts) ← expectTok ts (.ident "")
        let name ←
          match nameTok.kind with
          | .ident s => Except.ok s
          | _ => Except.error (ParseError.atSpan "Expected identifier" nameTok.span)
        let (_, ts) ← expectTok ts .eq
        let (value, ts) ← P.expr ts
        let entry : NamedArg := ⟨name, value, ⟨start, value.span.stop⟩⟩
        if checkTok ts .comma then do
          let (entries, ts) ← P.namedArgsLoop (advanceTok ts)
          return (entry :: entries, ts)
        else
          return ([entry], ts)
      expr := fun ts => P.exprWithPrecedence 0 ts
      exprWithPrecedence := fun minPrecedence ts => do
        let (left, ts) ← P.unaryExpr ts
        let (left, ts) ← P.postfixExpr left ts
        P.binLoop left minPrecedence ts
      binLoop := fun left minPrecedence ts =>
        match currentBinaryOp ts with
        | Option.none => .ok (left, ts)
        | some (op, precedence) =>
          if precedence < minPrecedence then .ok (left, ts)
          else do
            let ts := advanceTok ts
            let (right, ts) ← P.exprWithPrecedence (precedence + 1) ts
            let span : Span := ⟨left.span.start, right.span.stop⟩
            P.binLoop (.binary op left right span) minPrecedence ts
      unaryExpr := fun ts =>
        match (curTok ts).kind with
        | .not => do
          let start := (curTok ts).span.start
          let ts := advanceTok ts
          let (e, ts) ← P.unaryExpr ts
          return (.unary .not e ⟨start, e.span.stop⟩, ts)
        | _ => P.primaryExpr ts
      primaryExpr := fun ts =>
        let tok := curTok ts
        match tok.kind with
        | .int n => .ok (.int n tok.span, advanceTok ts)
        | .float b => .ok (.float b tok.span, advanceTok ts)
        | .str s => .ok (.str s tok.span, advanceTok ts)
        | .bool b => .ok (.bool b tok.span, advanceTok ts)
        | .none => .ok (.none tok.span, advanceTok ts)
        | .req => parseRequestVarExpr ts
        | .request => parseRequestVarExpr ts
        | .ident name =>
          let ts := advanceTok ts
          if checkTok ts .lparen then P.functionCall name tok.span ts
          else .ok (.ident name tok.span, ts)
        | .lparen => do
          let ts := advanceTok ts
          let (e, ts) ← P.expr ts
          let (_, ts) ← expectTok ts .rparen
          return (e, ts)
        | k =>
          .error (ParseError.atSpan s!"Expected expression, found {k.display}" tok.span)
      postfixExpr := fun e ts =>
        match (curTok ts).kind with
        | .dot => do
          let ts := advanceTok ts
          let (fieldTok, ts) ← expectTok ts (.ident "")
          match fieldTok.kind with
          | .ident field =>
            P.postfixExpr
              (.fieldAccess e field ⟨e.span.start, fieldTok.span.stop⟩) ts
          | _ =>
            .error (ParseError.atSpan "Expected field name after '.'" fieldTok.span)
        | .lbracket => do
          let ts := advanceTok ts
          let (index, ts) ← P.expr ts
          let (close, ts) ← expectTok ts .rbracket
          P.postfixExpr
            (.indexAccess e index ⟨e.span.start, close.span.stop⟩) ts
        | _ => .ok (e, ts)
      functionCall := fun name nameSpan ts => do
        let (_, ts) ← expectTok ts .lparen
        let (args, ts) ←
          if checkTok ts .rparen then Except.ok (([] : List AstExpr), ts)
          else P.callArgsLoop ts
        let (close, ts) ← expectTok ts .rparen
        return (.call name args ⟨nameSpan.start, close.span.stop⟩, ts)
      callArgsLoop := fun ts => do
        let (arg, ts) ← P.expr ts
        if checkTok ts .comma then do
          let (args, ts) ← P.callArgsLoop (advanceTok ts)
          return (arg :: args, ts)
        else
          return ([arg], ts) }

/-- The probe-collection loop of `Parser::parse_program`. -/
def parseProbes (fuel : Nat) (src : String) (ts : List Token) :
    Except ParseError (List AstProbe × List Token) :=
  (parserFns src fuel).probes ts

/-- From `Parser::parse_probe`: spec, optional `/…/` predicate, braced
statement block. -/
def parseProbe (fuel : Nat) (src : String) (ts : List Token) :
    Except ParseError (AstProbe × List Token) :=
  (parserFns src fuel).probe ts

/-- The statement loop of `Parser::parse_probe` (runs until `}` or EOF);
`src` only feeds error context in the source and is irrelevant here. -/
def parseStmtList (src : String) (fuel : Nat) (ts : List Token) :
    Except ParseError (List AstStatement × List Token) :=
  (parserFns src fuel).stmtList ts

/-- From `Parser::parse_predicate`: consume the opening `/`, parse the
depth-tracking predicate expression, then consume the closing `/`
(unconditionally, as the source does). -/
def parsePredicate (src : String) (fuel : Nat) (ts : List Token) :
    Except ParseError (AstExpr × List Token) :=
  (parserFns src fuel).predicate ts

/-- From `Parser::parse_expr`. -/
def parseExpr (src : String) (fuel : Nat) (ts : List Token) :
    Except ParseError (AstExpr × List Token) :=
  (parserFns src fuel).expr ts

/-- From `Parser::parse_capture_args`: a leading `Ident '='` selects the
named form, otherwise all arguments are positional expressions. -/
def parseCaptureArgs (src : String) (fuel : Nat) (ts : List Token) :
    Except ParseError (CaptureArgs × List Token) :=
  (parserFns src fuel).captureArgs ts

/-- From `Parser::parse_program`: parse probes until EOF and record the
whole-program span. -/
def parseProgram (fuel : Nat) (src : String) (ts : List Token) :
    Except ParseError AstProgram := do
  let start := (curTok ts).span.start
  let (probes, _) ← parseProbes fuel src ts
  let stop :=
    match probes.getLast? with
    | some last => last.span.stop
    | Option.none => start
  return ⟨probes, ⟨start, stop⟩⟩

/-- Fuel budget used when parsing a source string: generous and linear in
the token count, so that no input evaluated in this file can exhaust it. -/
def parseFuel (ts : List Token) : Nat := (ts.length + 2) * 64

/-- The `parse` convenience function of `parser/mod.rs`: lex, parse, and
compile in one step. -/
def parseSource (source : String) : Outcome ParseError Program :=
  let ts := lexAll source
  match parseProgram (parseFuel ts) source ts with
  | .error e => .err e
  | .ok ast => Compiler.compile ast

/-- A captured event from `python_dispatcher.rs` (`CaptureEvent`): the
named payload map, modelled as an association list with the `HashMap`
last-insert-wins update discipline. -/
structure CaptureEvent where
  data : List (String × Value)
  deriving Repr, DecidableEq

/-- `HashMap::insert` on the association-list model: replace the value of
an existing key in place, otherwise append. -/
def upsert (l : List (String × Value)) (k : String) (v : Value) :
    List (String × Value) :=
  if l.any (fun p => p.1 = k) then
    l.map (fun p => if p.1 = k then (k, v) else p)
  else l ++ [(k, v)]

/-- Manual value copy used by the capture branch (the source cannot
`Clone` a `Value`); `Object` payloads degrade to `None`. -/
def captureCopyValue : Value → Value
  | .obj _ => Value.none
  | v => v

/-- The elements at even indices of a list (`args.iter().step_by(2)`). -/
def evenIdx : List α → List α
  | [] => []
  | [a] => [a]
  | a :: _ :: rest => a :: evenIdx rest

/-- Named-form detection from the capture branch of
`PythonDispatcher::call_function`: even arity and a string at every even
index. -/
def captureIsNamed (args : List Value) : Bool :=
  decide (args.length % 2 = 0) &&
    (evenIdx args).all (fun v => match v with | .str _ => true | _ => false)

/-- The named-argument decode loop: pairs `(key, value)` walked two at a
time; non-string keys are skipped by the `if let`. -/
def captureNamedLoop : List Value → List (String × Value) → List (String × Value)
  | k :: v :: rest, data =>
    match k with
    | .str key => captureNamedLoop rest (upsert data key (captureCopyValue v))
    | _ => captureNamedLoop rest data
  | _, data => data

/-- The positional decode loop: values stored under `arg0`, `arg1`, …. -/
def capturePositionalLoop (i : Nat) :
    List Value → List (String × Value) → List (String × Value)
  | [], data => data
  | v :: rest, data =>
    capturePositionalLoop (i + 1) rest (upsert data ("arg" ++ toString i) (captureCopyValue v))

/-- Payload produced by one `capture`/`send` call, from the capture branch
of `PythonDispatcher::call_function` (lines 378–419). -/
def captureData (args : List Value) : List (String × Value) :=
  if captureIsNamed args then captureNamedLoop args []
  else capturePositionalLoop 0 args []

/-- The capture branch itself: append exactly one event and return
`None`. -/
def pythonCallCapture (captures : List CaptureEvent) (args : List Value) :
    Value × List CaptureEvent :=
  (Value.none, captures ++ [⟨captureData args⟩])

/-- From `PythonDispatcher::store_variable` (lines 277–284): storing to a
variable is unconditionally an error, for every name and value. -/
def pythonStoreVariable (name : String) (_value : Value) : Except String Unit :=
  .error s!"Cannot store to variable {name} (use SetAttr for $req.* assignments)"

/-- Dispatcher model of `PythonDispatcher` restricted to the behaviour the
verified scenarios exercise: the capture/send branch of `call_function`,
the always-failing `store_variable`, and the trait-default
`binary_op`/`comparison_op` (the Python dispatcher does not override
them).  Operations that need the live Python frame (variable loads,
attribute/item access, calling into `builtins`) answer with an error and
are never reached by the concrete programs executed in this file. -/
def captureDispatcher (F : FloatOps) : Dispatcher (List CaptureEvent) where
  loadVariable s name := .error s!"Variable {name} not found"
  storeVariable s name value :=
    match pythonStoreVariable name value with
    | .ok _ => .ok s
    | .error e => .error e
  getAttribute _ _ attr := .error s!"Failed to get attribute {attr}"
  setAttribute _ _ attr _ := .error s!"Cannot set attribute {attr} on non-request object"
  getItem _ _ _ := .error "Failed to get item"
  callFunction s name args :=
    if name = "capture" ∨ name = "send" then
      let (v, s') := pythonCallCapture s args
      .ok (v, s')
    else .error s!"Function {name} not found"
  binaryOp s op l r := (binaryOpDefault F op l r).map (·, s)
  comparisonOp s op l r := (comparisonOpDefault F op l r).map (·, s)

/-- Protobuf message for a function probe spec, mirroring the prost struct
used by `program.rs` (`proto::FnProbeSpec`); `target` is the enum's i32
value (0 = Entry, 1 = Exit). -/
structure PFnProbeSpec where
  function_specifier : String
  target : Nat
  deriving Repr, DecidableEq

/-- Protobuf message `proto::ProbeSpec` (a oneof with the single `fn`
variant). -/
structure PProbeSpec where
  spec : Option PFnProbeSpec
  deriving Repr, DecidableEq

/-- The `oneof value` payload of `proto::Constant`. -/
inductive PConstantValue where
  | intValue : Int → PConstantValue
  | floatValue : Nat → PConstantValue
  | stringValue : String → PConstantValue
  | boolValue : Bool → PConstantValue
  | noneValue : PConstantValue
  | identifier : String → PConstantValue
  | fieldName : String → PConstantValue
  | functionName : String → PConstantValue
  deriving Repr, DecidableEq

/-- Protobuf message `proto::Constant`. -/
structure PConstant where
  value : Option PConstantValue
  deriving Repr, DecidableEq

/-- Protobuf message `proto::ConstantPool`. -/
structure PConstantPool where
  constants : List PConstant
  deriving Repr, DecidableEq

/-- Protobuf message `proto::Probe`; `predicate` and `body` are bytes. -/
structure PProbe where
  id : String
  spec : Option PProbeSpec
  predicate : List Nat
  body : List Nat
  deriving Repr, DecidableEq

/-- Protobuf message `proto::Program`; `sampling` carries the f32 bit
pattern. -/
structure PProgram where
  version : Nat
  constant_pool : Option PConstantPool
  probes : List PProbe
  sampling : Nat
  deriving Repr, DecidableEq

/-- From `FnTarget::from_proto`: only the enum values 0 and 1 decode. -/
def FnTarget.fromProto (value : Nat) : Except String FnTarget :=
  if value = 0 then .ok .entry
  else if value = 1 then .ok .exit
  else .error s!"Invalid FnProbeTarget value: {value}"

/-- From `FnTarget::to_proto`. -/
def FnTarget.toProto : FnTarget → Nat
  | .entry => 0
  | .exit => 1

/-- From `ProbeSpec::from_proto`. -/
def ProbeSpec.fromProto (proto : PProbeSpec) : Except String ProbeSpec := do
  match proto.spec with
  | Option.none => .error "ProbeSpec has no spec variant"
  | some fnSpec => do
    let target ← FnTarget.fromProto fnSpec.target
    return .fn fnSpec.function_specifier target

/-- From `ProbeSpec::to_proto`. -/
def ProbeSpec.toProto : ProbeSpec → PProbeSpec
  | .fn specifier target => ⟨some ⟨specifier, target.toProto⟩⟩

/-- From `Probe::from_proto`. -/
def Probe.fromProto (proto : PProbe) : Except String Probe := do
  match proto.spec with
  | Option.none => .error "Probe missing spec"
  | some pspec => do
    let spec ← ProbeSpec.fromProto pspec
    return ⟨proto.id, spec, proto.predicate, proto.body⟩

/-- From `Probe::to_proto`. -/
def Probe.toProto (p : Probe) : PProbe :=
  ⟨p.id, some p.spec.toProto, p.predicate, p.body⟩

/-- From `Program::convert_constant`. -/
def Program.convertConstant (proto : PConstant) : Except String Constant :=
  match proto.value with
  | Option.none => .error "Constant has no value"
  | some v =>
    .ok (match v with
      | .intValue i => .int i
      | .floatValue f => .float f
      | .stringValue s => .str s
      | .boolValue b => .bool b
      | .noneValue => Constant.none
      | .identifier s => .identifier s
      | .fieldName s => .fieldName s
      | .functionName s => .functionName s)

/-- From `convert_constant_to_proto`. -/
def Program.convertConstantToProto (c : Constant) : PConstant :=
  ⟨some (match c with
    | .int i => .intValue i
    | .float f => .floatValue f
    | .str s => .stringValue s
    | .bool b => .boolValue b
    | Constant.none => .noneValue
    | .identifier s => .identifier s
    | .fieldName s => .fieldName s
    | .functionName s => .functionName s)⟩

/-- The constant loop of `Program::convert_constant_pool`, re-adding each
decoded constant through `ConstantPool::add` (which can panic on
overflow). -/
def Program.convertPoolLoop (pool : ConstantPool) :
    List PConstant → Outcome String ConstantPool
  | [] => .ok pool
  | pc :: rest =>
    match Program.convertConstant pc with
    | .error e => .err e
    | .ok c =>
      match pool.add c with
      | .ok (_, pool') => Program.convertPoolLoop pool' rest
      | .err e => .err e
      | .panic m => .panic m

/-- From `Program::convert_constant_pool`: the pool message is required. -/
def Program.convertConstantPool (proto : Option PConstantPool) :
    Outcome String ConstantPool :=
  match proto with
  | Option.none => .err "Missing constant pool"
  | some p => Program.convertPoolLoop ConstantPool.new p.constants

/-- From `Program::convert_constant_pool_to_proto` (the source iterates
indices 0..len and converts each entry in order). -/
def Program.convertConstantPoolToProto (pool : ConstantPool) : PConstantPool :=
  ⟨pool.constants.map Program.convertConstantToProto⟩

/-- List traversal for probe conversion, propagating the first error. -/
def Program.convertProbes : List PProbe → Except String (List Probe)
  | [] => .ok []
  | p :: rest => do
    let probe ← Probe.fromProto p
    let probes ← Program.convertProbes rest
    return probe :: probes

/-- From `Program::from_proto`: note that the version field is copied
verbatim — the source performs no version validation. -/
def Program.fromProto (proto : PProgram) : Outcome String Program := do
  let pool ← Program.convertConstantPool proto.constant_pool
  let probes ←
    match Program.convertProbes proto.probes with
    | .ok ps => Outcome.ok ps
    | .error e => Outcome.err e
  return { version := proto.version
           constant_pool := pool
           probes := probes
           sampling := proto.sampling }

/-- From `Program::to_proto`. -/
def Program.toProto (p : Program) : PProgram :=
  { version := p.version
    constant_pool := some (Program.convertConstantPoolToProto p.constant_pool)
    probes := p.probes.map Probe.toProto
    sampling := p.sampling }

/-!
Wire format.  The repository serialises `Program` with prost against a
`.proto` schema that is not part of the sources (only the generated-code
call sites in `program.rs` are).  Everything below the proto structs is
therefore *Modelled from the spec*, §4.5: a length-prefixed tag/value
binary format with varint scalars, little-endian fixed-width floats,
length-delimited strings/bytes/messages, proto3 default-value skipping
for plain fields, always-present oneof fields, and unknown-field
skipping on decode.  String payloads are the sequence of the string's
scalar values, each varint-encoded (the spec allows "any equivalent
structured binary format … provided all implementations agree").
-/

/-- LEB128 varint encoding. -/
def varint (n : Nat) : List Nat :=
  if h : n < 128 then [n]
  else (n % 128 + 128) :: varint (n / 128)
  termination_by n
  decreasing_by exact Nat.div_lt_self (by omega) (by omega)

/-- LEB128 varint decoding. -/
def devarint : List Nat → Option (Nat × List Nat)
  | [] => Option.none
  | b :: rest =>
    if b < 128 then some (b, rest)
    else
      match devarint rest with
      | some (m, r) => some (b - 128 + 128 * m, r)
      | Option.none => Option.none

/-- Little-endian fixed-width encoding (`count` bytes). -/
def natToLE : Nat → Nat → List Nat
  | 0, _ => []
  | k + 1, v => v % 256 :: natToLE k (v / 256)

/-- Little-endian fixed-width decoding. -/
def leToNat : List Nat → Nat
  | [] => 0
  | b :: rest => b % 256 + 256 * leToNat rest

/-- Read `n` raw bytes. -/
def readN (n : Nat) (bs : List Nat) : Option (List Nat × List Nat) :=
  if bs.length < n then Option.none else some (bs.take n, bs.drop n)

/-- Field tag bytes: varint of `fieldNumber * 8 + wireType`. -/
def tagBytes (fieldNumber wireType : Nat) : List Nat :=
  varint (fieldNumber * 8 + wireType)

/-- Length-delimited field (wire type 2). -/
def lenField (fieldNumber : Nat) (payload : List Nat) : List Nat :=
  tagBytes fieldNumber 2 ++ varint payload.length ++ payload

/-- Varint field with proto3 default skipping (wire type 0). -/
def varintField (fieldNumber n : Nat) : List Nat :=
  if n = 0 then [] else tagBytes fieldNumber 0 ++ varint n

/-- Varint field that is always emitted (for oneof members). -/
def varintFieldAlways (fieldNumber n : Nat) : List Nat :=
  tagBytes fieldNumber 0 ++ varint n

/-- Fixed64 field, always emitted (for the oneof double). -/
def fixed64Field (fieldNumber bits : Nat) : List Nat :=
  tagBytes fieldNumber 1 ++ natToLE 8 bits

/-- Fixed32 float field with proto3 `== 0.0` skipping. -/
def f32Field (fieldNumber bits : Nat) : List Nat :=
  if f32IsZero bits then [] else tagBytes fieldNumber 5 ++ natToLE 4 bits

/-- String payload: each scalar value varint-encoded in order. -/
def strPayload (s : String) : List Nat :=
  (s.data.map (fun c => varint c.toNat)).flatten

/-- Length-delimited string field with proto3 empty-string skipping. -/
def strField (fieldNumber : Nat) (s : String) : List Nat :=
  if s = "" then [] else lenField fieldNumber (strPayload s)

/-- Length-delimited bytes field with proto3 empty skipping. -/
def bytesField (fieldNumber : Nat) (bs : List Nat) : List Nat :=
  if bs = [] then [] else lenField fieldNumber bs

/-- Two's-complement u64 image of an `i64` (protobuf int64 varint
payload). -/
def intBits64 (i : Int) : Nat := (i % (2 ^ 64 : Int)).toNat

/-- Encoder for the `oneof value` of `proto::Constant` (field numbers 1–8
in declaration order; oneof members are never skipped). -/
def encPConstantValue : PConstantValue → List Nat
  | .intValue i => varintFieldAlways 1 (intBits64 i)
  | .floatValue b => fixed64Field 2 b
  | .stringValue s => lenField 3 (strPayload s)
  | .boolValue b => varintFieldAlways 4 (if b then 1 else 0)
  | .noneValue => lenField 5 []
  | .identifier s => lenField 6 (strPayload s)
  | .fieldName s => lenField 7 (strPayload s)
  | .functionName s => lenField 8 (strPayload s)

/-- Encoder for `proto::Constant`. -/
def encPConstant (c : PConstant) : List Nat :=
  match c.value with
  | some v => encPConstantValue v
  | Option.none => []

/-- Encoder for `proto::ConstantPool` (repeated field 1). -/
def encPConstantPool (p : PConstantPool) : List Nat :=
  (p.constants.map (fun c => lenField 1 (encPConstant c))).flatten

/-- Encoder for `proto::FnProbeSpec` (specifier field 1, target field 2). -/
def encPFnProbeSpec (f : PFnProbeSpec) : List Nat :=
  strField 1 f.function_specifier ++ varintField 2 f.target

/-- Encoder for `proto::ProbeSpec` (oneof `fn` as field 1). -/
def encPProbeSpec (ps : PProbeSpec) : List Nat :=
  match ps.spec with
  | some f => lenField 1 (encPFnProbeSpec f)
  | Option.none => []

/-- Encoder for `proto::Probe` (id 1, spec 2, predicate 3, body 4). -/
def encPProbe (pr : PProbe) : List Nat :=
  strField 1 pr.id ++
  (match pr.spec with
   | some ps => lenField 2 (encPProbeSpec ps)
   | Option.none => []) ++
  bytesField 3 pr.predicate ++
  bytesField 4 pr.body

/-- Encoder for `proto::Program` (version 1, constant_pool 2, probes 3,
sampling 4). -/
def encPProgram (p : PProgram) : List Nat :=
  varintField 1 p.version ++
  (match p.constant_pool with
   | some pool => lenField 2 (encPConstantPool pool)
   | Option.none => []) ++
  (p.probes.map (fun pr => lenField 3 (encPProbe pr))).flatten ++
  f32Field 4 p.sampling

/-- Skip an unknown field's payload given its wire type. -/
def skipFieldPayload (wireType : Nat) (bs : List Nat) : Option (List Nat) :=
  if wireType = 0 then (devarint bs).map (·.2)
  else if wireType = 1 then (readN 8 bs).map (·.2)
  else if wireType = 2 then
    match devarint bs with
    | some (len, r) => (readN len r).map (·.2)
    | Option.none => Option.none
  else if wireType = 5 then (readN 4 bs).map (·.2)
  else Option.none

theorem devarint_length {bs : List Nat} {v : Nat} {r : List Nat}
    (h : devarint bs = some (v, r)) : r.length < bs.length := by
  induction bs generalizing v r with
  | nil => simp [devarint] at h
  | cons b rest ih =>
    simp only [devarint] at h
    split at h
    · cases h
      simp
    · split at h
      · next m r2 hm =>
        cases h
        have := ih hm
        simp
        omega
      · cases h

theorem readN_length_le {n : Nat} {bs pre post : List Nat}
    (h : readN n bs = some (pre, post)) : post.length ≤ bs.length := by
  unfold readN at h
  split at h
  · cases h
  · cases h
    simp

theorem skipFieldPayload_length_le {wt : Nat} {bs r : List Nat}
    (h : skipFieldPayload wt bs = some r) : r.length ≤ bs.length := by
  unfold skipFieldPayload at h
  split at h
  · match h2 : devarint bs with
    | Option.none => rw [h2] at h; cases h
    | some (v, rest) =>
      rw [h2] at h
      cases h
      exact le_of_lt (devarint_length h2)
  · split at h
    · match h2 : readN 8 bs with
      | Option.none => rw [h2] at h; cases h
      | some (pre, post) =>
        rw [h2] at h
        cases h
        exact readN_length_le h2
    · split at h
      · match h2 : devarint bs with
        | Option.none => rw [h2] at h; cases h
        | some (len, rest) =>
          rw [h2] at h
          dsimp only at h
          match h3 : readN len rest with
          | Option.none => rw [h3] at h; cases h
          | some (pre, post) =>
            rw [h3] at h
            cases h
            exact le_trans (readN_length_le h3) (le_of_lt (devarint_length h2))
      · split at h
        · match h2 : readN 4 bs with
          | Option.none => rw [h2] at h; cases h
          | some (pre, post) =>
            rw [h2] at h
            cases h
            exact readN_length_le h2
        · cases h

/-- Signed interpretation of a two's-complement 64-bit payload (protobuf
int64 decode). -/
def int64OfBits (v : Nat) : Int :=
  let u : Nat := v % 2 ^ 64
  if u < 2 ^ 63 then (u : Int) else (u : Int) - 2 ^ 64

/-- Decode a string payload: varint scalar values until the payload is
exhausted. -/
def decStrChars (bs : List Nat) : Option (List Char) :=
  match hbs : bs with
  | [] => some []
  | _ :: _ =>
    match h1 : devarint bs with
    | Option.none => Option.none
    | some (v, r) =>
      match decStrChars r with
      | Option.none => Option.none
      | some cs => some (Char.ofNat v :: cs)
  termination_by bs.length
  decreasing_by exact hbs ▸ devarint_length h1

/-- Decode loop for `proto::FnProbeSpec`. -/
def decPFnProbeSpecLoop (acc : PFnProbeSpec) (bs : List Nat) :
    Option PFnProbeSpec :=
  match hbs : bs with
  | [] => some acc
  | _ :: _ =>
    match h1 : devarint bs with
    | Option.none => Option.none
    | some (t, r) =>
      if t / 8 = 1 ∧ t % 8 = 2 then
        match h2 : devarint r with
        | Option.none => Option.none
        | some (len, r2) =>
          match h3 : readN len r2 with
          | Option.none => Option.none
          | some (payload, r3) =>
            match decStrChars payload with
            | Option.none => Option.none
            | some cs =>
              decPFnProbeSpecLoop { acc with function_specifier := String.mk cs } r3
      else if t / 8 = 2 ∧ t % 8 = 0 then
        match h2 : devarint r with
        | Option.none => Option.none
        | some (v, r2) =>
          decPFnProbeSpecLoop { acc with target := v % 2 ^ 32 } r2
      else
        match h2 : skipFieldPayload (t % 8) r with
        | Option.none => Option.none
        | some r2 => decPFnProbeSpecLoop acc r2
  termination_by bs.length
  decreasing_by
    · exact hbs ▸ lt_of_le_of_lt
        (le_trans (readN_length_le h3) (le_of_lt (devarint_length h2)))
        (devarint_length h1)
    · exact hbs ▸ lt_trans (devarint_length h2) (devarint_length h1)
    · exact hbs ▸ lt_of_le_of_lt (skipFieldPayload_length_le h2) (devarint_length h1)

/-- Decode loop for `proto::ProbeSpec`. -/
def decPProbeSpecLoop (acc : PProbeSpec) (bs : List Nat) : Option PProbeSpec :=
  match hbs : bs with
  | [] => some acc
  | _ :: _ =>
    match h1 : devarint bs with
    | Option.none => Option.none
    | some (t, r) =>
      if t / 8 = 1 ∧ t % 8 = 2 then
        match h2 : devarint r with
        | Option.none => Option.none
        | some (len, r2) =>
          match h3 : readN len r2 with
          | Option.none => Option.none
          | some (payload, r3) =>
            match decPFnProbeSpecLoop ⟨"", 0⟩ payload with
            | Option.none => Option.none
            | some f => decPProbeSpecLoop { acc with spec := some f } r3
      else
        match h2 : skipFieldPayload (t % 8) r with
        | Option.none => Option.none
        | some r2 => decPProbeSpecLoop acc r2
  termination_by bs.length
  decreasing_by
    · exact hbs ▸ lt_of_le_of_lt
        (le_trans (readN_length_le h3) (le_of_lt (devarint_length h2)))
        (devarint_length h1)
    · exact hbs ▸ lt_of_le_of_lt (skipFieldPayload_length_le h2) (devarint_length h1)

/-- Decode loop for `proto::Constant` (the oneof keeps the last field
seen, as prost does). -/
def decPConstantLoop (acc : PConstant) (bs : List Nat) : Option PConstant :=
  match hbs : bs with
  | [] => some acc
  | _ :: _ =>
    match h1 : devarint bs with
    | Option.none => Option.none
    | some (t, r) =>
      if t / 8 = 1 ∧ t % 8 = 0 then
        match h2 : devarint r with
        | Option.none => Option.none
        | some (v, r2) =>
          decPConstantLoop { acc with value := some (.intValue (int64OfBits v)) } r2
      else if t / 8 = 2 ∧ t % 8 = 1 then
        match h2 : readN 8 r with
        | Option.none => Option.none
        | some (payload, r2) =>
          decPConstantLoop { acc with value := some (.floatValue (leToNat payload)) } r2
      else if t / 8 = 4 ∧ t % 8 = 0 then
        match h2 : devarint r with
        | Option.none => Option.none
        | some (v, r2) =>
          decPConstantLoop { acc with value := some (.boolValue (v ≠ 0)) } r2
      else if t % 8 = 2 ∧ (t / 8 = 3 ∨ t / 8 = 5 ∨ t / 8 = 6 ∨ t / 8 = 7 ∨ t / 8 = 8) then
        match h2 : devarint r with
        | Option.none => Option.none
        | some (len, r2) =>
          match h3 : readN len r2 with
          | Option.none => Option.none
          | some (payload, r3) =>
            if t / 8 = 5 then
              decPConstantLoop { acc with value := some .noneValue } r3
            else
              match decStrChars payload with
              | Option.none => Option.none
              | some cs =>
                let s := String.mk cs
                let v : PConstantValue :=
                  if t / 8 = 3 then .stringValue s
                  else if t / 8 = 6 then .identifier s
                  else if t / 8 = 7 then .fieldName s
                  else .functionName s
                decPConstantLoop { acc with value := some v } r3
      else
        match h2 : skipFieldPayload (t % 8) r with
        | Option.none => Option.none
        | some r2 => decPConstantLoop acc r2
  termination_by bs.length
  decreasing_by
    · exact hbs ▸ lt_trans (devarint_length h2) (devarint_length h1)
    · exact hbs ▸ lt_of_le_of_lt (readN_length_le h2) (devarint_length h1)
    · exact hbs ▸ lt_trans (devarint_length h2) (devarint_length h1)
    · exact hbs ▸ lt_of_le_of_lt
        (le_trans (readN_length_le h3) (le_of_lt (devarint_length h2)))
        (devarint_length h1)
    · exact hbs ▸ lt_of_le_of_lt
        (le_trans (readN_length_le h3) (le_of_lt (devarint_length h2)))
        (devarint_length h1)
    · exact hbs ▸ lt_of_le_of_lt (skipFieldPayload_length_le h2) (devarint_length h1)

/-- Decode loop for `proto::ConstantPool` (repeated constants, appended in
order). -/
def decPConstantPoolLoop (acc : PConstantPool) (bs : List Nat) :
    Option PConstantPool :=
  match hbs : bs with
  | [] => some acc
  | _ :: _ =>
    match h1 : devarint bs with
    | Option.none => Option.none
    | some (t, r) =>
      if t / 8 = 1 ∧ t % 8 = 2 then
        match h2 : devarint r with
        | Option.none => Option.none
        | some (len, r2) =>
          match h3 : readN len r2 with
          | Option.none => Option.none
          | some (payload, r3) =>
            match decPConstantLoop ⟨Option.none⟩ payload with
            | Option.none => Option.none
            | some c =>
              decPConstantPoolLoop { acc with constants := acc.constants ++ [c] } r3
      else
        match h2 : skipFieldPayload (t % 8) r with
        | Option.none => Option.none
        | some r2 => decPConstantPoolLoop acc r2
  termination_by bs.length
  decreasing_by
    · exact hbs ▸ lt_of_le_of_lt
        (le_trans (readN_length_le h3) (le_of_lt (devarint_length h2)))
        (devarint_length h1)
    · exact hbs ▸ lt_of_le_of_lt (skipFieldPayload_length_le h2) (devarint_length h1)

/-- Decode loop for `proto::Probe`. -/
def decPProbeLoop (acc : PProbe) (bs : List Nat) : Option PProbe :=
  match hbs : bs with
  | [] => some acc
  | _ :: _ =>
    match h1 : devarint bs with
    | Option.none => Option.none
    | some (t, r) =>
      if t % 8 = 2 ∧ (t / 8 = 1 ∨ t / 8 = 2 ∨ t / 8 = 3 ∨ t / 8 = 4) then
        match h2 : devarint r with
        | Option.none => Option.none
        | some (len, r2) =>
          match h3 : readN len r2 with
          | Option.none => Option.none
          | some (payload, r3) =>
            if t / 8 = 1 then
              match decStrChars payload with
              | Option.none => Option.none
              | some cs => decPProbeLoop { acc with id := String.mk cs } r3
            else if t / 8 = 2 then
              match decPProbeSpecLoop ⟨Option.none⟩ payload with
              | Option.none => Option.none
              | some ps => decPProbeLoop { acc with spec := some ps } r3
            else if t / 8 = 3 then
              decPProbeLoop { acc with predicate := payload } r3
            else
              decPProbeLoop { acc with body := payload } r3
      else
        match h2 : skipFieldPayload (t % 8) r with
        | Option.none => Option.none
        | some r2 => decPProbeLoop acc r2
  termination_by bs.length
  decreasing_by
    all_goals first
      | exact hbs ▸ lt_of_le_of_lt
          (le_trans (readN_length_le h3) (le_of_lt (devarint_length h2)))
          (devarint_length h1)
      | exact hbs ▸ lt_of_le_of_lt (skipFieldPayload_length_le h2) (devarint_length h1)

/-- Decode loop for `proto::Program`. -/
def decPProgramLoop (acc : PProgram) (bs : List Nat) : Option PProgram :=
  match hbs : bs with
  | [] => some acc
  | _ :: _ =>
    match h1 : devarint bs with
    | Option.none => Option.none
    | some (t, r) =>
      if t / 8 = 1 ∧ t % 8 = 0 then
        match h2 : devarint r with
        | Option.none => Option.none
        | some (v, r2) => decPProgramLoop { acc with version := v % 2 ^ 32 } r2
      else if t / 8 = 2 ∧ t % 8 = 2 then
        match h2 : devarint r with
        | Option.none => Option.none
        | some (len, r2) =>
          match h3 : readN len r2 with
          | Option.none => Option.none
          | some (payload, r3) =>
            match decPConstantPoolLoop ⟨[]⟩ payload with
            | Option.none => Option.none
            | some pool =>
              decPProgramLoop { acc with constant_pool := some pool } r3
      else if t / 8 = 3 ∧ t % 8 = 2 then
        match h2 : devarint r with
        | Option.none => Option.none
        | some (len, r2) =>
          match h3 : readN len r2 with
          | Option.none => Option.none
          | some (payload, r3) =>
            match decPProbeLoop ⟨"", Option.none, [], []⟩ payload with
            | Option.none => Option.none
            | some probe =>
              decPProgramLoop { acc with probes := acc.probes ++ [probe] } r3
      else if t / 8 = 4 ∧ t % 8 = 5 then
        match h2 : readN 4 r with
        | Option.none => Option.none
        | some (payload, r2) =>
          decPProgramLoop { acc with sampling := leToNat payload } r2
      else
        match h2 : skipFieldPayload (t % 8) r with
        | Option.none => Option.none
        | some r2 => decPProgramLoop acc r2
  termination_by bs.length
  decreasing_by
    all_goals first
      | exact hbs ▸ lt_trans (devarint_length h2) (devarint_length h1)
      | exact hbs ▸ lt_of_le_of_lt
          (le_trans (readN_length_le h3) (le_of_lt (devarint_length h2)))
          (devarint_length h1)
      | exact hbs ▸ lt_of_le_of_lt (readN_length_le h2) (devarint_length h1)
      | exact hbs ▸ lt_of_le_of_lt (skipFieldPayload_length_le h2) (devarint_length h1)

/-- Decode a whole `proto::Program` message from bytes. -/
def decPProgram (bs : List Nat) : Option PProgram :=
  decPProgramLoop ⟨0, Option.none, [], 0⟩ bs

/-- From `Program::to_proto_bytes` (encoding itself cannot fail). -/
def Program.toProtoBytes (p : Program) : List Nat :=
  encPProgram (Program.toProto p)

/-- From `Program::from_proto_bytes`: prost decode, then `from_proto`. -/
def Program.fromProtoBytes (bs : List Nat) : Outcome String Program :=
  match decPProgram bs with
  | Option.none => .err "Failed to decode protobuf"
  | some proto => Program.fromProto proto

/-!  Helper lemmas: decimal rendering is injective (needed to reason
about the `arg{i}` capture keys). -/

/-- Most-significant-first decimal digit characters of a natural
number. -/
def digitsAux (n : Nat) : List Char :=
  if h : n < 10 then [Nat.digitChar n]
  else digitsAux (n / 10) ++ [Nat.digitChar (n % 10)]
  termination_by n
  decreasing_by exact Nat.div_lt_self (by omega) (by omega)

/-- Success test for `Outcome`. -/
def Outcome.isOk : Outcome ε α → Bool
  | .ok _ => true
  | _ => false

/-- Error-value test for `Outcome`. -/
def Outcome.isErr : Outcome ε α → Bool
  | .err _ => true
  | _ => false

/-- Panic test for `Outcome`. -/
def Outcome.isPanic : Outcome ε α → Bool
  | .panic _ => true
  | _ => false

/-- Stack-encoding of named capture arguments as the compiler emits them:
alternating string key and value. -/
def namedEncode : List (String × Value) → List Value
  | [] => []
  | p :: rest => Value.str p.1 :: p.2 :: namedEncode rest

/-- A program carrying version 2, used to exhibit the missing version
validation. -/
def c5Program : Program :=
  { version := 2, constant_pool := ConstantPool.new, probes := [],
    sampling := f32OneBits }

/-- Source of spec property E6: at bracket depth zero the `/` after `10`
is a predicate terminator, not division. -/
def e6Source : String := "fn:t:entry / 10/0 > 1 / { }"

/-- The E6 source with the division parenthesized, which keeps the inner
`/` at nonzero bracket depth and hence inside the predicate. -/
def e6ParenSource : String := "fn:t:entry / (10/0) > 1 / { }"

/-- The program compiled from `e6ParenSource`: one unconditional-body
probe whose predicate computes `10 / 0 > 1`. -/
def e6ParenProgram : Program :=
  { version := 1,
    constant_pool := ⟨[.int 10, .int 0, .int 1]⟩,
    probes := [{ id := "probe_0", spec := .fn "t" .entry,
                 predicate := [1, 0, 0, 1, 1, 0, 35, 1, 2, 0, 51],
                 body := [] }],
    sampling := f32OneBits }

/-- Zero-width span used to build abstract syntax directly. -/
def span0 : Span := ⟨Position.start, Position.start⟩

/-- Compiler state left by compiling the positional statement
`capture("a", 1);` against a fresh pool: the two arguments are pushed in
order and `capture` is called with arity 2. -/
def c6TrapState : CState :=
  ⟨⟨[.str "a", .int 1, .functionName "capture"]⟩,
   [1, 0, 0, 1, 1, 0, 96, 2, 0, 2, 2],
   [(.functionName "capture", 2), (.int 1, 1), (.str "a", 0)]⟩

/-- A constant pool filled to 65535 entries — the capacity at which the
next append panics. -/
def fullPool : ConstantPool := ⟨List.replicate 65535 Constant.none⟩

/-- Left-deep addition chain `0 + 1 + 2 + … + n` of distinct integer
literals, used to drive the constant pool to capacity. -/
def chainExpr : Nat → AstExpr
  | 0 => .int 0 span0
  | n + 1 => .binary .add (chainExpr n) (.int ((n + 1 : Nat) : Int) span0) span0

/-- Pool contents after compiling `chainExpr n`: the integers `0 … n` in
insertion order. -/
def intPoolUpto : Nat → List Constant
  | 0 => [Constant.int 0]
  | n + 1 => intPoolUpto n ++ [Constant.int ((n + 1 : Nat) : Int)]

/-- Deduplication map after compiling `chainExpr n` (most recent entry
first, as `add_or_get_constant` prepends). -/
def intMapUpto : Nat → List (ConstantKey × Nat)
  | 0 => [(Constant.int 0, 0)]
  | n + 1 => (Constant.int ((n + 1 : Nat) : Int), n + 1) :: intMapUpto n

/-- A syntactically valid program whose single probe predicate mentions
65536 distinct integer constants. -/
def c7Ast : AstProgram :=
  ⟨[⟨⟨.fn, ⟨[.ident "t"], span0⟩, .entry, span0⟩,
     some (chainExpr 65535), [], span0⟩], span0⟩

/-- Pool extension: every successful indexed lookup keeps succeeding in
the extended pool (compilation only appends). -/
def poolExt (p q : ConstantPool) : Prop :=
  ∀ i c, p.constants.get? i = some c → q.constants.get? i = some c

/-- Compiler invariant: every deduplication-map entry points at a pool
slot holding exactly its key. -/
def MapOK (st : CState) : Prop :=
  ∀ k i, mapFind st.constantMap k = some i →
    st.constantPool.constants.get? i = some k

/-- Compiled-expression progress: the code either pushes exactly one
value (leaving the rest of the stack and program untouched) or stops with
an error that only a non-total dispatcher operation can produce. -/
def ProgressE (pool : ConstantPool) (D : Dispatcher σ) (code : List Nat) : Prop :=
  ∀ rest stack s,
    (∃ v s', exec pool D (code ++ rest) stack s =
      exec pool D rest (v :: stack) s') ∨
    ((∃ msg s', exec pool D (code ++ rest) stack s = (.error msg, s')) ∧
      ¬ D.Total)

/-- Argument-list progress: the code pushes exactly `n` values. -/
def ProgressN (pool : ConstantPool) (D : Dispatcher σ) (n : Nat)
    (code : List Nat) : Prop :=
  ∀ rest stack s,
    (∃ vs s', vs.length = n ∧ exec pool D (code ++ rest) stack s =
      exec pool D rest (vs ++ stack) s') ∨
    ((∃ msg s', exec pool D (code ++ rest) stack s = (.error msg, s')) ∧
      ¬ D.Total)

/-- Compiled-statement progress: the code leaves the stack exactly as it
found it. -/
def ProgressS (pool : ConstantPool) (D : Dispatcher σ) (code : List Nat) : Prop :=
  ∀ rest stack s,
    (∃ s', exec pool D (code ++ rest) stack s =
      exec pool D rest stack s') ∨
    ((∃ msg s', exec pool D (code ++ rest) stack s = (.error msg, s')) ∧
      ¬ D.Total)

/-- A unit that consumes the top stack value and pushes one result. -/
def Pop1Unit (pool : ConstantPool) (D : Dispatcher σ) (code : List Nat) : Prop :=
  ∀ rest x stack s,
    (∃ v s', exec pool D (code ++ rest) (x :: stack) s =
      exec pool D rest (v :: stack) s') ∨
    ((∃ msg s', exec pool D (code ++ rest) (x :: stack) s = (.error msg, s')) ∧
      ¬ D.Total)

/-- A unit that consumes the two top stack values and pushes one result. -/
def Pop2Unit (pool : ConstantPool) (D : Dispatcher σ) (code : List Nat) : Prop :=
  ∀ rest x y stack s,
    (∃ v s', exec pool D (code ++ rest) (x :: y :: stack) s =
      exec pool D rest (v :: stack) s') ∨
    ((∃ msg s', exec pool D (code ++ rest) (x :: y :: stack) s =
      (.error msg, s')) ∧ ¬ D.Total)

/-- A unit that consumes the top stack value and pushes nothing. -/
def Drop1Unit (pool : ConstantPool) (D : Dispatcher σ) (code : List Nat) : Prop :=
  ∀ rest x stack s,
    (∃ s', exec pool D (code ++ rest) (x :: stack) s =
      exec pool D rest stack s') ∨
    ((∃ msg s', exec pool D (code ++ rest) (x :: stack) s = (.error msg, s')) ∧
      ¬ D.Total)

/-- Code that always stops with a runtime error, whatever the stack and
state. -/
def AlwaysErr (pool : ConstantPool) (D : Dispatcher σ) (code : List Nat) : Prop :=
  ∀ rest stack s, ∃ msg s',
    exec pool D (code ++ rest) stack s = (.error msg, s')

/-- A dispatcher whose `store_variable` always fails (as the reference
Python dispatcher does). -/
def StoreFails (D : Dispatcher σ) : Prop :=
  ∀ s name v, ∃ msg, D.storeVariable s name v = .error msg

/-- What the soundness induction asserts of one compiled expression. -/
def ExprClaim (e : AstExpr) : Prop :=
  ∀ st st', Compiler.compileExpr st e = .ok st' → MapOK st →
    MapOK st' ∧ poolExt st.constantPool st'.constantPool ∧
    ∃ code, st'.bytecode = st.bytecode ++ code ∧
      ∀ (σ : Type) (D : Dispatcher σ) (pool : ConstantPool),
        poolExt st'.constantPool pool → ProgressE pool D code

/-- What the soundness induction asserts of a compiled argument list. -/
def ArgsClaim (es : List AstExpr) : Prop :=
  ∀ st st', Compiler.compileArgs st es = .ok st' → MapOK st →
    MapOK st' ∧ poolExt st.constantPool st'.constantPool ∧
    ∃ code, st'.bytecode = st.bytecode ++ code ∧
      ∀ (σ : Type) (D : Dispatcher σ) (pool : ConstantPool),
        poolExt st'.constantPool pool → ProgressN pool D es.length code

/-- What the soundness induction asserts of one compiled statement:
stack-neutral progress, plus guaranteed failure for assignments under a
dispatcher whose variable stores fail. -/
def StmtClaim (stmt : AstStatement) : Prop :=
  ∀ st st', Compiler.compileStmt st stmt = .ok st' → MapOK st →
    MapOK st' ∧ poolExt st.constantPool st'.constantPool ∧
    ∃ code, st'.bytecode = st.bytecode ++ code ∧
      ∀ (σ : Type) (D : Dispatcher σ) (pool : ConstantPool),
        poolExt st'.constantPool pool →
        ProgressS pool D code ∧
        (StoreFails D → (∃ var value sp, stmt = .assignment var value sp) →
          AlwaysErr pool D code)

/-- A dispatcher whose every operation succeeds, used to exhibit C1 at
concrete inputs. -/
def trivialDispatcher : Dispatcher Unit where
  loadVariable s _ := .ok (.none, s)
  storeVariable s _ _ := .ok s
  getAttribute s _ _ := .ok (.none, s)
  setAttribute s _ _ _ := .ok s
  getItem s _ _ := .ok (.none, s)
  callFunction s _ _ := .ok (.none, s)
  binaryOp s _ _ _ := .ok (.none, s)
  comparisonOp s _ _ _ := .ok (.none, s)

/-- A predicate-less single-probe program. -/
def c1Ast : AstProgram :=
  ⟨[⟨⟨.fn, ⟨[.ident "t"], span0⟩, .entry, span0⟩, Option.none, [], span0⟩],
   span0⟩

/-- Single-probe program with a `true` predicate, exercising `c1_amended`. -/
def c1wAst : AstProgram :=
  ⟨[⟨⟨.fn, ⟨[.ident "t"], span0⟩, .entry, span0⟩,
     some (.bool true span0), [], span0⟩], span0⟩

/-- Compiled form of `c1wAst`. -/
def c1wProgram : Program :=
  ⟨1, ⟨[.bool true]⟩, [⟨"probe_0", .fn "t" .entry, [1, 0, 0], []⟩],
   f32OneBits⟩

/-- A single assignment statement `$req.x = 1;`. -/
def c9Stmt : AstStatement :=
  .assignment ⟨false, "x", span0⟩ (.int 1 span0) span0

/-- A one-probe program whose body is the single assignment `c9Stmt`. -/
def c9Ast : AstProgram :=
  ⟨[⟨⟨.fn, ⟨[.ident "t"], span0⟩, .entry, span0⟩, Option.none,
     [c9Stmt], span0⟩], span0⟩

/-- Compiled form of `c9Ast`. -/
def c9Program : Program :=
  ⟨1, ⟨[.int 1, .identifier "req.x"]⟩,
   [⟨"probe_0", .fn "t" .entry, [], [1, 0, 0, 17, 1, 0]⟩], f32OneBits⟩

/-- Compiler state after lowering `c9Stmt` from a fresh compiler. -/
def c9St : CState :=
  ⟨⟨[.int 1, .identifier "req.x"]⟩, [1, 0, 0, 17, 1, 0],
   [(.identifier "req.x", 1), (.int 1, 0)]⟩

/-- Machine-typing invariant of a decoded/encoded protobuf constant: the
`int64` payload is in signed-64-bit range and the float bit pattern fits
in 64 bits (true of every value the Rust structs can hold by typing). -/
def PConstantWF : PConstant → Prop
  | ⟨some (.intValue i)⟩ => -(2 ^ 63) ≤ i ∧ i < 2 ^ 63
  | ⟨some (.floatValue b)⟩ => b < 2 ^ 64
  | _ => True

instance : DecidablePred PConstantWF := fun c =>
  match c with
  | ⟨some (.intValue i)⟩ =>
    inferInstanceAs (Decidable (-(2 ^ 63) ≤ i ∧ i < 2 ^ 63))
  | ⟨some (.floatValue b)⟩ => inferInstanceAs (Decidable (b < 2 ^ 64))
  | ⟨some (.stringValue _)⟩ => inferInstanceAs (Decidable True)
  | ⟨some (.boolValue _)⟩ => inferInstanceAs (Decidable True)
  | ⟨some .noneValue⟩ => inferInstanceAs (Decidable True)
  | ⟨some (.identifier _)⟩ => inferInstanceAs (Decidable True)
  | ⟨some (.fieldName _)⟩ => inferInstanceAs (Decidable True)
  | ⟨some (.functionName _)⟩ => inferInstanceAs (Decidable True)
  | ⟨Option.none⟩ => inferInstanceAs (Decidable True)

/-- Machine-typing invariant of a protobuf probe: the fn-spec target enum
value fits in 32 bits (true of every value the Rust struct holds by
typing). -/
def PProbeWF (pr : PProbe) : Prop :=
  match pr.spec with
  | Option.none => True
  | some ps =>
    match ps.spec with
    | Option.none => True
    | some f => f.target < 2 ^ 32

/-- Machine-typing invariant of a `Constant` as held by the Rust structs:
`Int` carries an `i64` and `Float` a 64-bit pattern.  (In the shallow
embedding these are unbounded `Int`/`Nat`, so the typing fact becomes an
explicit predicate.) -/
def ConstantWF : Constant → Prop
  | .int i => -(2 ^ 63) ≤ i ∧ i < 2 ^ 63
  | .float b => b < 2 ^ 64
  | _ => True

instance : DecidablePred ConstantWF := fun c =>
  match c with
  | .int i => inferInstanceAs (Decidable (-(2 ^ 63) ≤ i ∧ i < 2 ^ 63))
  | .float b => inferInstanceAs (Decidable (b < 2 ^ 64))
  | .str _ => inferInstanceAs (Decidable True)
  | .bool _ => inferInstanceAs (Decidable True)
  | Constant.none => inferInstanceAs (Decidable True)
  | .identifier _ => inferInstanceAs (Decidable True)
  | .fieldName _ => inferInstanceAs (Decidable True)
  | .functionName _ => inferInstanceAs (Decidable True)

/-- Machine-typing invariants of a `Program` as held by the Rust structs:
`version`/`sampling` are `u32` (and a `-0.0` sampling pattern would be
skipped by proto3 encoding, so zero-classed sampling bits must be the
canonical zero), the pool holds at most `u16::MAX` entries, and every
constant is well typed. -/
def ProgramWF (P : Program) : Prop :=
  P.version < 2 ^ 32 ∧ P.sampling < 2 ^ 32 ∧
  (f32IsZero P.sampling = true → P.sampling = 0) ∧
  P.constant_pool.constants.length ≤ 65535 ∧
  ∀ c ∈ P.constant_pool.constants, ConstantWF c

instance (P : Program) : Decidable (ProgramWF P) := by
  unfold ProgramWF
  infer_instance

/-- A compiled-shape program exercising every constant kind, a probe with
predicate and body bytecode, version 1 and sampling 1.0. -/
def c2W : Program :=
  ⟨1, ⟨[.int (-5), .float 4607182418800017408, .str "s", .bool true,
        Constant.none, .identifier "req.x", .fieldName "f",
        .functionName "capture"]⟩,
   [⟨"probe_0", .fn "mod:func" .exit, [1, 0, 0], [17, 1, 0]⟩],
   f32OneBits⟩


theorem LexState.advance_rest_cons (st : LexState) (c : Char) (cs : List Char)
    (h : st.rest = c :: cs) : (st.advance).rest = cs := by
  unfold LexState.advance
  rw [h]

theorem LexState.advance_length_le (st : LexState) :
    st.advance.rest.length ≤ st.rest.length := by
  unfold LexState.advance
  split
  · exact le_refl _
  · next c cs h => simp [h]

theorem LexState.advance_length_lt (st : LexState) (h : st.rest ≠ []) :
    st.advance.rest.length < st.rest.length := by
  unfold LexState.advance
  split
  · simp_all
  · next c cs h2 => simp [h2]

theorem devarint_varint (n : Nat) (rest : List Nat) :
    devarint (varint n ++ rest) = some (n, rest) := by
  induction n using Nat.strong_induction_on with
  | _ n ih =>
    unfold varint
    split
    · next h => simp [devarint, h]
    · next h =>
      have hlt : n / 128 < n := Nat.div_lt_self (by omega) (by omega)
      simp only [List.cons_append, devarint, List.append_eq]
      have hge : ¬(n % 128 + 128 < 128) := by omega
      rw [if_neg hge, ih (n / 128) hlt]
      have hsum : n % 128 + 128 - 128 + 128 * (n / 128) = n := by
        have := Nat.mod_add_div n 128
        omega
      simp only [hsum]

theorem natToLE_length (k v : Nat) : (natToLE k v).length = k := by
  induction k generalizing v with
  | zero => rfl
  | succ k ih => simp [natToLE, ih]

theorem leToNat_natToLE (k v : Nat) (h : v < 256 ^ k) :
    leToNat (natToLE k v) = v := by
  induction k generalizing v with
  | zero => simp [natToLE, leToNat]; omega
  | succ k ih =>
    simp only [natToLE, leToNat]
    rw [ih (v / 256) (by
      have h2 : 256 ^ (k + 1) = 256 ^ k * 256 := by ring
      rw [h2] at h
      exact Nat.div_lt_of_lt_mul (by omega))]
    omega

theorem toDigitsCore_eq_digitsAux (f : Nat) :
    ∀ n ds, 0 < f → n < 10 ^ f → Nat.toDigitsCore 10 f n ds = digitsAux n ++ ds := by
  induction f with
  | zero => intro n ds h; omega
  | succ f ih =>
    intro n ds _ hlt
    show (if n / 10 = 0 then Nat.digitChar (n % 10) :: ds
          else Nat.toDigitsCore 10 f (n / 10) (Nat.digitChar (n % 10) :: ds)) =
        digitsAux n ++ ds
    by_cases h10 : n < 10
    · rw [if_pos (by omega)]
      unfold digitsAux
      rw [dif_pos h10]
      have : n % 10 = n := Nat.mod_eq_of_lt h10
      simp [this]
    · rw [if_neg (by omega)]
      have hf : 0 < f := by
        by_contra h0
        have : f = 0 := by omega
        subst this
        simp at hlt
        omega
      rw [ih (n / 10) (Nat.digitChar (n % 10) :: ds) hf (by
        have : 10 ^ (f + 1) = 10 ^ f * 10 := by ring
        rw [this] at hlt
        exact Nat.div_lt_of_lt_mul (by omega))]
      conv_rhs => unfold digitsAux
      rw [dif_neg h10]
      simp

theorem natRepr_eq_digitsAux (n : Nat) : Nat.repr n = (digitsAux n).asString := by
  unfold Nat.repr Nat.toDigits
  rw [toDigitsCore_eq_digitsAux (n + 1) n [] (by omega) (by
    calc n < 10 ^ n + 1 := by
            have := Nat.lt_pow_self (by omega : 1 < 10) (n := n)
            omega
      _ ≤ 10 ^ (n + 1) := by
            have : 10 ^ n * 1 + 1 ≤ 10 ^ n * 10 := by
              have h1 : 1 ≤ 10 ^ n := Nat.one_le_pow _ _ (by omega)
              omega
            calc 10 ^ n + 1 = 10 ^ n * 1 + 1 := by ring
              _ ≤ 10 ^ n * 10 := this
              _ = 10 ^ (n + 1) := by ring)]
  simp

theorem digitChar_inj_lt10 :
    ∀ a, a < 10 → ∀ b, b < 10 → Nat.digitChar a = Nat.digitChar b → a = b := by
  decide

theorem digitsAux_ne_nil (n : Nat) : digitsAux n ≠ [] := by
  unfold digitsAux
  split
  · simp
  · simp

theorem digitsAux_inj (a : Nat) :
    ∀ b, digitsAux a = digitsAux b → a = b := by
  induction a using Nat.strong_induction_on with
  | _ a ih =>
    intro b h
    by_cases ha : a < 10 <;> by_cases hb : b < 10
    · unfold digitsAux at h
      rw [dif_pos ha, dif_pos hb] at h
      simp at h
      exact digitChar_inj_lt10 a ha b hb h
    · unfold digitsAux at h
      rw [dif_pos ha, dif_neg hb] at h
      exfalso
      cases h2 : digitsAux (b / 10) with
      | nil => exact absurd h2 (digitsAux_ne_nil _)
      | cons x xs =>
        rw [h2] at h
        have hlen := congrArg List.length h
        simp at hlen
    · unfold digitsAux at h
      rw [dif_neg ha, dif_pos hb] at h
      exfalso
      cases h2 : digitsAux (a / 10) with
      | nil => exact absurd h2 (digitsAux_ne_nil _)
      | cons x xs =>
        rw [h2] at h
        have hlen := congrArg List.length h
        simp at hlen
    · unfold digitsAux at h
      rw [dif_neg ha, dif_neg hb] at h
      have hinit : digitsAux (a / 10) = digitsAux (b / 10) := by
        have := congrArg List.dropLast h
        simpa [List.dropLast_concat] using this
      have hlast : Nat.digitChar (a % 10) = Nat.digitChar (b % 10) := by
        have := congrArg (List.getLast? ·) h
        simpa [List.getLast?_concat] using this
      have hdiv : a / 10 = b / 10 :=
        ih (a / 10) (Nat.div_lt_self (by omega) (by omega)) (b / 10) hinit
      have hmod : a % 10 = b % 10 :=
        digitChar_inj_lt10 _ (Nat.mod_lt _ (by omega)) _ (Nat.mod_lt _ (by omega)) hlast
      omega

theorem natRepr_inj {a b : Nat} (h : Nat.repr a = Nat.repr b) : a = b := by
  rw [natRepr_eq_digitsAux, natRepr_eq_digitsAux] at h
  apply digitsAux_inj
  have : (digitsAux a).asString.data = (digitsAux b).asString.data := by rw [h]
  simpa [List.asString] using this

theorem argKey_inj {a b : Nat}
    (h : "arg" ++ toString a = "arg" ++ toString b) : a = b := by
  have hd : ("arg" ++ toString a).data = ("arg" ++ toString b).data := by rw [h]
  rw [String.data_append, String.data_append] at hd
  have hdata : (toString a).data = (toString b).data := List.append_cancel_left hd
  have heq : toString a = toString b := by
    cases hta : toString a with
    | mk da =>
      cases htb : toString b with
      | mk db =>
        rw [hta, htb] at hdata
        exact congrArg String.mk hdata
  exact natRepr_inj heq

theorem upsert_fresh (l : List (String × Value)) (k : String) (v : Value)
    (h : ∀ p ∈ l, p.1 ≠ k) : upsert l k v = l ++ [(k, v)] := by
  unfold upsert
  rw [if_neg]
  intro hc
  rw [List.any_eq_true] at hc
  obtain ⟨p, hp, hpk⟩ := hc
  exact h p hp (by simpa using hpk)

theorem capturePositionalLoop_eq (args : List Value) :
    ∀ (i : Nat) (data : List (String × Value)),
    (∀ p ∈ data, ∀ j : Nat, p.1 = "arg" ++ toString j → j < i) →
    capturePositionalLoop i args data =
      data ++ (args.enumFrom i).map
        (fun p => ("arg" ++ toString p.1, captureCopyValue p.2)) := by
  induction args with
  | nil => intro i data _; simp [capturePositionalLoop, List.enumFrom]
  | cons v rest ih =>
    intro i data hinv
    have hfresh : ∀ p ∈ data, p.1 ≠ "arg" ++ toString i := by
      intro p hp hc
      exact absurd (hinv p hp i hc) (by omega)
    rw [capturePositionalLoop, upsert_fresh data _ _ hfresh,
      ih (i + 1) (data ++ [("arg" ++ toString i, captureCopyValue v)]) ?inv]
    · simp [List.enumFrom]
    case inv =>
      intro p hp j hj
      rcases List.mem_append.mp hp with hold | hnew
      · exact lt_trans (hinv p hold j hj) (by omega)
      · simp only [List.mem_singleton] at hnew
        subst hnew
        simp only at hj
        have := argKey_inj hj.symm
        omega

theorem namedEncode_evenIdx (pairs : List (String × Value)) :
    evenIdx (namedEncode pairs) = pairs.map (fun p => Value.str p.1) := by
  induction pairs with
  | nil => simp [namedEncode, evenIdx]
  | cons p rest ih => simp [namedEncode, evenIdx, ih]

theorem namedEncode_length (pairs : List (String × Value)) :
    (namedEncode pairs).length = 2 * pairs.length := by
  induction pairs with
  | nil => simp [namedEncode]
  | cons p rest ih => simp [namedEncode, ih]; omega

theorem captureIsNamed_namedEncode (pairs : List (String × Value)) :
    captureIsNamed (namedEncode pairs) = true := by
  unfold captureIsNamed
  rw [namedEncode_length, namedEncode_evenIdx]
  rw [Bool.and_eq_true]
  constructor
  · simp [Nat.mul_mod_right]
  · rw [List.all_eq_true]
    intro v hv
    simp only [List.mem_map] at hv
    obtain ⟨p, _, hpv⟩ := hv
    rw [← hpv]

theorem captureNamedLoop_eq (pairs : List (String × Value)) :
    ∀ data : List (String × Value),
    (∀ p ∈ data, p.1 ∉ pairs.map Prod.fst) →
    (pairs.map Prod.fst).Nodup →
    captureNamedLoop (namedEncode pairs) data =
      data ++ pairs.map (fun p => (p.1, captureCopyValue p.2)) := by
  induction pairs with
  | nil => intro data _ _; simp [namedEncode, captureNamedLoop]
  | cons p rest ih =>
    intro data hdisj hnodup
    have hfresh : ∀ q ∈ data, q.1 ≠ p.1 := by
      intro q hq
      have := hdisj q hq
      simp at this
      exact this.1
    rw [namedEncode]
    show captureNamedLoop (Value.str p.1 :: p.2 :: namedEncode rest) data =
      data ++ List.map (fun p => (p.1, captureCopyValue p.2)) (p :: rest)
    rw [captureNamedLoop, upsert_fresh data _ _ hfresh,
      ih (data ++ [(p.1, captureCopyValue p.2)]) ?disj (by
        simp at hnodup
        exact hnodup.2)]
    · simp
    case disj =>
      intro q hq
      rcases List.mem_append.mp hq with hold | hnew
      · have := hdisj q hold
        simp at this ⊢
        exact this.2
      · simp only [List.mem_singleton] at hnew
        subst hnew
        simp only at hnodup ⊢
        rw [List.map_cons, List.nodup_cons] at hnodup
        exact hnodup.1


/-!
Claim theorems.
-/

/-- C4 counterexample: `Int % Float(0.0)` does not return an error — the
float `Mod` branch of `binary_op_default` computes the remainder with no
zero test, so the call succeeds (here with the placeholder float
operations, whose `fmod` returns bit pattern 0). -/
theorem c4_counterexample :
    binaryOpDefault floatOps0 .mod (.int 1) (.float f64PosZeroBits) =
      .ok (.float 0) := rfl

/-- C4 (amended): `Div`/`Mod` by integer zero and `Div` by float `0.0`
return errors for every float implementation, but `Mod` with a float
right operand — zero included — always succeeds with the float remainder:
the fourth case of the claim does not error. -/
theorem c4_amended (F : FloatOps) :
    (∀ l : Int, binaryOpDefault F .div (.int l) (.int 0) =
      .error "Division by zero") ∧
    (∀ l : Int, binaryOpDefault F .mod (.int l) (.int 0) =
      .error "Modulo by zero") ∧
    (∀ (lv : Value) (zb : Nat),
      ((∃ i, lv = .int i) ∨ (∃ b, lv = .float b)) → f64IsZero zb = true →
      binaryOpDefault F .div lv (.float zb) = .error "Division by zero") ∧
    (∀ (lv : Value) (zb : Nat),
      ((∃ i, lv = .int i) ∨ (∃ b, lv = .float b)) →
      ∃ rb, binaryOpDefault F .mod lv (.float zb) = .ok (.float rb)) := by
  refine ⟨fun l => by simp [binaryOpDefault], fun l => by simp [binaryOpDefault],
    ?_, ?_⟩
  · rintro lv zb (⟨i, rfl⟩ | ⟨b, rfl⟩) hz <;>
      simp [binaryOpDefault, binaryOpDefault.binaryFloat, hz]
  · rintro lv zb (⟨i, rfl⟩ | ⟨b, rfl⟩) <;> exact ⟨_, rfl⟩

/-- C4 amended theorem applied at concrete operands. -/
theorem c4_amended_witness :
    binaryOpDefault floatOps0 .div (.int 7) (.int 0) = .error "Division by zero" ∧
    binaryOpDefault floatOps0 .div (.float f64OneBits) (.float f64PosZeroBits) =
      .error "Division by zero" ∧
    (∃ rb, binaryOpDefault floatOps0 .mod (.float f64OneBits) (.float f64PosZeroBits) =
      .ok (.float rb)) :=
  ⟨(c4_amended floatOps0).1 7,
   (c4_amended floatOps0).2.2.1 (.float f64OneBits) f64PosZeroBits
     (Or.inr ⟨f64OneBits, rfl⟩) (by decide),
   (c4_amended floatOps0).2.2.2 (.float f64OneBits) f64PosZeroBits
     (Or.inr ⟨f64OneBits, rfl⟩)⟩

/-- C10 counterexample: a comparison with an `Object` operand that does
not error — `Object == None` reaches the `(_, None)` arm of
`comparison_op_default` before the catch-all and returns `Ok(false)`. -/
theorem c10_counterexample :
    comparisonOpDefault floatOps0 .eq (.obj 0) .none = .ok (.bool false) := rfl

/-- C10 (amended): cross-variant comparisons error for every operator when
neither side is `None` and the pair is not the widened Int/Float mix;
`Object` versus `Object` errors for every operator, and `Object` versus
any non-`None` value errors; but `Object` versus `None` follows the
`None` equality rule: `==` returns `false` and `!=` returns `true`, only
the order operators error. -/
theorem c10_amended (F : FloatOps) :
    (∀ (op : ComparisonOp) (l r : Value), l.typeName ≠ r.typeName →
      l ≠ .none → r ≠ .none →
      (∀ (i : Int) (b : Nat), ¬(l = .int i ∧ r = .float b)) →
      (∀ (b : Nat) (i : Int), ¬(l = .float b ∧ r = .int i)) →
      ∃ msg, comparisonOpDefault F op l r = .error msg) ∧
    (∀ (op : ComparisonOp) (o o' : Nat),
      ∃ msg, comparisonOpDefault F op (.obj o) (.obj o') = .error msg) ∧
    (∀ o : Nat,
      comparisonOpDefault F .eq (.obj o) .none = .ok (.bool false) ∧
      comparisonOpDefault F .eq .none (.obj o) = .ok (.bool false) ∧
      comparisonOpDefault F .ne (.obj o) .none = .ok (.bool true) ∧
      comparisonOpDefault F .ne .none (.obj o) = .ok (.bool true)) ∧
    (∀ (op : ComparisonOp) (o : Nat), op ≠ .eq → op ≠ .ne →
      (∃ msg, comparisonOpDefault F op (.obj o) .none = .error msg) ∧
      (∃ msg, comparisonOpDefault F op .none (.obj o) = .error msg)) := by
  refine ⟨?_, ?_, ?_, ?_⟩
  · rintro op l r hdiff hl hr hm1 hm2
    cases l <;> cases r <;>
      first
        | exact absurd rfl hdiff
        | exact absurd rfl hl
        | exact absurd rfl hr
        | exact absurd ⟨rfl, rfl⟩ (hm1 _ _)
        | exact absurd ⟨rfl, rfl⟩ (hm2 _ _)
        | exact ⟨_, rfl⟩
  · intro op o o'
    exact ⟨_, rfl⟩
  · intro o
    exact ⟨rfl, rfl, rfl, rfl⟩
  · rintro op o hne hnn
    cases op
    · exact absurd rfl hne
    · exact absurd rfl hnn
    all_goals exact ⟨⟨_, rfl⟩, ⟨_, rfl⟩⟩

/-- C10 amended theorem applied at concrete operands. -/
theorem c10_amended_witness :
    (∃ msg, comparisonOpDefault floatOps0 .eq (.int 1) (.str "a") = .error msg) ∧
    (∃ msg, comparisonOpDefault floatOps0 .lt (.obj 0) (.obj 1) = .error msg) ∧
    comparisonOpDefault floatOps0 .eq .none (.obj 2) = .ok (.bool false) ∧
    (∃ msg, comparisonOpDefault floatOps0 .le (.obj 0) .none = .error msg) :=
  ⟨(c10_amended floatOps0).1 .eq (.int 1) (.str "a") (by decide) (by decide)
      (by decide) (fun i b h => Value.noConfusion h.2)
      (fun b i h => Value.noConfusion h.1),
   (c10_amended floatOps0).2.1 .lt 0 1,
   ((c10_amended floatOps0).2.2.1 2).2.1,
   ((c10_amended floatOps0).2.2.2 .le 0 (fun h => ComparisonOp.noConfusion h)
      (fun h => ComparisonOp.noConfusion h)).1⟩

/-- C5 (amended): decoding performs no version validation — whenever
`Program::from_proto` succeeds, the resulting program's version is the
wire value copied verbatim, whatever it is. -/
theorem c5_amended (proto : PProgram) (p : Program)
    (h : Program.fromProto proto = .ok p) : p.version = proto.version := by
  unfold Program.fromProto at h
  simp only [bind, Outcome.bind, pure] at h
  cases hpool : Program.convertConstantPool proto.constant_pool with
  | err e => rw [hpool] at h; exact Outcome.noConfusion h
  | panic m => rw [hpool] at h; exact Outcome.noConfusion h
  | ok pool =>
    rw [hpool] at h
    cases hpr : Program.convertProbes proto.probes with
    | error e => rw [hpr] at h; exact Outcome.noConfusion h
    | ok probes =>
      rw [hpr] at h
      cases h
      rfl

/-- C5 amended theorem applied at a concrete version-2 message. -/
theorem c5_amended_witness :
    ({ version := 2, constant_pool := ConstantPool.new, probes := [],
       sampling := 0 } : Program).version =
    ({ version := 2, constant_pool := some ⟨[]⟩, probes := [],
       sampling := 0 } : PProgram).version :=
  c5_amended _ _ (by rfl)


/-- C3 counterexample: the E6 source never reaches execution — the `/`
after `10` terminates the predicate at depth zero, so the pipeline fails
while parsing and no runtime "division by zero" error can arise. -/
theorem c3_counterexample : (parseSource e6Source).isErr = true := by decide

/-- C3 (amended): the E6 source itself is rejected by the parser, while
the parenthesized variant compiles to `e6ParenProgram`, whose predicate
execution under the reference dispatcher terminates with the runtime
error "Division by zero" and delivers no capture event. -/
theorem c3_amended :
    (parseSource e6Source).isErr = true ∧
    parseSource e6ParenSource = .ok e6ParenProgram ∧
    ∀ p ∈ e6ParenProgram.probes,
      execute e6ParenProgram.constant_pool (captureDispatcher floatOps0)
        p.predicate [] = (.error "Division by zero", []) := by
  refine ⟨by decide, by decide, by decide⟩

/-- C6 counterexample: the positional call `capture("a", 1)` — two
positional arguments, so the spec prescribes the payload
`{"arg0": "a", "arg1": 1}` — has even arity with a string at even index,
is therefore mis-detected as the named form, and produces the payload
`{"a": 1}` instead. -/
theorem c6_counterexample :
    Compiler.compileStmt Compiler.new
      (.capture false (.positional [.str "a" span0, .int 1 span0]) span0) =
        .ok c6TrapState ∧
    execute c6TrapState.constantPool (captureDispatcher floatOps0)
      c6TrapState.bytecode [] = (.ok .none, [⟨[("a", .int 1)]⟩]) ∧
    ("a", Value.int 1) ≠ ("arg0", Value.str "a") := by
  refine ⟨by decide, by decide, by decide⟩

/-- C6 (amended): a `capture`/`send` call appends exactly one event; a
stack encoded from named pairs (alternating string key and value,
detected as named: even arity, strings at even indices) decodes to the
pair mapping with `Object` values degraded to `None`; an argument list
that does not match the named shape is stored positionally under
`arg0…arg(n-1)`; but a positional argument list that happens to match
the named shape is decoded as named, not positionally. -/
theorem c6_amended (F : FloatOps) (s : List CaptureEvent) (name : String)
    (hname : name = "capture" ∨ name = "send") :
    (∀ pairs : List (String × Value), (pairs.map Prod.fst).Nodup →
      (captureDispatcher F).callFunction s name (namedEncode pairs) =
        .ok (.none,
          s ++ [⟨pairs.map (fun p => (p.1, captureCopyValue p.2))⟩])) ∧
    (∀ args : List Value, captureIsNamed args = false →
      (captureDispatcher F).callFunction s name args =
        .ok (.none,
          s ++ [⟨(args.enumFrom 0).map
            (fun p => ("arg" ++ toString p.1, captureCopyValue p.2))⟩])) := by
  have hsel : ∀ args : List Value,
      (captureDispatcher F).callFunction s name args =
        .ok (.none, s ++ [⟨captureData args⟩]) := by
    intro args
    show (if name = "capture" ∨ name = "send" then _ else _) = _
    rw [if_pos hname]
  constructor
  · intro pairs hnodup
    rw [hsel]
    unfold captureData
    rw [captureIsNamed_namedEncode, if_pos rfl,
      captureNamedLoop_eq pairs [] (by intro p hp; cases hp) hnodup]
    rfl
  · intro args hnotNamed
    rw [hsel]
    unfold captureData
    rw [hnotNamed]
    simp only [Bool.false_eq_true, if_false]
    rw [capturePositionalLoop_eq args 0 [] (by intro p hp; cases hp)]
    rfl

/-- C6 amended theorem applied at concrete named and positional calls. -/
theorem c6_amended_witness :
    (captureDispatcher floatOps0).callFunction [] "capture"
      [.str "a", .int 1, .str "b", .int 2] =
      .ok (.none, [⟨[("a", Value.int 1), ("b", Value.int 2)]⟩]) ∧
    (captureDispatcher floatOps0).callFunction [] "capture"
      [.int 1, .int 2, .int 3] =
      .ok (.none, [⟨[("arg0", Value.int 1), ("arg1", Value.int 2),
                     ("arg2", Value.int 3)]⟩]) := by
  constructor
  · have h := (c6_amended floatOps0 [] "capture" (Or.inl rfl)).1
      [("a", Value.int 1), ("b", Value.int 2)] (by decide)
    simpa [namedEncode, captureCopyValue] using h
  · have h := (c6_amended floatOps0 [] "capture" (Or.inl rfl)).2
      [Value.int 1, Value.int 2, Value.int 3] (by decide)
    simpa [List.enumFrom, captureCopyValue] using h

/-- Interning a constant whose key is already mapped returns the mapped
index and leaves the compiler state untouched. -/
theorem addOrGet_hit (st : CState) (c : Constant) (i : Nat)
    (hfind : mapFind st.constantMap (Compiler.constantToKey c) = some i) :
    Compiler.addOrGetConstant st c = .ok (i, st) := by
  simp only [Compiler.addOrGetConstant]
  rw [hfind]

/-- Interning a structurally novel constant below capacity appends it at
the old pool size and records the mapping. -/
theorem addOrGet_miss (st : CState) (c : Constant)
    (hfind : mapFind st.constantMap (Compiler.constantToKey c) = Option.none)
    (hroom : st.constantPool.constants.length < 65535) :
    Compiler.addOrGetConstant st c =
      .ok (st.constantPool.constants.length,
        ⟨⟨st.constantPool.constants ++ [c]⟩,
         st.bytecode,
         (Compiler.constantToKey c, st.constantPool.constants.length) ::
           st.constantMap⟩) := by
  simp only [Compiler.addOrGetConstant, ConstantPool.add]
  rw [hfind]
  rw [if_neg (Nat.not_le.mpr hroom)]

/-- Interning a structurally novel constant into a full pool panics. -/
theorem addOrGet_full (st : CState) (c : Constant)
    (hfind : mapFind st.constantMap (Compiler.constantToKey c) = Option.none)
    (hfull : st.constantPool.constants.length ≥ 65535) :
    Compiler.addOrGetConstant st c =
      .panic "Constant pool overflow: too many constants" := by
  simp only [Compiler.addOrGetConstant, ConstantPool.add]
  rw [hfind]
  rw [if_pos hfull]

/-- C8 counterexample: interning a structurally novel constant into a
full pool does not append an entry at the old size — `ConstantPool::add`
panics, so `add_or_get_constant` aborts instead of returning the new
index. -/
theorem c8_counterexample :
    mapFind ([] : List (ConstantKey × Nat)) (Compiler.constantToKey (.bool true)) =
      Option.none ∧
    Compiler.addOrGetConstant ⟨fullPool, [], []⟩ (.bool true) =
      .panic "Constant pool overflow: too many constants" := by
  refine ⟨rfl, addOrGet_full _ _ rfl ?_⟩
  have hc : (⟨fullPool, [], []⟩ : CState).constantPool.constants =
      List.replicate 65535 Constant.none := rfl
  rw [hc, List.length_replicate]

/-- C8 (amended): interning is idempotent below capacity — a constant
whose key is already mapped returns the existing index and leaves the
state untouched; a novel constant appends at the old pool size provided
the pool holds fewer than 65535 entries (at capacity it panics instead);
a successful intern immediately re-interned returns the same index with
the state unchanged; and float keys coincide exactly when the raw bit
patterns do, so `+0.0` and `-0.0` stay distinct while identically-bitted
NaNs collapse. -/
theorem c8_amended (st : CState) (c : Constant) :
    (∀ i, mapFind st.constantMap (Compiler.constantToKey c) = some i →
      Compiler.addOrGetConstant st c = .ok (i, st)) ∧
    (mapFind st.constantMap (Compiler.constantToKey c) = Option.none →
      st.constantPool.constants.length < 65535 →
      Compiler.addOrGetConstant st c =
        .ok (st.constantPool.constants.length,
          ⟨⟨st.constantPool.constants ++ [c]⟩,
           st.bytecode,
           (Compiler.constantToKey c, st.constantPool.constants.length) ::
             st.constantMap⟩)) ∧
    (∀ st2 i, Compiler.addOrGetConstant st c = .ok (i, st2) →
      Compiler.addOrGetConstant st2 c = .ok (i, st2)) ∧
    (∀ b b' : Nat, Compiler.constantToKey (.float b) =
      Compiler.constantToKey (.float b') ↔ b = b') := by
  refine ⟨addOrGet_hit st c, addOrGet_miss st c, ?_, ?_⟩
  · intro st2 i hadd
    cases hfind : mapFind st.constantMap (Compiler.constantToKey c) with
    | some j =>
      rw [addOrGet_hit st c j hfind] at hadd
      cases hadd
      exact addOrGet_hit st c _ hfind
    | none =>
      by_cases hroom : st.constantPool.constants.length < 65535
      · rw [addOrGet_miss st c hfind hroom] at hadd
        cases hadd
        refine addOrGet_hit _ c _ ?_
        simp [mapFind, List.find?]
      · rw [addOrGet_full st c hfind (Nat.not_lt.mp hroom)] at hadd
        exact Outcome.noConfusion hadd
  · intro b b'
    constructor
    · intro h
      exact Constant.float.inj h
    · intro h
      rw [h]

/-- C8 amended theorem applied at concrete states: a fresh insert of
`Int(5)` appends at index 0, and re-inserting it returns index 0 with the
pool unchanged. -/
theorem c8_amended_witness :
    Compiler.addOrGetConstant Compiler.new (.int 5) =
      .ok (0, ⟨⟨[.int 5]⟩, [], [(.int 5, 0)]⟩) ∧
    Compiler.addOrGetConstant ⟨⟨[.int 5]⟩, [], [(.int 5, 0)]⟩ (.int 5) =
      .ok (0, ⟨⟨[.int 5]⟩, [], [(.int 5, 0)]⟩) := by
  constructor
  · have h := (c8_amended Compiler.new (.int 5)).2.1 (by decide) (by decide)
    simpa [Compiler.new, ConstantPool.new] using h
  · have h := (c8_amended ⟨⟨[.int 5]⟩, [], [(.int 5, 0)]⟩ (.int 5)).1 0 (by decide)
    simpa using h


/-- Association-list lookup on a mismatching head skips it. -/
theorem mapFind_cons_ne (p : ConstantKey × Nat) (m : List (ConstantKey × Nat))
    (k : ConstantKey) (h : p.1 ≠ k) : mapFind (p :: m) k = mapFind m k := by
  simp [mapFind, List.find?, h]

/-- Association-list lookup on a matching head returns its value. -/
theorem mapFind_cons_eq (p : ConstantKey × Nat) (m : List (ConstantKey × Nat))
    (k : ConstantKey) (h : p.1 = k) : mapFind (p :: m) k = some p.2 := by
  simp [mapFind, List.find?, h]

theorem intPoolUpto_length (n : Nat) : (intPoolUpto n).length = n + 1 := by
  induction n with
  | zero => rfl
  | succ n ih => simp [intPoolUpto, ih]

theorem mapFind_intMapUpto (n k : Nat) :
    mapFind (intMapUpto n) (Constant.int (k : Int)) =
      if k ≤ n then some k else Option.none := by
  induction n with
  | zero =>
    by_cases hk : k = 0
    · subst hk
      rw [if_pos (le_refl 0)]
      exact mapFind_cons_eq _ _ _ rfl
    · rw [if_neg (by omega)]
      have hne : (Constant.int 0 : ConstantKey) ≠ Constant.int (k : Int) := by
        simp only [ne_eq, Constant.int.injEq]
        omega
      rw [show intMapUpto 0 = [(Constant.int 0, 0)] from rfl,
        mapFind_cons_ne _ _ _ hne]
      rfl
  | succ n ih =>
    by_cases hk : k = n + 1
    · subst hk
      rw [if_pos (le_refl _)]
      rw [show intMapUpto (n + 1) =
        (Constant.int ((n + 1 : Nat) : Int), n + 1) :: intMapUpto n from rfl]
      exact mapFind_cons_eq _ _ _ rfl
    · have hne : (Constant.int ((n + 1 : Nat) : Int) : ConstantKey) ≠
          Constant.int (k : Int) := by
        simp only [ne_eq, Constant.int.injEq]
        omega
      rw [show intMapUpto (n + 1) =
        (Constant.int ((n + 1 : Nat) : Int), n + 1) :: intMapUpto n from rfl,
        mapFind_cons_ne _ _ _ hne, ih]
      by_cases h2 : k ≤ n
      · rw [if_pos h2, if_pos (by omega)]
      · rw [if_neg h2, if_neg (by omega)]

/-- Compiling the chain below capacity fills the pool with the integers
`0 … n` and the matching deduplication map. -/
theorem compileExpr_chain : ∀ n : Nat, n < 65535 →
    ∃ code, Compiler.compileExpr Compiler.new (chainExpr n) =
      .ok ⟨⟨intPoolUpto n⟩, code, intMapUpto n⟩ := by
  intro n
  induction n with
  | zero =>
    intro _
    exact ⟨[Opcode.pushConst.toU8, 0, 0], by decide⟩
  | succ n ih =>
    intro hn
    obtain ⟨code, hcode⟩ := ih (by omega)
    show ∃ c, Compiler.compileExpr Compiler.new
      (.binary .add (chainExpr n) (.int ((n + 1 : Nat) : Int) span0) span0) =
        .ok ⟨⟨intPoolUpto (n + 1)⟩, c, intMapUpto (n + 1)⟩
    have hfind : mapFind (intMapUpto n) (Constant.int ((n + 1 : Nat) : Int)) =
        Option.none := by
      rw [mapFind_intMapUpto n (n + 1), if_neg (by omega)]
    have hmiss := addOrGet_miss ⟨⟨intPoolUpto n⟩, code, intMapUpto n⟩
      (Constant.int ((n + 1 : Nat) : Int)) hfind
      (by simp only [intPoolUpto_length]; omega)
    simp only [intPoolUpto_length] at hmiss
    simp only [Compiler.compileExpr, hcode, hmiss, bind, Outcome.bind,
      Compiler.emitU16, Compiler.emit, pure]
    exact ⟨_, rfl⟩


/-- A panic while compiling the right operand of a binary expression
escapes `compile_expr`. -/
theorem compileExpr_binary_panic (st1 : CState) (e r : AstExpr)
    (op : AstBinaryOp) (sp : Span) (m : String)
    (he : Compiler.compileExpr Compiler.new e = .ok st1)
    (hr : Compiler.compileExpr st1 r = .panic m) :
    Compiler.compileExpr Compiler.new (.binary op e r sp) = .panic m := by
  simp only [Compiler.compileExpr, he, hr, bind, Outcome.bind]

/-- A panic while interning an integer literal escapes `compile_expr`. -/
theorem compileExpr_int_panic (st : CState) (v : Int) (sp : Span) (m : String)
    (h : Compiler.addOrGetConstant st (.int v) = .panic m) :
    Compiler.compileExpr st (.int v sp) = .panic m := by
  simp only [Compiler.compileExpr, h, bind, Outcome.bind]

/-- A panic while compiling the predicate of the first probe escapes
`Compiler::compile`. -/
theorem compile_predicate_panic (spec : AstProbeSpec) (e : AstExpr)
    (body : List AstStatement) (sp sp2 : Span) (m : String)
    (hpanic : Compiler.compileExpr Compiler.new e = .panic m) :
    Compiler.compile ⟨[⟨spec, some e, body, sp⟩], sp2⟩ = .panic m := by
  simp only [Compiler.compile, Compiler.compileProbes, Compiler.compileProbe,
    Compiler.compileProbeSpec, hpanic, bind, Outcome.bind]

/-- One more link overflows: compiling `chainExpr 65535` panics at the
65536th distinct constant. -/
theorem compileExpr_chain_panic :
    Compiler.compileExpr Compiler.new (chainExpr 65535) =
      .panic "Constant pool overflow: too many constants" := by
  obtain ⟨code, hcode⟩ := compileExpr_chain 65534 (by omega)
  have hstep : chainExpr 65535 =
      .binary .add (chainExpr 65534) (.int ((65534 + 1 : Nat) : Int) span0)
        span0 := by
    rw [show (65535 : Nat) = 65534 + 1 from rfl]
    rw [chainExpr]
  rw [hstep]
  have hfind : mapFind (intMapUpto 65534)
      (Constant.int ((65534 + 1 : Nat) : Int)) = Option.none := by
    rw [mapFind_intMapUpto 65534 (65534 + 1), if_neg (by omega)]
  refine compileExpr_binary_panic _ _ _ _ _ _ hcode
    (compileExpr_int_panic _ _ _ _ ?_)
  exact addOrGet_full _ _ hfind (by simp only [intPoolUpto_length]; omega)

/-- C7 counterexample: compiling `c7Ast` neither returns a Program nor an
error value — the pool overflow escapes `Compiler::compile` as a panic,
and no ConstantPoolOverflow error value is produced. -/
theorem c7_counterexample :
    Compiler.compile c7Ast =
      .panic "Constant pool overflow: too many constants" :=
  compile_predicate_panic _ _ _ _ _ _ compileExpr_chain_panic

/-- C7 (amended): compilation is not panic-free — a probe whose distinct
constants exceed the pool capacity makes `compile` abort with the
constant-pool-overflow panic rather than return a ConstantPoolOverflow
error value; interning itself never produces an error value: each
`add_or_get_constant` call either succeeds or panics with exactly that
message. -/
theorem c7_amended :
    Compiler.compile c7Ast =
      .panic "Constant pool overflow: too many constants" ∧
    ∀ (st : CState) (c : Constant),
      (∃ r, Compiler.addOrGetConstant st c = .ok r) ∨
      Compiler.addOrGetConstant st c =
        .panic "Constant pool overflow: too many constants" := by
  constructor
  · exact compile_predicate_panic _ _ _ _ _ _ compileExpr_chain_panic
  · intro st c
    cases hfind : mapFind st.constantMap (Compiler.constantToKey c) with
    | some i => exact Or.inl ⟨(i, st), addOrGet_hit st c i hfind⟩
    | none =>
      by_cases hroom : st.constantPool.constants.length < 65535
      · exact Or.inl ⟨_, addOrGet_miss st c hfind hroom⟩
      · exact Or.inr (addOrGet_full st c hfind (Nat.not_lt.mp hroom))

theorem poolExt_refl (p : ConstantPool) : poolExt p p := fun _ _ h => h

theorem poolExt_trans {p q r : ConstantPool} (h1 : poolExt p q)
    (h2 : poolExt q r) : poolExt p r :=
  fun i c h => h2 i c (h1 i c h)

theorem poolExt_append (p : ConstantPool) (cs : List Constant) :
    poolExt p ⟨p.constants ++ cs⟩ := by
  intro i c h
  have hlt : i < p.constants.length := by
    cases hl : p.constants.get? i with
    | none => rw [hl] at h; cases h
    | some d => exact (List.get?_eq_some.mp hl).1
  show (p.constants ++ cs).get? i = some c
  rw [List.get?_append hlt]
  exact h

theorem mapOK_new : MapOK Compiler.new := by
  intro k i h
  cases h

/-- Soundness of `add_or_get_constant`: on success the returned index
holds the interned constant, the invariant is preserved, the pool only
grows, and the bytecode buffer is untouched. -/
theorem addOrGet_sound {st st' : CState} {c : Constant} {i : Nat}
    (h : Compiler.addOrGetConstant st c = .ok (i, st')) (hok : MapOK st) :
    st'.constantPool.constants.get? i = some c ∧ MapOK st' ∧
    poolExt st.constantPool st'.constantPool ∧
    st'.bytecode = st.bytecode := by
  cases hfind : mapFind st.constantMap (Compiler.constantToKey c) with
  | some j =>
    rw [addOrGet_hit st c j hfind] at h
    cases h
    exact ⟨hok _ _ hfind, hok, poolExt_refl _, rfl⟩
  | none =>
    by_cases hroom : st.constantPool.constants.length < 65535
    · rw [addOrGet_miss st c hfind hroom] at h
      cases h
      refine ⟨?_, ?_, poolExt_append _ _, rfl⟩
      · exact List.get?_concat_length _ _
      · intro k j hkj
        by_cases hk : Compiler.constantToKey c = k
        · subst hk
          rw [mapFind_cons_eq _ _ _ rfl] at hkj
          cases hkj
          exact List.get?_concat_length _ _
        · rw [mapFind_cons_ne _ _ _ hk] at hkj
          exact poolExt_append st.constantPool [c] _ _ (hok _ _ hkj)
    · rw [addOrGet_full st c hfind (Nat.not_lt.mp hroom)] at h
      exact Outcome.noConfusion h

/-- Emitting never touches the pool or the map. -/
theorem emit_fields (st : CState) (op : Opcode) :
    (Compiler.emit st op).constantPool = st.constantPool ∧
    (Compiler.emit st op).constantMap = st.constantMap ∧
    (Compiler.emit st op).bytecode = st.bytecode ++ [op.toU8] :=
  ⟨rfl, rfl, rfl⟩

theorem emitU16_fields (st : CState) (op : Opcode) (operand : Nat) :
    (Compiler.emitU16 st op operand).constantPool = st.constantPool ∧
    (Compiler.emitU16 st op operand).constantMap = st.constantMap ∧
    (Compiler.emitU16 st op operand).bytecode =
      st.bytecode ++ (op.toU8 :: u16Bytes operand) :=
  ⟨rfl, rfl, rfl⟩

/-- A `MapOK` state stays `MapOK` after any emission. -/
theorem mapOK_emit (st : CState) (op : Opcode) (h : MapOK st) :
    MapOK (Compiler.emit st op) := h

theorem mapOK_emitU16 (st : CState) (op : Opcode) (operand : Nat)
    (h : MapOK st) : MapOK (Compiler.emitU16 st op operand) := h

theorem mapOK_emitCall (st : CState) (funcIndex argCount : Nat)
    (h : MapOK st) : MapOK (Compiler.emitCall st funcIndex argCount) := h

/-- Reassembling a u16 operand from its little-endian bytes. -/
theorem u16le_bytes (n : Nat) : u16le (n % 256) (n / 256) = n := by
  unfold u16le
  omega

/-- A pool slot holding a literal makes `get_value` succeed. -/
theorem getValue_of_get? {pool : ConstantPool} {idx : Nat} {c : Constant}
    {v : Value} (hg : pool.constants.get? idx = some c)
    (ha : c.asValue = .ok v) : pool.getValue idx = .ok v := by
  unfold ConstantPool.getValue ConstantPool.get
  rw [hg]
  simpa [bind, Except.bind] using ha

/-- A pool slot holding a named constant makes `get_string` succeed. -/
theorem getString_of_get? {pool : ConstantPool} {idx : Nat} {c : Constant}
    {s : String} (hg : pool.constants.get? idx = some c)
    (ha : c.asString = .ok s) : pool.getString idx = .ok s := by
  unfold ConstantPool.getString ConstantPool.get
  rw [hg]
  simpa [bind, Except.bind] using ha


theorem not_total_of_loadVar_error (D : Dispatcher σ) {s n msg}
    (h : D.loadVariable s n = .error msg) : ¬ D.Total := by
  intro hT
  obtain ⟨r, hr⟩ := hT.1 s n
  rw [hr] at h
  cases h

theorem not_total_of_storeVar_error (D : Dispatcher σ) {s n v msg}
    (h : D.storeVariable s n v = .error msg) : ¬ D.Total := by
  intro hT
  obtain ⟨r, hr⟩ := hT.2.1 s n v
  rw [hr] at h
  cases h

theorem not_total_of_getAttr_error (D : Dispatcher σ) {s o n msg}
    (h : D.getAttribute s o n = .error msg) : ¬ D.Total := by
  intro hT
  obtain ⟨r, hr⟩ := hT.2.2.1 s o n
  rw [hr] at h
  cases h

theorem not_total_of_getItem_error (D : Dispatcher σ) {s o k msg}
    (h : D.getItem s o k = .error msg) : ¬ D.Total := by
  intro hT
  obtain ⟨r, hr⟩ := hT.2.2.2.2.1 s o k
  rw [hr] at h
  cases h

theorem not_total_of_callFunc_error (D : Dispatcher σ) {s n args msg}
    (h : D.callFunction s n args = .error msg) : ¬ D.Total := by
  intro hT
  obtain ⟨r, hr⟩ := hT.2.2.2.2.2.1 s n args
  rw [hr] at h
  cases h

theorem not_total_of_binaryOp_error (D : Dispatcher σ) {s op l r msg}
    (h : D.binaryOp s op l r = .error msg) : ¬ D.Total := by
  intro hT
  obtain ⟨r, hr⟩ := hT.2.2.2.2.2.2.1 s op l r
  rw [hr] at h
  cases h

theorem not_total_of_comparisonOp_error (D : Dispatcher σ) {s op l r msg}
    (h : D.comparisonOp s op l r = .error msg) : ¬ D.Total := by
  intro hT
  obtain ⟨r, hr⟩ := hT.2.2.2.2.2.2.2 s op l r
  rw [hr] at h
  cases h

theorem exec_step_loadVar (pool : ConstantPool) (D : Dispatcher σ)
    (b0 b1 : Nat) (rest : List Nat) (stack : List Value) (s : σ) :
    exec pool D (Opcode.loadVar.toU8 :: b0 :: b1 :: rest) stack s =
      match pool.getString (u16le b0 b1) with
      | .error e => (.error e, s)
      | .ok name =>
        match D.loadVariable s name with
        | .error e => (.error e, s)
        | .ok (v, s') => exec pool D rest (v :: stack) s' := rfl

theorem exec_step_storeVar (pool : ConstantPool) (D : Dispatcher σ)
    (b0 b1 : Nat) (rest : List Nat) (stack : List Value) (s : σ) :
    exec pool D (Opcode.storeVar.toU8 :: b0 :: b1 :: rest) stack s =
      match pool.getString (u16le b0 b1) with
      | .error e => (.error e, s)
      | .ok name =>
        match stack with
        | [] => (.error "Stack underflow", s)
        | v :: stack' =>
          match D.storeVariable s name v with
          | .error e => (.error e, s)
          | .ok s' => exec pool D rest stack' s' := rfl

theorem exec_step_getAttr (pool : ConstantPool) (D : Dispatcher σ)
    (b0 b1 : Nat) (rest : List Nat) (stack : List Value) (s : σ) :
    exec pool D (Opcode.getAttr.toU8 :: b0 :: b1 :: rest) stack s =
      match pool.getString (u16le b0 b1) with
      | .error e => (.error e, s)
      | .ok attr =>
        match stack with
        | [] => (.error "Stack underflow", s)
        | o :: stack' =>
          match D.getAttribute s o attr with
          | .error e => (.error e, s)
          | .ok (v, s') => exec pool D rest (v :: stack') s' := rfl

theorem exec_step_getItem (pool : ConstantPool) (D : Dispatcher σ)
    (rest : List Nat) (key o : Value) (stack : List Value) (s : σ) :
    exec pool D (Opcode.getItem.toU8 :: rest) (key :: o :: stack) s =
      (match D.getItem s o key with
      | .error e => (.error e, s)
      | .ok (v, s') => exec pool D rest (v :: stack) s') := rfl

theorem exec_step_pop (pool : ConstantPool) (D : Dispatcher σ)
    (rest : List Nat) (v : Value) (stack : List Value) (s : σ) :
    exec pool D (Opcode.pop.toU8 :: rest) (v :: stack) s =
      exec pool D rest stack s := rfl

theorem exec_step_not (pool : ConstantPool) (D : Dispatcher σ)
    (rest : List Nat) (v : Value) (stack : List Value) (s : σ) :
    exec pool D (Opcode.not.toU8 :: rest) (v :: stack) s =
      exec pool D rest (Value.bool (!v.isTruthy) :: stack) s := rfl

theorem exec_step_and (pool : ConstantPool) (D : Dispatcher σ)
    (rest : List Nat) (r l : Value) (stack : List Value) (s : σ) :
    exec pool D (Opcode.and.toU8 :: rest) (r :: l :: stack) s =
      exec pool D rest (Value.bool (l.isTruthy && r.isTruthy) :: stack) s := rfl

theorem exec_step_or (pool : ConstantPool) (D : Dispatcher σ)
    (rest : List Nat) (r l : Value) (stack : List Value) (s : σ) :
    exec pool D (Opcode.or.toU8 :: rest) (r :: l :: stack) s =
      exec pool D rest (Value.bool (l.isTruthy || r.isTruthy) :: stack) s := rfl

theorem exec_step_callFunc (pool : ConstantPool) (D : Dispatcher σ)
    (b0 b1 argc : Nat) (rest : List Nat) (stack : List Value) (s : σ) :
    exec pool D (Opcode.callFunc.toU8 :: b0 :: b1 :: argc :: rest) stack s =
      match pool.getString (u16le b0 b1) with
      | .error e => (.error e, s)
      | .ok funcName =>
        if stack.length < argc then
          (.error s!"Stack underflow: need {argc} args for {funcName}(), but only {stack.length} on stack", s)
        else
          match D.callFunction s funcName ((stack.take argc).reverse) with
          | .error e => (.error e, s)
          | .ok (v, s') => exec pool D rest (v :: (stack.drop argc)) s' := rfl

theorem exec_step_add (pool : ConstantPool) (D : Dispatcher σ)
    (rest : List Nat) (stack : List Value) (s : σ) :
    exec pool D (Opcode.add.toU8 :: rest) stack s =
      (match binStep D .add stack s with
      | .error e => (.error e, s)
      | .ok (v, stack', s') => exec pool D rest (v :: stack') s') := rfl

theorem exec_step_sub (pool : ConstantPool) (D : Dispatcher σ)
    (rest : List Nat) (stack : List Value) (s : σ) :
    exec pool D (Opcode.sub.toU8 :: rest) stack s =
      (match binStep D .sub stack s with
      | .error e => (.error e, s)
      | .ok (v, stack', s') => exec pool D rest (v :: stack') s') := rfl

theorem exec_step_mul (pool : ConstantPool) (D : Dispatcher σ)
    (rest : List Nat) (stack : List Value) (s : σ) :
    exec pool D (Opcode.mul.toU8 :: rest) stack s =
      (match binStep D .mul stack s with
      | .error e => (.error e, s)
      | .ok (v, stack', s') => exec pool D rest (v :: stack') s') := rfl

theorem exec_step_div (pool : ConstantPool) (D : Dispatcher σ)
    (rest : List Nat) (stack : List Value) (s : σ) :
    exec pool D (Opcode.div.toU8 :: rest) stack s =
      (match binStep D .div stack s with
      | .error e => (.error e, s)
      | .ok (v, stack', s') => exec pool D rest (v :: stack') s') := rfl

theorem exec_step_mod (pool : ConstantPool) (D : Dispatcher σ)
    (rest : List Nat) (stack : List Value) (s : σ) :
    exec pool D (Opcode.mod.toU8 :: rest) stack s =
      (match binStep D .mod stack s with
      | .error e => (.error e, s)
      | .ok (v, stack', s') => exec pool D rest (v :: stack') s') := rfl

theorem exec_step_eq (pool : ConstantPool) (D : Dispatcher σ)
    (rest : List Nat) (stack : List Value) (s : σ) :
    exec pool D (Opcode.eq.toU8 :: rest) stack s =
      (match cmpStep D .eq stack s with
      | .error e => (.error e, s)
      | .ok (v, stack', s') => exec pool D rest (v :: stack') s') := rfl

theorem exec_step_ne (pool : ConstantPool) (D : Dispatcher σ)
    (rest : List Nat) (stack : List Value) (s : σ) :
    exec pool D (Opcode.ne.toU8 :: rest) stack s =
      (match cmpStep D .ne stack s with
      | .error e => (.error e, s)
      | .ok (v, stack', s') => exec pool D rest (v :: stack') s') := rfl

theorem exec_step_lt (pool : ConstantPool) (D : Dispatcher σ)
    (rest : List Nat) (stack : List Value) (s : σ) :
    exec pool D (Opcode.lt.toU8 :: rest) stack s =
      (match cmpStep D .lt stack s with
      | .error e => (.error e, s)
      | .ok (v, stack', s') => exec pool D rest (v :: stack') s') := rfl

theorem exec_step_gt (pool : ConstantPool) (D : Dispatcher σ)
    (rest : List Nat) (stack : List Value) (s : σ) :
    exec pool D (Opcode.gt.toU8 :: rest) stack s =
      (match cmpStep D .gt stack s with
      | .error e => (.error e, s)
      | .ok (v, stack', s') => exec pool D rest (v :: stack') s') := rfl

theorem exec_step_le (pool : ConstantPool) (D : Dispatcher σ)
    (rest : List Nat) (stack : List Value) (s : σ) :
    exec pool D (Opcode.le.toU8 :: rest) stack s =
      (match cmpStep D .le stack s with
      | .error e => (.error e, s)
      | .ok (v, stack', s') => exec pool D rest (v :: stack') s') := rfl

theorem exec_step_ge (pool : ConstantPool) (D : Dispatcher σ)
    (rest : List Nat) (stack : List Value) (s : σ) :
    exec pool D (Opcode.ge.toU8 :: rest) stack s =
      (match cmpStep D .ge stack s with
      | .error e => (.error e, s)
      | .ok (v, stack', s') => exec pool D rest (v :: stack') s') := rfl



theorem exec_step_pushConst (pool : ConstantPool) (D : Dispatcher σ)
    (b0 b1 : Nat) (rest : List Nat) (stack : List Value) (s : σ) :
    exec pool D (Opcode.pushConst.toU8 :: b0 :: b1 :: rest) stack s =
      (match pool.getValue (u16le b0 b1) with
      | .error e => (.error e, s)
      | .ok v => exec pool D rest (v :: stack) s) := rfl

theorem exec_step_loadVar_ok (pool : ConstantPool) (D : Dispatcher σ)
    (b0 b1 : Nat) (rest : List Nat) (stack : List Value) (s : σ)
    (name : String) (hn : pool.getString (u16le b0 b1) = .ok name) :
    exec pool D (Opcode.loadVar.toU8 :: b0 :: b1 :: rest) stack s =
      (match D.loadVariable s name with
      | .error e => (.error e, s)
      | .ok (v, s') => exec pool D rest (v :: stack) s') := by
  rw [exec_step_loadVar, hn]

theorem exec_step_storeVar_ok (pool : ConstantPool) (D : Dispatcher σ)
    (b0 b1 : Nat) (rest : List Nat) (x : Value) (stack : List Value) (s : σ)
    (name : String) (hn : pool.getString (u16le b0 b1) = .ok name) :
    exec pool D (Opcode.storeVar.toU8 :: b0 :: b1 :: rest) (x :: stack) s =
      (match D.storeVariable s name x with
      | .error e => (.error e, s)
      | .ok s' => exec pool D rest stack s') := by
  rw [exec_step_storeVar, hn]

theorem exec_step_getAttr_ok (pool : ConstantPool) (D : Dispatcher σ)
    (b0 b1 : Nat) (rest : List Nat) (x : Value) (stack : List Value) (s : σ)
    (attr : String) (hn : pool.getString (u16le b0 b1) = .ok attr) :
    exec pool D (Opcode.getAttr.toU8 :: b0 :: b1 :: rest) (x :: stack) s =
      (match D.getAttribute s x attr with
      | .error e => (.error e, s)
      | .ok (v, s') => exec pool D rest (v :: stack) s') := by
  rw [exec_step_getAttr, hn]

theorem exec_step_callFunc_ok (pool : ConstantPool) (D : Dispatcher σ)
    (b0 b1 argc : Nat) (rest : List Nat) (stack : List Value) (s : σ)
    (name : String) (hn : pool.getString (u16le b0 b1) = .ok name) :
    exec pool D (Opcode.callFunc.toU8 :: b0 :: b1 :: argc :: rest) stack s =
      (if stack.length < argc then
        (.error s!"Stack underflow: need {argc} args for {name}(), but only {stack.length} on stack", s)
      else
        match D.callFunction s name ((stack.take argc).reverse) with
        | .error e => (.error e, s)
        | .ok (v, s') => exec pool D rest (v :: (stack.drop argc)) s') := by
  rw [exec_step_callFunc, hn]

theorem unit_pushConst (pool : ConstantPool) (D : Dispatcher σ) (idx : Nat)
    (v : Value) (hv : pool.getValue idx = .ok v) :
    ProgressE pool D (Opcode.pushConst.toU8 :: u16Bytes idx) := by
  intro rest stack s
  left
  refine ⟨v, s, ?_⟩
  show exec pool D
    (Opcode.pushConst.toU8 :: (idx % 256) :: (idx / 256) :: rest) stack s = _
  rw [exec_step_pushConst, u16le_bytes, hv]

theorem unit_loadVar (pool : ConstantPool) (D : Dispatcher σ) (idx : Nat)
    (name : String) (hn : pool.getString idx = .ok name) :
    ProgressE pool D (Opcode.loadVar.toU8 :: u16Bytes idx) := by
  intro rest stack s
  have hx : exec pool D ((Opcode.loadVar.toU8 :: u16Bytes idx) ++ rest)
      stack s =
      (match D.loadVariable s name with
      | .error e => (.error e, s)
      | .ok (v, s') => exec pool D rest (v :: stack) s') := by
    show exec pool D
      (Opcode.loadVar.toU8 :: (idx % 256) :: (idx / 256) :: rest) stack s = _
    rw [exec_step_loadVar_ok pool D _ _ rest stack s name (by rw [u16le_bytes]; exact hn)]
  rw [hx]
  cases hD : D.loadVariable s name with
  | error e => exact Or.inr ⟨⟨e, s, rfl⟩, not_total_of_loadVar_error D hD⟩
  | ok p =>
    obtain ⟨v, s'⟩ := p
    exact Or.inl ⟨v, s', rfl⟩

theorem unit_getAttr (pool : ConstantPool) (D : Dispatcher σ) (idx : Nat)
    (attr : String) (hn : pool.getString idx = .ok attr) :
    Pop1Unit pool D (Opcode.getAttr.toU8 :: u16Bytes idx) := by
  intro rest x stack s
  have hx : exec pool D ((Opcode.getAttr.toU8 :: u16Bytes idx) ++ rest)
      (x :: stack) s =
      (match D.getAttribute s x attr with
      | .error e => (.error e, s)
      | .ok (v, s') => exec pool D rest (v :: stack) s') := by
    show exec pool D
      (Opcode.getAttr.toU8 :: (idx % 256) :: (idx / 256) :: rest) (x :: stack) s = _
    rw [exec_step_getAttr_ok pool D _ _ rest x stack s attr (by rw [u16le_bytes]; exact hn)]
  rw [hx]
  cases hD : D.getAttribute s x attr with
  | error e => exact Or.inr ⟨⟨e, s, rfl⟩, not_total_of_getAttr_error D hD⟩
  | ok p =>
    obtain ⟨v, s'⟩ := p
    exact Or.inl ⟨v, s', rfl⟩

theorem unit_getItem (pool : ConstantPool) (D : Dispatcher σ) :
    Pop2Unit pool D [Opcode.getItem.toU8] := by
  intro rest x y stack s
  rw [List.singleton_append, exec_step_getItem]
  cases hD : D.getItem s y x with
  | error e => exact Or.inr ⟨⟨e, s, rfl⟩, not_total_of_getItem_error D hD⟩
  | ok p =>
    obtain ⟨v, s'⟩ := p
    exact Or.inl ⟨v, s', rfl⟩

theorem unit_storeVar (pool : ConstantPool) (D : Dispatcher σ) (idx : Nat)
    (name : String) (hn : pool.getString idx = .ok name) :
    Drop1Unit pool D (Opcode.storeVar.toU8 :: u16Bytes idx) := by
  intro rest x stack s
  have hx : exec pool D ((Opcode.storeVar.toU8 :: u16Bytes idx) ++ rest)
      (x :: stack) s =
      (match D.storeVariable s name x with
      | .error e => (.error e, s)
      | .ok s' => exec pool D rest stack s') := by
    show exec pool D
      (Opcode.storeVar.toU8 :: (idx % 256) :: (idx / 256) :: rest) (x :: stack) s = _
    rw [exec_step_storeVar_ok pool D _ _ rest x stack s name (by rw [u16le_bytes]; exact hn)]
  rw [hx]
  cases hD : D.storeVariable s name x with
  | error e => exact Or.inr ⟨⟨e, s, rfl⟩, not_total_of_storeVar_error D hD⟩
  | ok s' => exact Or.inl ⟨s', rfl⟩

theorem unit_storeVar_fail (pool : ConstantPool) (D : Dispatcher σ) (idx : Nat)
    (name : String) (hn : pool.getString idx = .ok name) (hF : StoreFails D) :
    ∀ rest (x : Value) stack s, ∃ msg s',
      exec pool D ((Opcode.storeVar.toU8 :: u16Bytes idx) ++ rest)
        (x :: stack) s = (.error msg, s') := by
  intro rest x stack s
  have hx : exec pool D ((Opcode.storeVar.toU8 :: u16Bytes idx) ++ rest)
      (x :: stack) s =
      (match D.storeVariable s name x with
      | .error e => (.error e, s)
      | .ok s' => exec pool D rest stack s') := by
    show exec pool D
      (Opcode.storeVar.toU8 :: (idx % 256) :: (idx / 256) :: rest) (x :: stack) s = _
    rw [exec_step_storeVar_ok pool D _ _ rest x stack s name (by rw [u16le_bytes]; exact hn)]
  rw [hx]
  obtain ⟨msg, hmsg⟩ := hF s name x
  rw [hmsg]
  exact ⟨msg, s, rfl⟩

theorem unit_pop (pool : ConstantPool) (D : Dispatcher σ) :
    Drop1Unit pool D [Opcode.pop.toU8] := by
  intro rest x stack s
  rw [List.singleton_append, exec_step_pop]
  exact Or.inl ⟨s, rfl⟩

theorem unit_not (pool : ConstantPool) (D : Dispatcher σ) :
    Pop1Unit pool D [Opcode.not.toU8] := by
  intro rest x stack s
  rw [List.singleton_append, exec_step_not]
  exact Or.inl ⟨_, s, rfl⟩

theorem unit_and (pool : ConstantPool) (D : Dispatcher σ) :
    Pop2Unit pool D [Opcode.and.toU8] := by
  intro rest x y stack s
  rw [List.singleton_append, exec_step_and]
  exact Or.inl ⟨_, s, rfl⟩

theorem unit_or (pool : ConstantPool) (D : Dispatcher σ) :
    Pop2Unit pool D [Opcode.or.toU8] := by
  intro rest x y stack s
  rw [List.singleton_append, exec_step_or]
  exact Or.inl ⟨_, s, rfl⟩

theorem unit_of_binStep (pool : ConstantPool) (D : Dispatcher σ) (b : Nat)
    (op : BinaryOp)
    (hstep : ∀ (rest : List Nat) (stack : List Value) (s : σ),
      exec pool D (b :: rest) stack s =
        (match binStep D op stack s with
        | .error e => (.error e, s)
        | .ok (v, stack', s') => exec pool D rest (v :: stack') s')) :
    Pop2Unit pool D [b] := by
  intro rest x y stack s
  have hb : binStep D op (x :: y :: stack) s =
      (match D.binaryOp s op y x with
      | .error e => .error e
      | .ok (v, s') => .ok (v, stack, s')) := rfl
  have hx : exec pool D ([b] ++ rest) (x :: y :: stack) s =
      (match D.binaryOp s op y x with
      | .error e => (.error e, s)
      | .ok (v, s') => exec pool D rest (v :: stack) s') := by
    rw [List.singleton_append, hstep, hb]
    cases D.binaryOp s op y x with
    | error e => rfl
    | ok p => cases p; rfl
  rw [hx]
  cases hD : D.binaryOp s op y x with
  | error e => exact Or.inr ⟨⟨e, s, rfl⟩, not_total_of_binaryOp_error D hD⟩
  | ok p =>
    obtain ⟨v, s'⟩ := p
    exact Or.inl ⟨v, s', rfl⟩

theorem unit_of_cmpStep (pool : ConstantPool) (D : Dispatcher σ) (b : Nat)
    (op : ComparisonOp)
    (hstep : ∀ (rest : List Nat) (stack : List Value) (s : σ),
      exec pool D (b :: rest) stack s =
        (match cmpStep D op stack s with
        | .error e => (.error e, s)
        | .ok (v, stack', s') => exec pool D rest (v :: stack') s')) :
    Pop2Unit pool D [b] := by
  intro rest x y stack s
  have hb : cmpStep D op (x :: y :: stack) s =
      (match D.comparisonOp s op y x with
      | .error e => .error e
      | .ok (v, s') => .ok (v, stack, s')) := rfl
  have hx : exec pool D ([b] ++ rest) (x :: y :: stack) s =
      (match D.comparisonOp s op y x with
      | .error e => (.error e, s)
      | .ok (v, s') => exec pool D rest (v :: stack) s') := by
    rw [List.singleton_append, hstep, hb]
    cases D.comparisonOp s op y x with
    | error e => rfl
    | ok p => cases p; rfl
  rw [hx]
  cases hD : D.comparisonOp s op y x with
  | error e => exact Or.inr ⟨⟨e, s, rfl⟩, not_total_of_comparisonOp_error D hD⟩
  | ok p =>
    obtain ⟨v, s'⟩ := p
    exact Or.inl ⟨v, s', rfl⟩

theorem unit_callFunc (pool : ConstantPool) (D : Dispatcher σ) (idx argc : Nat)
    (name : String) (hn : pool.getString idx = .ok name) :
    ∀ rest (vs stack : List Value) s, vs.length = argc →
      (∃ v s', exec pool D
          ((Opcode.callFunc.toU8 :: u16Bytes idx ++ [argc]) ++ rest)
          (vs ++ stack) s = exec pool D rest (v :: stack) s') ∨
      ((∃ msg s', exec pool D
          ((Opcode.callFunc.toU8 :: u16Bytes idx ++ [argc]) ++ rest)
          (vs ++ stack) s = (.error msg, s')) ∧ ¬ D.Total) := by
  intro rest vs stack s hlen
  have hnlt : ¬ (vs ++ stack).length < argc := by
    rw [List.length_append, hlen]
    omega
  have htake : (vs ++ stack).take argc = vs := by
    rw [← hlen]
    exact List.take_left vs stack
  have hdrop : (vs ++ stack).drop argc = stack := by
    rw [← hlen]
    exact List.drop_left vs stack
  have hx : exec pool D
      ((Opcode.callFunc.toU8 :: u16Bytes idx ++ [argc]) ++ rest)
      (vs ++ stack) s =
      (match D.callFunction s name (vs.reverse) with
      | .error e => (.error e, s)
      | .ok (v, s') => exec pool D rest (v :: stack) s') := by
    show exec pool D
      (Opcode.callFunc.toU8 :: (idx % 256) :: (idx / 256) :: argc :: rest)
      (vs ++ stack) s = _
    rw [exec_step_callFunc_ok pool D _ _ argc rest (vs ++ stack) s name
      (by rw [u16le_bytes]; exact hn)]
    rw [if_neg hnlt, htake, hdrop]
  rw [hx]
  cases hD : D.callFunction s name vs.reverse with
  | error e => exact Or.inr ⟨⟨e, s, rfl⟩, not_total_of_callFunc_error D hD⟩
  | ok p =>
    obtain ⟨v, s'⟩ := p
    exact Or.inl ⟨v, s', rfl⟩

theorem progressE_seq_pop1 {pool : ConstantPool} {D : Dispatcher σ}
    {c u : List Nat} (h1 : ProgressE pool D c) (hu : Pop1Unit pool D u) :
    ProgressE pool D (c ++ u) := by
  intro rest stack s
  rw [List.append_assoc]
  rcases h1 (u ++ rest) stack s with ⟨v, s1, hv⟩ | ⟨⟨msg, s1, he⟩, hnt⟩
  · rw [hv]
    rcases hu rest v stack s1 with ⟨w, s2, hw⟩ | ⟨⟨msg, s2, he⟩, hnt⟩
    · exact Or.inl ⟨w, s2, hw⟩
    · exact Or.inr ⟨⟨msg, s2, he⟩, hnt⟩
  · exact Or.inr ⟨⟨msg, s1, he⟩, hnt⟩

theorem progressE_seq2_pop2 {pool : ConstantPool} {D : Dispatcher σ}
    {c1 c2 u : List Nat} (h1 : ProgressE pool D c1) (h2 : ProgressE pool D c2)
    (hu : Pop2Unit pool D u) : ProgressE pool D (c1 ++ c2 ++ u) := by
  intro rest stack s
  rw [List.append_assoc, List.append_assoc]
  rcases h1 (c2 ++ (u ++ rest)) stack s with ⟨v, s1, hv⟩ | ⟨⟨msg, s1, he⟩, hnt⟩
  · rw [hv]
    rcases h2 (u ++ rest) (v :: stack) s1 with ⟨w, s2, hw⟩ | ⟨⟨msg, s2, he⟩, hnt⟩
    · rw [hw]
      rcases hu rest w v stack s2 with ⟨x, s3, hx⟩ | ⟨⟨msg, s3, he⟩, hnt⟩
      · exact Or.inl ⟨x, s3, hx⟩
      · exact Or.inr ⟨⟨msg, s3, he⟩, hnt⟩
    · exact Or.inr ⟨⟨msg, s2, he⟩, hnt⟩
  · exact Or.inr ⟨⟨msg, s1, he⟩, hnt⟩

theorem progressS_of_E_drop1 {pool : ConstantPool} {D : Dispatcher σ}
    {c u : List Nat} (h1 : ProgressE pool D c) (hu : Drop1Unit pool D u) :
    ProgressS pool D (c ++ u) := by
  intro rest stack s
  rw [List.append_assoc]
  rcases h1 (u ++ rest) stack s with ⟨v, s1, hv⟩ | ⟨⟨msg, s1, he⟩, hnt⟩
  · rw [hv]
    rcases hu rest v stack s1 with ⟨s2, hw⟩ | ⟨⟨msg, s2, he⟩, hnt⟩
    · exact Or.inl ⟨s2, hw⟩
    · exact Or.inr ⟨⟨msg, s2, he⟩, hnt⟩
  · exact Or.inr ⟨⟨msg, s1, he⟩, hnt⟩

theorem progressN_nil (pool : ConstantPool) (D : Dispatcher σ) :
    ProgressN pool D 0 [] := by
  intro rest stack s
  exact Or.inl ⟨[], s, rfl, rfl⟩

theorem progressN_snoc {pool : ConstantPool} {D : Dispatcher σ}
    {n : Nat} {c1 c2 : List Nat} (h1 : ProgressN pool D n c1)
    (h2 : ProgressE pool D c2) : ProgressN pool D (n + 1) (c1 ++ c2) := by
  intro rest stack s
  rw [List.append_assoc]
  rcases h1 (c2 ++ rest) stack s with ⟨vs, s1, hvs, hv⟩ | ⟨⟨msg, s1, he⟩, hnt⟩
  · rw [hv]
    rcases h2 rest (vs ++ stack) s1 with ⟨w, s2, hw⟩ | ⟨⟨msg, s2, he⟩, hnt⟩
    · refine Or.inl ⟨w :: vs, s2, by simp [hvs], ?_⟩
      rw [hw]
      rfl
    · exact Or.inr ⟨⟨msg, s2, he⟩, hnt⟩
  · exact Or.inr ⟨⟨msg, s1, he⟩, hnt⟩

theorem progressE_of_N_call {pool : ConstantPool} {D : Dispatcher σ}
    {n : Nat} {c : List Nat} {idx : Nat} {name : String}
    (h1 : ProgressN pool D n c) (hn : pool.getString idx = .ok name) :
    ProgressE pool D (c ++ (Opcode.callFunc.toU8 :: u16Bytes idx ++ [n])) := by
  intro rest stack s
  rw [List.append_assoc]
  rcases h1 _ stack s with ⟨vs, s1, hvs, hv⟩ | ⟨⟨msg, s1, he⟩, hnt⟩
  · rw [hv]
    rcases unit_callFunc pool D idx n name hn rest vs stack s1 hvs with
      ⟨w, s2, hw⟩ | ⟨⟨msg, s2, he⟩, hnt⟩
    · exact Or.inl ⟨w, s2, hw⟩
    · exact Or.inr ⟨⟨msg, s2, he⟩, hnt⟩
  · exact Or.inr ⟨⟨msg, s1, he⟩, hnt⟩

theorem progressS_nil (pool : ConstantPool) (D : Dispatcher σ) :
    ProgressS pool D [] := by
  intro rest stack s
  exact Or.inl ⟨s, rfl⟩

theorem progressS_append {pool : ConstantPool} {D : Dispatcher σ}
    {c1 c2 : List Nat} (h1 : ProgressS pool D c1) (h2 : ProgressS pool D c2) :
    ProgressS pool D (c1 ++ c2) := by
  intro rest stack s
  rw [List.append_assoc]
  rcases h1 (c2 ++ rest) stack s with ⟨s1, hv⟩ | ⟨⟨msg, s1, he⟩, hnt⟩
  · rw [hv]
    rcases h2 rest stack s1 with ⟨s2, hw⟩ | ⟨⟨msg, s2, he⟩, hnt⟩
    · exact Or.inl ⟨s2, hw⟩
    · exact Or.inr ⟨⟨msg, s2, he⟩, hnt⟩
  · exact Or.inr ⟨⟨msg, s1, he⟩, hnt⟩

theorem alwaysErr_of_S {pool : ConstantPool} {D : Dispatcher σ}
    {c1 c2 : List Nat} (h1 : ProgressS pool D c1) (h2 : AlwaysErr pool D c2) :
    AlwaysErr pool D (c1 ++ c2) := by
  intro rest stack s
  rw [List.append_assoc]
  rcases h1 (c2 ++ rest) stack s with ⟨s1, hv⟩ | ⟨⟨msg, s1, he⟩, _⟩
  · rw [hv]
    exact h2 rest stack s1
  · exact ⟨msg, s1, he⟩

theorem alwaysErr_append_right {pool : ConstantPool} {D : Dispatcher σ}
    {c1 c2 : List Nat} (h1 : AlwaysErr pool D c1) :
    AlwaysErr pool D (c1 ++ c2) := by
  intro rest stack s
  rw [List.append_assoc]
  exact h1 (c2 ++ rest) stack s

theorem alwaysErr_of_E_storeFail {pool : ConstantPool} {D : Dispatcher σ}
    {c : List Nat} {idx : Nat} {name : String}
    (h1 : ProgressE pool D c) (hn : pool.getString idx = .ok name)
    (hF : StoreFails D) :
    AlwaysErr pool D (c ++ (Opcode.storeVar.toU8 :: u16Bytes idx)) := by
  intro rest stack s
  rw [List.append_assoc]
  rcases h1 _ stack s with ⟨v, s1, hv⟩ | ⟨⟨msg, s1, he⟩, _⟩
  · rw [hv]
    exact unit_storeVar_fail pool D idx name hn hF rest v stack s1
  · exact ⟨msg, s1, he⟩


/-- Additional list-shaped composition: one pushed value followed by `n`
more. -/
theorem progressN_cons {pool : ConstantPool} {D : Dispatcher σ}
    {n : Nat} {c1 c2 : List Nat} (h1 : ProgressE pool D c1)
    (h2 : ProgressN pool D n c2) : ProgressN pool D (n + 1) (c1 ++ c2) := by
  intro rest stack s
  rw [List.append_assoc]
  rcases h1 (c2 ++ rest) stack s with ⟨v, s1, hv⟩ | ⟨⟨msg, s1, he⟩, hnt⟩
  · rw [hv]
    rcases h2 rest (v :: stack) s1 with ⟨vs, s2, hlen, hw⟩ | ⟨⟨msg, s2, he⟩, hnt⟩
    · refine Or.inl ⟨vs ++ [v], s2, by simp [hlen], ?_⟩
      rw [hw, List.append_assoc]
      rfl
    · exact Or.inr ⟨⟨msg, s2, he⟩, hnt⟩
  · exact Or.inr ⟨⟨msg, s1, he⟩, hnt⟩

/-- Common reasoning for the five literal arms of `compile_expr`. -/
theorem literal_step {st st1 st' : CState} {c : Constant} {v : Value}
    {idx : Nat}
    (haog : Compiler.addOrGetConstant st c = .ok (idx, st1))
    (hst' : st' = Compiler.emitU16 st1 .pushConst idx)
    (hcv : c.asValue = .ok v) (hok : MapOK st) :
    MapOK st' ∧ poolExt st.constantPool st'.constantPool ∧
    ∃ code, st'.bytecode = st.bytecode ++ code ∧
      ∀ (σ : Type) (D : Dispatcher σ) (pool : ConstantPool),
        poolExt st'.constantPool pool → ProgressE pool D code := by
  obtain ⟨hget, hok1, hpe, hbc⟩ := addOrGet_sound haog hok
  subst hst'
  refine ⟨hok1, hpe, Opcode.pushConst.toU8 :: u16Bytes idx, ?_, ?_⟩
  · show st1.bytecode ++ _ = st.bytecode ++ _
    rw [hbc]
  · intro σ D pool hpool
    exact unit_pushConst pool D idx v (getValue_of_get? (hpool _ _ hget) hcv)

/-- Common reasoning for the identifier arm of `compile_expr`. -/
theorem ident_step {st st1 st' : CState} {name : String} {idx : Nat}
    (haog : Compiler.addOrGetConstant st (.identifier name) = .ok (idx, st1))
    (hst' : st' = Compiler.emitU16 st1 .loadVar idx) (hok : MapOK st) :
    MapOK st' ∧ poolExt st.constantPool st'.constantPool ∧
    ∃ code, st'.bytecode = st.bytecode ++ code ∧
      ∀ (σ : Type) (D : Dispatcher σ) (pool : ConstantPool),
        poolExt st'.constantPool pool → ProgressE pool D code := by
  obtain ⟨hget, hok1, hpe, hbc⟩ := addOrGet_sound haog hok
  subst hst'
  refine ⟨hok1, hpe, Opcode.loadVar.toU8 :: u16Bytes idx, ?_, ?_⟩
  · show st1.bytecode ++ _ = st.bytecode ++ _
    rw [hbc]
  · intro σ D pool hpool
    exact unit_loadVar pool D idx name (getString_of_get? (hpool _ _ hget) rfl)

mutual

theorem compileExpr_progress : ∀ (e : AstExpr), ExprClaim e
  | .int value sp => by
    intro st st' h hok
    simp only [Compiler.compileExpr, bind, Outcome.bind, pure] at h
    cases haog : Compiler.addOrGetConstant st (.int value) with
    | err e => simp only [haog] at h; exact Outcome.noConfusion h
    | panic m => simp only [haog] at h; exact Outcome.noConfusion h
    | ok p =>
      obtain ⟨idx, st1⟩ := p
      simp only [haog] at h
      cases h
      exact literal_step haog rfl rfl hok
  | .float value sp => by
    intro st st' h hok
    simp only [Compiler.compileExpr, bind, Outcome.bind, pure] at h
    cases haog : Compiler.addOrGetConstant st (.float value) with
    | err e => simp only [haog] at h; exact Outcome.noConfusion h
    | panic m => simp only [haog] at h; exact Outcome.noConfusion h
    | ok p =>
      obtain ⟨idx, st1⟩ := p
      simp only [haog] at h
      cases h
      exact literal_step haog rfl rfl hok
  | .str value sp => by
    intro st st' h hok
    simp only [Compiler.compileExpr, bind, Outcome.bind, pure] at h
    cases haog : Compiler.addOrGetConstant st (.str value) with
    | err e => simp only [haog] at h; exact Outcome.noConfusion h
    | panic m => simp only [haog] at h; exact Outcome.noConfusion h
    | ok p =>
      obtain ⟨idx, st1⟩ := p
      simp only [haog] at h
      cases h
      exact literal_step haog rfl rfl hok
  | .bool value sp => by
    intro st st' h hok
    simp only [Compiler.compileExpr, bind, Outcome.bind, pure] at h
    cases haog : Compiler.addOrGetConstant st (.bool value) with
    | err e => simp only [haog] at h; exact Outcome.noConfusion h
    | panic m => simp only [haog] at h; exact Outcome.noConfusion h
    | ok p =>
      obtain ⟨idx, st1⟩ := p
      simp only [haog] at h
      cases h
      exact literal_step haog rfl rfl hok
  | .none sp => by
    intro st st' h hok
    simp only [Compiler.compileExpr, bind, Outcome.bind, pure] at h
    cases haog : Compiler.addOrGetConstant st .none with
    | err e => simp only [haog] at h; exact Outcome.noConfusion h
    | panic m => simp only [haog] at h; exact Outcome.noConfusion h
    | ok p =>
      obtain ⟨idx, st1⟩ := p
      simp only [haog] at h
      cases h
      exact literal_step haog rfl rfl hok
  | .ident name sp => by
    intro st st' h hok
    simp only [Compiler.compileExpr, bind, Outcome.bind, pure] at h
    cases haog : Compiler.addOrGetConstant st (.identifier name) with
    | err e => simp only [haog] at h; exact Outcome.noConfusion h
    | panic m => simp only [haog] at h; exact Outcome.noConfusion h
    | ok p =>
      obtain ⟨idx, st1⟩ := p
      simp only [haog] at h
      cases h
      exact ident_step haog rfl hok
  | .requestVar var sp => by
    intro st st' h hok
    simp only [Compiler.compileExpr, bind, Outcome.bind, pure] at h
    cases haog : Compiler.addOrGetConstant st
        (.identifier (if var.isRequest then "request" else "req")) with
    | err e => simp only [haog] at h; exact Outcome.noConfusion h
    | panic m => simp only [haog] at h; exact Outcome.noConfusion h
    | ok p =>
      obtain ⟨varIdx, st1⟩ := p
      simp only [haog] at h
      cases haog2 : Compiler.addOrGetConstant
          (Compiler.emitU16 st1 .loadVar varIdx) (.fieldName var.field) with
      | err e => simp only [haog2] at h; exact Outcome.noConfusion h
      | panic m => simp only [haog2] at h; exact Outcome.noConfusion h
      | ok q =>
        obtain ⟨fieldIdx, st2⟩ := q
        simp only [haog2] at h
        cases h
        obtain ⟨hget1, hok1, hpe1, hbc1⟩ := addOrGet_sound haog hok
        obtain ⟨hget2, hok2, hpe2, hbc2⟩ :=
          addOrGet_sound haog2 (mapOK_emitU16 st1 .loadVar varIdx hok1)
        refine ⟨hok2, poolExt_trans hpe1 hpe2, ?_⟩
        refine ⟨(Opcode.loadVar.toU8 :: u16Bytes varIdx) ++
          (Opcode.getAttr.toU8 :: u16Bytes fieldIdx), ?_, ?_⟩
        · show st2.bytecode ++ _ = st.bytecode ++ _
          rw [hbc2]
          show st1.bytecode ++ _ ++ _ = _
          rw [hbc1, List.append_assoc]
        · intro σ D pool hpool
          refine progressE_seq_pop1 ?_ ?_
          · exact unit_loadVar pool D varIdx _
              (getString_of_get? (hpool _ _ (hpe2 _ _ hget1)) rfl)
          · exact unit_getAttr pool D fieldIdx _
              (getString_of_get? (hpool _ _ hget2) rfl)
  | .binary op left right sp => by
    intro st st' h hok
    simp only [Compiler.compileExpr, bind, Outcome.bind, pure] at h
    cases hL : Compiler.compileExpr st left with
    | err e => simp only [hL] at h; exact Outcome.noConfusion h
    | panic m => simp only [hL] at h; exact Outcome.noConfusion h
    | ok st1 =>
      simp only [hL] at h
      cases hR : Compiler.compileExpr st1 right with
      | err e => simp only [hR] at h; exact Outcome.noConfusion h
      | panic m => simp only [hR] at h; exact Outcome.noConfusion h
      | ok st2 =>
        simp only [hR] at h
        cases h
        obtain ⟨hok1, hpe1, c1, hbc1, hprog1⟩ :=
          compileExpr_progress left st st1 hL hok
        obtain ⟨hok2, hpe2, c2, hbc2, hprog2⟩ :=
          compileExpr_progress right st1 st2 hR hok1
        refine ⟨hok2, poolExt_trans hpe1 hpe2, ?_⟩
        refine ⟨c1 ++ c2 ++ [(match op with
          | .add => Opcode.add
          | .sub => Opcode.sub
          | .mul => Opcode.mul
          | .div => Opcode.div
          | .mod => Opcode.mod
          | .eq => Opcode.eq
          | .notEq => Opcode.ne
          | .lt => Opcode.lt
          | .gt => Opcode.gt
          | .ltEq => Opcode.le
          | .gtEq => Opcode.ge
          | .and => Opcode.and
          | .or => Opcode.or).toU8], ?_, ?_⟩
        · show st2.bytecode ++ _ = st.bytecode ++ _
          rw [hbc2, hbc1]
          simp [List.append_assoc]
        · intro σ D pool hpool
          refine progressE_seq2_pop2
            (hprog1 σ D pool (poolExt_trans hpe2 hpool))
            (hprog2 σ D pool hpool) ?_
          cases op
          · show Pop2Unit pool D [Opcode.add.toU8]
            exact unit_of_binStep pool D _ .add (exec_step_add pool D)
          · show Pop2Unit pool D [Opcode.sub.toU8]
            exact unit_of_binStep pool D _ .sub (exec_step_sub pool D)
          · show Pop2Unit pool D [Opcode.mul.toU8]
            exact unit_of_binStep pool D _ .mul (exec_step_mul pool D)
          · show Pop2Unit pool D [Opcode.div.toU8]
            exact unit_of_binStep pool D _ .div (exec_step_div pool D)
          · show Pop2Unit pool D [Opcode.mod.toU8]
            exact unit_of_binStep pool D _ .mod (exec_step_mod pool D)
          · show Pop2Unit pool D [Opcode.lt.toU8]
            exact unit_of_cmpStep pool D _ .lt (exec_step_lt pool D)
          · show Pop2Unit pool D [Opcode.gt.toU8]
            exact unit_of_cmpStep pool D _ .gt (exec_step_gt pool D)
          · show Pop2Unit pool D [Opcode.le.toU8]
            exact unit_of_cmpStep pool D _ .le (exec_step_le pool D)
          · show Pop2Unit pool D [Opcode.ge.toU8]
            exact unit_of_cmpStep pool D _ .ge (exec_step_ge pool D)
          · show Pop2Unit pool D [Opcode.eq.toU8]
            exact unit_of_cmpStep pool D _ .eq (exec_step_eq pool D)
          · show Pop2Unit pool D [Opcode.ne.toU8]
            exact unit_of_cmpStep pool D _ .ne (exec_step_ne pool D)
          · show Pop2Unit pool D [Opcode.and.toU8]
            exact unit_and pool D
          · show Pop2Unit pool D [Opcode.or.toU8]
            exact unit_or pool D
  | .unary op e sp => by
    intro st st' h hok
    cases op
    simp only [Compiler.compileExpr, bind, Outcome.bind, pure] at h
    cases hE : Compiler.compileExpr st e with
    | err e2 => simp only [hE] at h; exact Outcome.noConfusion h
    | panic m => simp only [hE] at h; exact Outcome.noConfusion h
    | ok st1 =>
      simp only [hE] at h
      cases h
      obtain ⟨hok1, hpe1, c1, hbc1, hprog1⟩ :=
        compileExpr_progress e st st1 hE hok
      refine ⟨hok1, hpe1, c1 ++ [Opcode.not.toU8], ?_, ?_⟩
      · show st1.bytecode ++ _ = st.bytecode ++ _
        rw [hbc1, List.append_assoc]
      · intro σ D pool hpool
        exact progressE_seq_pop1 (hprog1 σ D pool hpool) (unit_not pool D)
  | .fieldAccess object field sp => by
    intro st st' h hok
    simp only [Compiler.compileExpr, bind, Outcome.bind, pure] at h
    cases hO : Compiler.compileExpr st object with
    | err e => simp only [hO] at h; exact Outcome.noConfusion h
    | panic m => simp only [hO] at h; exact Outcome.noConfusion h
    | ok st1 =>
      simp only [hO] at h
      cases haog : Compiler.addOrGetConstant st1 (.fieldName field) with
      | err e => simp only [haog] at h; exact Outcome.noConfusion h
      | panic m => simp only [haog] at h; exact Outcome.noConfusion h
      | ok p =>
        obtain ⟨idx, st2⟩ := p
        simp only [haog] at h
        cases h
        obtain ⟨hok1, hpe1, c1, hbc1, hprog1⟩ :=
          compileExpr_progress object st st1 hO hok
        obtain ⟨hget2, hok2, hpe2, hbc2⟩ := addOrGet_sound haog hok1
        refine ⟨hok2, poolExt_trans hpe1 hpe2,
          c1 ++ (Opcode.getAttr.toU8 :: u16Bytes idx), ?_, ?_⟩
        · show st2.bytecode ++ _ = st.bytecode ++ _
          rw [hbc2, hbc1, List.append_assoc]
        · intro σ D pool hpool
          refine progressE_seq_pop1
            (hprog1 σ D pool (poolExt_trans hpe2 hpool)) ?_
          exact unit_getAttr pool D idx field
            (getString_of_get? (hpool _ _ hget2) rfl)
  | .indexAccess object index sp => by
    intro st st' h hok
    simp only [Compiler.compileExpr, bind, Outcome.bind, pure] at h
    cases hO : Compiler.compileExpr st object with
    | err e => simp only [hO] at h; exact Outcome.noConfusion h
    | panic m => simp only [hO] at h; exact Outcome.noConfusion h
    | ok st1 =>
      simp only [hO] at h
      cases hI : Compiler.compileExpr st1 index with
      | err e => simp only [hI] at h; exact Outcome.noConfusion h
      | panic m => simp only [hI] at h; exact Outcome.noConfusion h
      | ok st2 =>
        simp only [hI] at h
        cases h
        obtain ⟨hok1, hpe1, c1, hbc1, hprog1⟩ :=
          compileExpr_progress object st st1 hO hok
        obtain ⟨hok2, hpe2, c2, hbc2, hprog2⟩ :=
          compileExpr_progress index st1 st2 hI hok1
        refine ⟨hok2, poolExt_trans hpe1 hpe2,
          c1 ++ c2 ++ [Opcode.getItem.toU8], ?_, ?_⟩
        · show st2.bytecode ++ _ = st.bytecode ++ _
          rw [hbc2, hbc1]
          simp [List.append_assoc]
        · intro σ D pool hpool
          exact progressE_seq2_pop2
            (hprog1 σ D pool (poolExt_trans hpe2 hpool))
            (hprog2 σ D pool hpool) (unit_getItem pool D)
  | .call f args sp => by
    intro st st' h hok
    simp only [Compiler.compileExpr, bind, Outcome.bind, pure] at h
    cases hA : Compiler.compileArgs st args with
    | err e => simp only [hA] at h; exact Outcome.noConfusion h
    | panic m => simp only [hA] at h; exact Outcome.noConfusion h
    | ok st1 =>
      simp only [hA] at h
      cases haog : Compiler.addOrGetConstant st1 (.functionName f) with
      | err e => simp only [haog] at h; exact Outcome.noConfusion h
      | panic m => simp only [haog] at h; exact Outcome.noConfusion h
      | ok p =>
        obtain ⟨idx, st2⟩ := p
        simp only [haog] at h
        by_cases hlen : args.length > 255
        · rw [if_pos hlen] at h
          exact Outcome.noConfusion h
        · rw [if_neg hlen] at h
          cases h
          obtain ⟨hok1, hpe1, c1, hbc1, hprog1⟩ :=
            compileArgs_progress args st st1 hA hok
          obtain ⟨hget2, hok2, hpe2, hbc2⟩ := addOrGet_sound haog hok1
          refine ⟨hok2, poolExt_trans hpe1 hpe2,
            c1 ++ (Opcode.callFunc.toU8 :: u16Bytes idx ++ [args.length]),
            ?_, ?_⟩
          · show st2.bytecode ++ _ = st.bytecode ++ _
            rw [hbc2, hbc1, List.append_assoc]
          · intro σ D pool hpool
            exact progressE_of_N_call
              (hprog1 σ D pool (poolExt_trans hpe2 hpool))
              (getString_of_get? (hpool _ _ hget2) rfl)

theorem compileArgs_progress : ∀ (es : List AstExpr), ArgsClaim es
  | [] => by
    intro st st' h hok
    simp only [Compiler.compileArgs] at h
    cases h
    refine ⟨hok, poolExt_refl _, [], by simp, ?_⟩
    intro σ D pool hpool
    exact progressN_nil pool D
  | e :: es => by
    intro st st' h hok
    simp only [Compiler.compileArgs, bind, Outcome.bind] at h
    cases hE : Compiler.compileExpr st e with
    | err e2 => simp only [hE] at h; exact Outcome.noConfusion h
    | panic m => simp only [hE] at h; exact Outcome.noConfusion h
    | ok st1 =>
      simp only [hE] at h
      obtain ⟨hok1, hpe1, c1, hbc1, hprog1⟩ :=
        compileExpr_progress e st st1 hE hok
      obtain ⟨hok2, hpe2, c2, hbc2, hprog2⟩ :=
        compileArgs_progress es st1 st' h hok1
      refine ⟨hok2, poolExt_trans hpe1 hpe2, c1 ++ c2, ?_, ?_⟩
      · rw [hbc2, hbc1, List.append_assoc]
      · intro σ D pool hpool
        exact progressN_cons (hprog1 σ D pool (poolExt_trans hpe2 hpool))
          (hprog2 σ D pool hpool)

end


/-- Soundness of named-argument compilation: each entry pushes its key
string and its value. -/
theorem compileNamedArgs_progress : ∀ (entries : List NamedArg),
    ∀ st st', Compiler.compileNamedArgs st entries = .ok st' → MapOK st →
    MapOK st' ∧ poolExt st.constantPool st'.constantPool ∧
    ∃ code, st'.bytecode = st.bytecode ++ code ∧
      ∀ (σ : Type) (D : Dispatcher σ) (pool : ConstantPool),
        poolExt st'.constantPool pool →
        ProgressN pool D (entries.length * 2) code := by
  intro entries
  induction entries with
  | nil =>
    intro st st' h hok
    simp only [Compiler.compileNamedArgs] at h
    cases h
    refine ⟨hok, poolExt_refl _, [], by simp, ?_⟩
    intro σ D pool hpool
    exact progressN_nil pool D
  | cons a rest ih =>
    intro st st' h hok
    simp only [Compiler.compileNamedArgs, bind, Outcome.bind, pure] at h
    cases haog : Compiler.addOrGetConstant st (.str a.name) with
    | err e => simp only [haog] at h; exact Outcome.noConfusion h
    | panic m => simp only [haog] at h; exact Outcome.noConfusion h
    | ok p =>
      obtain ⟨nameIdx, st1⟩ := p
      simp only [haog] at h
      cases hV : Compiler.compileExpr
          (Compiler.emitU16 st1 .pushConst nameIdx) a.value with
      | err e => simp only [hV] at h; exact Outcome.noConfusion h
      | panic m => simp only [hV] at h; exact Outcome.noConfusion h
      | ok st2 =>
        simp only [hV] at h
        obtain ⟨hget1, hok1, hpe1, hbc1⟩ := addOrGet_sound haog hok
        obtain ⟨hok2, hpe2, c2, hbc2, hprog2⟩ := compileExpr_progress a.value
          (Compiler.emitU16 st1 .pushConst nameIdx) st2 hV
          (mapOK_emitU16 st1 .pushConst nameIdx hok1)
        obtain ⟨hok3, hpe3, c3, hbc3, hprog3⟩ := ih st2 st' h hok2
        refine ⟨hok3, poolExt_trans hpe1 (poolExt_trans hpe2 hpe3),
          (Opcode.pushConst.toU8 :: u16Bytes nameIdx) ++ (c2 ++ c3), ?_, ?_⟩
        · rw [hbc3, hbc2]
          show (Compiler.emitU16 st1 .pushConst nameIdx).bytecode ++ _ ++ _ = _
          rw [(emitU16_fields st1 .pushConst nameIdx).2.2, hbc1]
          simp [List.append_assoc]
        · intro σ D pool hpool
          have h1 : ProgressE pool D (Opcode.pushConst.toU8 :: u16Bytes nameIdx) := by
            refine unit_pushConst pool D nameIdx (.str a.name) ?_
            exact getValue_of_get?
              (hpool _ _ (hpe3 _ _ (hpe2 _ _ hget1))) rfl
          have hrest := progressN_cons (hprog2 σ D pool (poolExt_trans hpe3 hpool))
            (hprog3 σ D pool hpool)
          have := progressN_cons h1 (by
            show ProgressN pool D (rest.length * 2 + 1) (c2 ++ c3)
            have harith : rest.length * 2 + 1 = rest.length * 2 + 1 := rfl
            exact hrest)
          show ProgressN pool D ((rest.length + 1) * 2) _
          have harith : (rest.length + 1) * 2 = rest.length * 2 + 1 + 1 := by omega
          rw [harith]
          exact this

theorem compileStmt_progress : ∀ (stmt : AstStatement), StmtClaim stmt := by
  intro stmt
  cases stmt with
  | assignment var value sp =>
    intro st st' h hok
    simp only [Compiler.compileStmt, bind, Outcome.bind, pure] at h
    cases hV : Compiler.compileExpr st value with
    | err e => simp only [hV] at h; exact Outcome.noConfusion h
    | panic m => simp only [hV] at h; exact Outcome.noConfusion h
    | ok st1 =>
      simp only [hV] at h
      cases haog : Compiler.addOrGetConstant st1
          (.identifier (if var.isRequest then "request." ++ var.field
            else "req." ++ var.field)) with
      | err e => simp only [haog] at h; exact Outcome.noConfusion h
      | panic m => simp only [haog] at h; exact Outcome.noConfusion h
      | ok p =>
        obtain ⟨idx, st2⟩ := p
        simp only [haog] at h
        cases h
        obtain ⟨hok1, hpe1, c1, hbc1, hprog1⟩ :=
          compileExpr_progress value st st1 hV hok
        obtain ⟨hget2, hok2, hpe2, hbc2⟩ := addOrGet_sound haog hok1
        refine ⟨hok2, poolExt_trans hpe1 hpe2,
          c1 ++ (Opcode.storeVar.toU8 :: u16Bytes idx), ?_, ?_⟩
        · show st2.bytecode ++ _ = st.bytecode ++ _
          rw [hbc2, hbc1, List.append_assoc]
        · intro σ D pool hpool
          constructor
          · refine progressS_of_E_drop1
              (hprog1 σ D pool (poolExt_trans hpe2 hpool)) ?_
            exact unit_storeVar pool D idx _
              (getString_of_get? (hpool _ _ hget2) rfl)
          · intro hF _
            refine alwaysErr_of_E_storeFail
              (hprog1 σ D pool (poolExt_trans hpe2 hpool))
              (getString_of_get? (hpool _ _ hget2) rfl) hF
  | capture isSend args sp =>
    intro st st' h hok
    cases args with
    | positional exprs =>
      simp only [Compiler.compileStmt, bind, Outcome.bind, pure] at h
      cases hA : Compiler.compileArgs st exprs with
      | err e => simp only [hA] at h; exact Outcome.noConfusion h
      | panic m => simp only [hA] at h; exact Outcome.noConfusion h
      | ok st1 =>
        simp only [hA] at h
        cases haog : Compiler.addOrGetConstant st1
            (.functionName (if isSend then "send" else "capture")) with
        | err e => simp only [haog] at h; exact Outcome.noConfusion h
        | panic m => simp only [haog] at h; exact Outcome.noConfusion h
        | ok p =>
          obtain ⟨idx, st2⟩ := p
          simp only [haog] at h
          by_cases hlen : exprs.length > 255
          · rw [if_pos hlen] at h
            exact Outcome.noConfusion h
          · rw [if_neg hlen] at h
            cases h
            obtain ⟨hok1, hpe1, c1, hbc1, hprog1⟩ :=
              compileArgs_progress exprs st st1 hA hok
            obtain ⟨hget2, hok2, hpe2, hbc2⟩ := addOrGet_sound haog hok1
            refine ⟨hok2, poolExt_trans hpe1 hpe2,
              (c1 ++ (Opcode.callFunc.toU8 :: u16Bytes idx ++ [exprs.length]))
                ++ [Opcode.pop.toU8], ?_, ?_⟩
            · show (Compiler.emitCall st2 idx exprs.length).bytecode ++ _ =
                st.bytecode ++ _
              show st2.bytecode ++ _ ++ _ = _
              rw [hbc2, hbc1]
              simp [List.append_assoc]
            · intro σ D pool hpool
              refine ⟨?_, ?_⟩
              · refine progressS_of_E_drop1 ?_ (unit_pop pool D)
                refine progressE_of_N_call
                  (hprog1 σ D pool (poolExt_trans hpe2 hpool))
                  (getString_of_get? (hpool _ _ hget2) rfl)
              · intro _ hcontr
                obtain ⟨v, w, x, hcontr⟩ := hcontr
                exact AstStatement.noConfusion hcontr
    | named entries =>
      simp only [Compiler.compileStmt, bind, Outcome.bind, pure] at h
      cases hA : Compiler.compileNamedArgs st entries with
      | err e => simp only [hA] at h; exact Outcome.noConfusion h
      | panic m => simp only [hA] at h; exact Outcome.noConfusion h
      | ok st1 =>
        simp only [hA] at h
        cases haog : Compiler.addOrGetConstant st1
            (.functionName (if isSend then "send" else "capture")) with
        | err e => simp only [haog] at h; exact Outcome.noConfusion h
        | panic m => simp only [haog] at h; exact Outcome.noConfusion h
        | ok p =>
          obtain ⟨idx, st2⟩ := p
          simp only [haog] at h
          by_cases hlen : entries.length * 2 > 255
          · rw [if_pos hlen] at h
            exact Outcome.noConfusion h
          · rw [if_neg hlen] at h
            cases h
            obtain ⟨hok1, hpe1, c1, hbc1, hprog1⟩ :=
              compileNamedArgs_progress entries st st1 hA hok
            obtain ⟨hget2, hok2, hpe2, hbc2⟩ := addOrGet_sound haog hok1
            refine ⟨hok2, poolExt_trans hpe1 hpe2,
              (c1 ++ (Opcode.callFunc.toU8 :: u16Bytes idx ++
                [entries.length * 2])) ++ [Opcode.pop.toU8], ?_, ?_⟩
            · show (Compiler.emitCall st2 idx (entries.length * 2)).bytecode ++ _ =
                st.bytecode ++ _
              show st2.bytecode ++ _ ++ _ = _
              rw [hbc2, hbc1]
              simp [List.append_assoc]
            · intro σ D pool hpool
              refine ⟨?_, ?_⟩
              · refine progressS_of_E_drop1 ?_ (unit_pop pool D)
                refine progressE_of_N_call
                  (hprog1 σ D pool (poolExt_trans hpe2 hpool))
                  (getString_of_get? (hpool _ _ hget2) rfl)
              · intro _ hcontr
                obtain ⟨v, w, x, hcontr⟩ := hcontr
                exact AstStatement.noConfusion hcontr
  | sample spec sp =>
    intro st st' h hok
    simp only [Compiler.compileStmt] at h
    exact Outcome.noConfusion h

/-- Soundness of statement-list compilation. -/
theorem compileStmts_progress : ∀ (stmts : List AstStatement),
    ∀ st st', Compiler.compileStmts st stmts = .ok st' → MapOK st →
    MapOK st' ∧ poolExt st.constantPool st'.constantPool ∧
    ∃ code, st'.bytecode = st.bytecode ++ code ∧
      ∀ (σ : Type) (D : Dispatcher σ) (pool : ConstantPool),
        poolExt st'.constantPool pool →
        ProgressS pool D code ∧
        (StoreFails D →
          (∃ var value sp, AstStatement.assignment var value sp ∈ stmts) →
          AlwaysErr pool D code) := by
  intro stmts
  induction stmts with
  | nil =>
    intro st st' h hok
    simp only [Compiler.compileStmts] at h
    cases h
    refine ⟨hok, poolExt_refl _, [], by simp, ?_⟩
    intro σ D pool hpool
    refine ⟨progressS_nil pool D, ?_⟩
    intro _ hcontr
    obtain ⟨v, w, x, hmem⟩ := hcontr
    cases hmem
  | cons stmt rest ih =>
    intro st st' h hok
    simp only [Compiler.compileStmts, bind, Outcome.bind] at h
    cases hS : Compiler.compileStmt st stmt with
    | err e => simp only [hS] at h; exact Outcome.noConfusion h
    | panic m => simp only [hS] at h; exact Outcome.noConfusion h
    | ok st1 =>
      simp only [hS] at h
      obtain ⟨hok1, hpe1, c1, hbc1, hprog1⟩ :=
        compileStmt_progress stmt st st1 hS hok
      obtain ⟨hok2, hpe2, c2, hbc2, hprog2⟩ := ih st1 st' h hok1
      refine ⟨hok2, poolExt_trans hpe1 hpe2, c1 ++ c2, ?_, ?_⟩
      · rw [hbc2, hbc1, List.append_assoc]
      · intro σ D pool hpool
        obtain ⟨hp1, hf1⟩ := hprog1 σ D pool (poolExt_trans hpe2 hpool)
        obtain ⟨hp2, hf2⟩ := hprog2 σ D pool hpool
        refine ⟨progressS_append hp1 hp2, ?_⟩
        intro hF hmem
        obtain ⟨var, value, sp, hmem⟩ := hmem
        cases hmem with
        | head =>
          exact alwaysErr_append_right (hf1 hF ⟨var, value, sp, rfl⟩)
        | tail _ hmem =>
          exact alwaysErr_of_S hp1 (hf2 hF ⟨var, value, sp, hmem⟩)


/-- Fields of `take_bytecode`. -/
theorem takeBytecode_fields (st : CState) :
    (Compiler.takeBytecode st).1 = st.bytecode ∧
    (Compiler.takeBytecode st).2.constantPool = st.constantPool ∧
    (Compiler.takeBytecode st).2.constantMap = st.constantMap ∧
    (Compiler.takeBytecode st).2.bytecode = [] :=
  ⟨rfl, rfl, rfl, rfl⟩

/-- Soundness of `compile_probe`: starting from an empty buffer the
produced probe's predicate (when present) satisfies expression progress
and its body satisfies statement progress, relative to any extension of
the final pool; a body containing an assignment always errors under a
dispatcher whose stores fail. -/
theorem compileProbe_sound (ast : AstProbe) (st : CState) (idx : Nat)
    (probe : Probe) (st' : CState)
    (h : Compiler.compileProbe st ast idx = .ok (probe, st'))
    (hok : MapOK st) (hbc : st.bytecode = []) :
    MapOK st' ∧ poolExt st.constantPool st'.constantPool ∧
    st'.bytecode = [] ∧
    ∀ (σ : Type) (D : Dispatcher σ) (pool : ConstantPool),
      poolExt st'.constantPool pool →
      (probe.predicate = [] ∨ ProgressE pool D probe.predicate) ∧
      ProgressS pool D probe.body ∧
      (StoreFails D →
        (∃ var value sp, AstStatement.assignment var value sp ∈ ast.body) →
        AlwaysErr pool D probe.body) := by
  simp only [Compiler.compileProbe, Compiler.compileProbeSpec, bind,
    Outcome.bind, pure] at h
  cases hpred : ast.predicate with
  | some pe =>
    simp only [hpred] at h
    cases hE : Compiler.compileExpr st pe with
    | err e => simp only [hE] at h; exact Outcome.noConfusion h
    | panic m => simp only [hE] at h; exact Outcome.noConfusion h
    | ok st1 =>
      simp only [hE] at h
      cases hS : Compiler.compileStmts (Compiler.takeBytecode st1).2 ast.body with
      | err e => simp only [hS] at h; exact Outcome.noConfusion h
      | panic m => simp only [hS] at h; exact Outcome.noConfusion h
      | ok st2 =>
        simp only [hS] at h
        cases h
        obtain ⟨hok1, hpe1, c1, hbc1, hprog1⟩ :=
          compileExpr_progress pe st st1 hE hok
        obtain ⟨hok2, hpe2, c2, hbc2, hprog2⟩ :=
          compileStmts_progress ast.body (Compiler.takeBytecode st1).2 st2 hS hok1
        have hc1 : (Compiler.takeBytecode st1).1 = c1 := by
          show st1.bytecode = c1
          rw [hbc1, hbc]
          rfl
        have hc2 : (Compiler.takeBytecode st2).1 = c2 := by
          show st2.bytecode = c2
          rw [hbc2]
          show (⟨st1.constantPool, [], st1.constantMap⟩ : CState).bytecode ++ c2 = c2
          rfl
        refine ⟨hok2, poolExt_trans hpe1 hpe2, rfl, ?_⟩
        intro σ D pool hpool
        have hpoolmid : poolExt st1.constantPool pool :=
          poolExt_trans hpe2 hpool
        refine ⟨?_, ?_, ?_⟩
        · right
          show ProgressE pool D (Compiler.takeBytecode st1).1
          rw [hc1]
          exact hprog1 σ D pool hpoolmid
        · show ProgressS pool D (Compiler.takeBytecode st2).1
          rw [hc2]
          exact (hprog2 σ D pool hpool).1
        · intro hF hmem
          show AlwaysErr pool D (Compiler.takeBytecode st2).1
          rw [hc2]
          exact (hprog2 σ D pool hpool).2 hF hmem
  | none =>
    simp only [hpred] at h
    cases hS : Compiler.compileStmts st ast.body with
    | err e => simp only [hS] at h; exact Outcome.noConfusion h
    | panic m => simp only [hS] at h; exact Outcome.noConfusion h
    | ok st2 =>
      simp only [hS] at h
      cases h
      obtain ⟨hok2, hpe2, c2, hbc2, hprog2⟩ :=
        compileStmts_progress ast.body st st2 hS hok
      have hc2 : (Compiler.takeBytecode st2).1 = c2 := by
        show st2.bytecode = c2
        rw [hbc2, hbc]
        rfl
      refine ⟨hok2, hpe2, rfl, ?_⟩
      intro σ D pool hpool
      refine ⟨Or.inl rfl, ?_, ?_⟩
      · show ProgressS pool D (Compiler.takeBytecode st2).1
        rw [hc2]
        exact (hprog2 σ D pool hpool).1
      · intro hF hmem
        show AlwaysErr pool D (Compiler.takeBytecode st2).1
        rw [hc2]
        exact (hprog2 σ D pool hpool).2 hF hmem


/-- Soundness of the probe loop of `Compiler::compile`, indexing probes
positionally against the abstract syntax they came from. -/
theorem compileProbes_sound : ∀ (asts : List AstProbe) (st : CState)
    (idx : Nat) (probes : List Probe) (st' : CState),
    Compiler.compileProbes st idx asts = .ok (probes, st') → MapOK st →
    st.bytecode = [] →
    MapOK st' ∧ poolExt st.constantPool st'.constantPool ∧
    st'.bytecode = [] ∧ probes.length = asts.length ∧
    ∀ i probe a, probes.get? i = some probe → asts.get? i = some a →
      ∀ (σ : Type) (D : Dispatcher σ) (pool : ConstantPool),
        poolExt st'.constantPool pool →
        (probe.predicate = [] ∨ ProgressE pool D probe.predicate) ∧
        ProgressS pool D probe.body ∧
        (StoreFails D →
          (∃ var value sp, AstStatement.assignment var value sp ∈ a.body) →
          AlwaysErr pool D probe.body) := by
  intro asts
  induction asts with
  | nil =>
    intro st idx probes st' h hok hbc
    simp only [Compiler.compileProbes] at h
    cases h
    refine ⟨hok, poolExt_refl _, hbc, rfl, ?_⟩
    intro i probe a hp ha
    cases hp
  | cons a0 rest ih =>
    intro st idx probes st' h hok hbc
    simp only [Compiler.compileProbes, bind, Outcome.bind, pure] at h
    cases hP : Compiler.compileProbe st a0 idx with
    | err e => simp only [hP] at h; exact Outcome.noConfusion h
    | panic m => simp only [hP] at h; exact Outcome.noConfusion h
    | ok p =>
      obtain ⟨probe0, st1⟩ := p
      simp only [hP] at h
      cases hR : Compiler.compileProbes st1 (idx + 1) rest with
      | err e => simp only [hR] at h; exact Outcome.noConfusion h
      | panic m => simp only [hR] at h; exact Outcome.noConfusion h
      | ok q =>
        obtain ⟨probes1, st2⟩ := q
        simp only [hR] at h
        cases h
        obtain ⟨hok1, hpe1, hbc1, hhead⟩ := compileProbe_sound a0 st idx
          probe0 st1 hP hok hbc
        obtain ⟨hok2, hpe2, hbc2, hlen2, htail⟩ := ih st1 (idx + 1)
          probes1 _ hR hok1 hbc1
        refine ⟨hok2, poolExt_trans hpe1 hpe2, hbc2, by simp [hlen2], ?_⟩
        intro i probe a hp ha
        cases i with
        | zero =>
          simp only [List.get?] at hp ha
          cases hp
          cases ha
          intro σ D pool hpool
          exact hhead σ D pool (poolExt_trans hpe2 hpool)
        | succ i =>
          simp only [List.get?] at hp ha
          exact htail i probe a hp ha

/-- Soundness of `Compiler::compile` itself, indexing probes
positionally. -/
theorem compile_sound (ast : AstProgram) (P : Program)
    (h : Compiler.compile ast = .ok P) :
    ∀ i probe a, P.probes.get? i = some probe → ast.probes.get? i = some a →
      ∀ (σ : Type) (D : Dispatcher σ),
        (probe.predicate = [] ∨ ProgressE P.constant_pool D probe.predicate) ∧
        ProgressS P.constant_pool D probe.body ∧
        (StoreFails D →
          (∃ var value sp, AstStatement.assignment var value sp ∈ a.body) →
          AlwaysErr P.constant_pool D probe.body) := by
  simp only [Compiler.compile, bind, Outcome.bind, pure] at h
  cases hP : Compiler.compileProbes Compiler.new 0 ast.probes with
  | err e => simp only [hP] at h; exact Outcome.noConfusion h
  | panic m => simp only [hP] at h; exact Outcome.noConfusion h
  | ok p =>
    obtain ⟨probes, st⟩ := p
    simp only [hP] at h
    cases h
    obtain ⟨hok, hpe, hbc, hlen, hall⟩ := compileProbes_sound ast.probes
      Compiler.new 0 probes st hP mapOK_new rfl
    intro i probe a hp ha σ D
    exact hall i probe a hp ha σ D st.constantPool (poolExt_refl _)

theorem exec_nil (pool : ConstantPool) (D : Dispatcher σ)
    (stack : List Value) (s : σ) :
    exec pool D [] stack s = (.ok stack, s) := rfl

/-- Running expression-progress code on an empty stack with a total
dispatcher: exactly one value remains and the executor returns it. -/
theorem progressE_run {pool : ConstantPool} {D : Dispatcher σ}
    {code : List Nat} (h : ProgressE pool D code) (hD : D.Total) (s : σ) :
    ∃ v s', exec pool D code [] s = (.ok [v], s') ∧
      execute pool D code s = (.ok v, s') := by
  have hh := h [] [] s
  rw [List.append_nil] at hh
  rcases hh with ⟨v, s', hv⟩ | ⟨⟨msg, s', he⟩, hnt⟩
  · have hv' : exec pool D code [] s = (.ok [v], s') := by
      rw [hv, exec_nil]
    refine ⟨v, s', hv', ?_⟩
    unfold execute
    rw [hv']
    rfl
  · exact absurd hD hnt

/-- Running statement-progress code on an empty stack with a total
dispatcher: the stack stays empty and the executor returns `None`. -/
theorem progressS_run {pool : ConstantPool} {D : Dispatcher σ}
    {code : List Nat} (h : ProgressS pool D code) (hD : D.Total) (s : σ) :
    ∃ s', exec pool D code [] s = (.ok [], s') ∧
      execute pool D code s = (.ok Value.none, s') := by
  have hh := h [] [] s
  rw [List.append_nil] at hh
  rcases hh with ⟨s', hv⟩ | ⟨⟨msg, s', he⟩, hnt⟩
  · have hv' : exec pool D code [] s = (.ok [], s') := by
      rw [hv, exec_nil]
    refine ⟨s', hv', ?_⟩
    unfold execute
    rw [hv']
    rfl
  · exact absurd hD hnt

/-- Running always-erroring code through the executor. -/
theorem alwaysErr_run {pool : ConstantPool} {D : Dispatcher σ}
    {code : List Nat} (h : AlwaysErr pool D code) (s : σ) :
    ∃ msg s', execute pool D code s = (.error msg, s') := by
  obtain ⟨msg, s', he⟩ := h [] [] s
  rw [List.append_nil] at he
  refine ⟨msg, s', ?_⟩
  unfold execute
  rw [he]


theorem trivialDispatcher_total : trivialDispatcher.Total :=
  ⟨fun s n => ⟨_, rfl⟩, fun s n v => ⟨_, rfl⟩, fun s o n => ⟨_, rfl⟩,
   fun s o n v => ⟨_, rfl⟩, fun s o k => ⟨_, rfl⟩, fun s n args => ⟨_, rfl⟩,
   fun s op l r => ⟨_, rfl⟩, fun s op l r => ⟨_, rfl⟩⟩

/-- C1 counterexample: a compiled probe with no predicate has empty
predicate bytecode, so even under a fully total dispatcher the executor
finishes with ZERO values on the stack and returns `None` — not "exactly
one value on the stack (which the executor returns)". -/
theorem c1_counterexample :
    ∃ P, Compiler.compile c1Ast = .ok P ∧
      trivialDispatcher.Total ∧
      ∀ p ∈ P.probes,
        p.predicate = [] ∧
        exec P.constant_pool trivialDispatcher p.predicate [] () =
          (.ok [], ()) ∧
        execute P.constant_pool trivialDispatcher p.predicate () =
          (.ok Value.none, ()) := by
  refine ⟨⟨1, ⟨[]⟩, [⟨"probe_0", .fn "t" .entry, [], []⟩], f32OneBits⟩,
    by decide, trivialDispatcher_total, ?_⟩
  decide

/-- Probe lists produced by `compile` match the abstract syntax
positionally. -/
theorem compile_probes_length (ast : AstProgram) (P : Program)
    (hc : Compiler.compile ast = .ok P) :
    P.probes.length = ast.probes.length := by
  simp only [Compiler.compile, bind, Outcome.bind, pure] at hc
  cases hP : Compiler.compileProbes Compiler.new 0 ast.probes with
  | err e => simp only [hP] at hc; exact Outcome.noConfusion hc
  | panic m => simp only [hP] at hc; exact Outcome.noConfusion hc
  | ok p =>
    obtain ⟨probes, st⟩ := p
    simp only [hP] at hc
    cases hc
    exact (compileProbes_sound ast.probes Compiler.new 0 probes st hP
      mapOK_new rfl).2.2.2.1

/-- C1 (amended): for every compiled probe and total dispatcher, a
present predicate's bytecode leaves exactly one value on the stack, which
the executor returns; an absent predicate compiles to empty bytecode on
which the executor returns `None` over an empty stack; body bytecode
always leaves zero values and the executor returns `None`. -/
theorem c1_amended (σ : Type) (D : Dispatcher σ) (hD : D.Total)
    (ast : AstProgram) (P : Program) (hc : Compiler.compile ast = .ok P)
    (probe : Probe) (hp : probe ∈ P.probes) (s : σ) :
    ((probe.predicate = [] ∧
      execute P.constant_pool D probe.predicate s = (.ok Value.none, s)) ∨
     (∃ v s', exec P.constant_pool D probe.predicate [] s = (.ok [v], s') ∧
       execute P.constant_pool D probe.predicate s = (.ok v, s'))) ∧
    (∃ s', exec P.constant_pool D probe.body [] s = (.ok [], s') ∧
      execute P.constant_pool D probe.body s = (.ok Value.none, s')) := by
  obtain ⟨i, hi⟩ := List.mem_iff_get?.mp hp
  have hilt : i < P.probes.length := by
    by_contra hge
    rw [List.get?_eq_none.mpr (by omega)] at hi
    cases hi
  have halt : i < ast.probes.length := by
    rw [← compile_probes_length ast P hc]
    exact hilt
  have ha : ast.probes.get? i = some (ast.probes.get ⟨i, halt⟩) :=
    List.get?_eq_get halt
  obtain ⟨hpred, hbodyS, _⟩ :=
    compile_sound ast P hc i probe (ast.probes.get ⟨i, halt⟩) hi ha σ D
  constructor
  · cases hpred with
    | inl hempty =>
      left
      refine ⟨hempty, ?_⟩
      rw [hempty]
      rfl
    | inr hprog =>
      right
      obtain ⟨v, s', h1, h2⟩ := progressE_run hprog hD s
      exact ⟨v, s', h1, h2⟩
  · obtain ⟨s', h1, h2⟩ := progressS_run hbodyS hD s
    exact ⟨s', h1, h2⟩


theorem c1_amended_witness :
    ((Probe.mk "probe_0" (.fn "t" .entry) [1, 0, 0] []).predicate = [] ∧
      execute c1wProgram.constant_pool trivialDispatcher
        (Probe.mk "probe_0" (.fn "t" .entry) [1, 0, 0] []).predicate () =
        (.ok Value.none, ())) ∨
    (∃ v s', exec c1wProgram.constant_pool trivialDispatcher
        (Probe.mk "probe_0" (.fn "t" .entry) [1, 0, 0] []).predicate [] () =
        (.ok [v], s') ∧
      execute c1wProgram.constant_pool trivialDispatcher
        (Probe.mk "probe_0" (.fn "t" .entry) [1, 0, 0] []).predicate () =
        (.ok v, s')) :=
  (c1_amended Unit trivialDispatcher trivialDispatcher_total c1wAst
    c1wProgram (by decide) (Probe.mk "probe_0" (.fn "t" .entry) [1, 0, 0] [])
    (by decide) ()).1


/-- C9: (1) the reference Python dispatcher's `store_variable` returns an
error for every name and value, with the exact message from the source;
(2) hence the modelled dispatcher satisfies `StoreFails`; (3) the
compiler lowers every assignment statement to the value code followed by
`StoreVar` on a constant-pool index holding the dotted identifier
`request.f` / `req.f`; (4) consequently executing the compiled body of
any probe whose source contains an assignment statement under that
dispatcher always terminates in a runtime error. -/
theorem c9 (F : FloatOps) :
    (∀ name value, pythonStoreVariable name value =
      .error s!"Cannot store to variable {name} (use SetAttr for $req.* assignments)") ∧
    StoreFails (captureDispatcher F) ∧
    (∀ st var value sp st', MapOK st →
      Compiler.compileStmt st (.assignment var value sp) = .ok st' →
      ∃ code idx, st'.bytecode =
          st.bytecode ++ code ++ (Opcode.storeVar.toU8 :: u16Bytes idx) ∧
        st'.constantPool.constants.get? idx =
          some (.identifier
            (if var.isRequest then "request." ++ var.field
             else "req." ++ var.field))) ∧
    (∀ ast P, Compiler.compile ast = .ok P →
      ∀ i probe a, P.probes.get? i = some probe →
        ast.probes.get? i = some a →
        (∃ var value sp, AstStatement.assignment var value sp ∈ a.body) →
        ∀ s, ∃ msg s',
          execute P.constant_pool (captureDispatcher F) probe.body s =
            (.error msg, s')) := by
  refine ⟨fun name value => rfl, fun s name v => ⟨_, rfl⟩, ?_, ?_⟩
  · intro st var value sp st' hok h
    simp only [Compiler.compileStmt, bind, Outcome.bind, pure] at h
    cases hV : Compiler.compileExpr st value with
    | err e => simp only [hV] at h; exact Outcome.noConfusion h
    | panic m => simp only [hV] at h; exact Outcome.noConfusion h
    | ok st1 =>
      simp only [hV] at h
      cases haog : Compiler.addOrGetConstant st1
          (.identifier (if var.isRequest then "request." ++ var.field
            else "req." ++ var.field)) with
      | err e => simp only [haog] at h; exact Outcome.noConfusion h
      | panic m => simp only [haog] at h; exact Outcome.noConfusion h
      | ok p =>
        obtain ⟨idx, st2⟩ := p
        simp only [haog] at h
        cases h
        obtain ⟨hok1, _, c1, hbc1, _⟩ :=
          compileExpr_progress value st st1 hV hok
        obtain ⟨hget2, _, _, hbc2⟩ := addOrGet_sound haog hok1
        refine ⟨c1, idx, ?_, hget2⟩
        show st2.bytecode ++ _ = st.bytecode ++ _ ++ _
        rw [hbc2, hbc1, List.append_assoc]
  · intro ast P hc i probe a hP hA hmem s
    have h3 := (compile_sound ast P hc i probe a hP hA _
      (captureDispatcher F)).2.2
    exact alwaysErr_run (h3 (fun s n v => ⟨_, rfl⟩) hmem) s


theorem c9_witness :
    (pythonStoreVariable "req.x" (Value.int 1) =
      .error "Cannot store to variable req.x (use SetAttr for $req.* assignments)") ∧
    (∃ code idx, c9St.bytecode =
        Compiler.new.bytecode ++ code ++
          (Opcode.storeVar.toU8 :: u16Bytes idx) ∧
      c9St.constantPool.constants.get? idx =
        some (.identifier
          (if (RequestVar.mk false "x" span0).isRequest then
            "request." ++ (RequestVar.mk false "x" span0).field
           else "req." ++ (RequestVar.mk false "x" span0).field))) ∧
    (∃ msg s', execute c9Program.constant_pool
        (captureDispatcher floatOps0)
        (Probe.mk "probe_0" (.fn "t" .entry) [] [1, 0, 0, 17, 1, 0]).body
        [] = (.error msg, s')) :=
  ⟨(c9 floatOps0).1 "req.x" (Value.int 1),
   (c9 floatOps0).2.2.1 Compiler.new ⟨false, "x", span0⟩ (.int 1 span0)
     span0 c9St mapOK_new (by decide),
   (c9 floatOps0).2.2.2 c9Ast c9Program (by decide) 0
     (Probe.mk "probe_0" (.fn "t" .entry) [] [1, 0, 0, 17, 1, 0])
     ⟨⟨.fn, ⟨[.ident "t"], span0⟩, .entry, span0⟩, Option.none,
      [c9Stmt], span0⟩ (by decide) rfl
     ⟨⟨false, "x", span0⟩, .int 1 span0, span0, List.Mem.head _⟩ []⟩



/-!  Round-trip lemmas for the modelled wire codec. -/

theorem varint_small (n : Nat) (h : n < 128) : varint n = [n] := by
  unfold varint
  rw [dif_pos h]

theorem varint_ne_nil (n : Nat) : varint n ≠ [] := by
  unfold varint
  split <;> simp

theorem devarint_cons_small (b : Nat) (h : b < 128) (l : List Nat) :
    devarint (b :: l) = some (b, l) := by
  simp [devarint, h]

theorem readN_exact (xs rest : List Nat) :
    readN xs.length (xs ++ rest) = some (xs, rest) := by
  unfold readN
  rw [if_neg (by simp), List.take_left, List.drop_left]

theorem decStrChars_nil : decStrChars [] = some [] := by
  rw [decStrChars]

theorem decStrChars_step (n : Nat) (rest : List Nat) :
    decStrChars (varint n ++ rest) =
      match decStrChars rest with
      | Option.none => Option.none
      | some cs => some (Char.ofNat n :: cs) := by
  obtain ⟨b, l, hv⟩ : ∃ b l, varint n = b :: l := by
    cases h : varint n with
    | nil => exact absurd h (varint_ne_nil n)
    | cons b l => exact ⟨b, l, rfl⟩
  rw [hv, List.cons_append, decStrChars]
  split
  · next h1 =>
    rw [← List.cons_append, ← hv, devarint_varint] at h1
    cases h1
  · next v r h1 =>
    rw [← List.cons_append, ← hv, devarint_varint] at h1
    cases h1
    rfl

theorem decStrChars_strPayload_list : ∀ cs : List Char,
    decStrChars ((cs.map (fun c => varint c.toNat)).flatten) = some cs
  | [] => by
    simp only [List.map_nil, List.flatten_nil]
    exact decStrChars_nil
  | c :: cs => by
    simp only [List.map_cons, List.flatten_cons]
    rw [decStrChars_step, decStrChars_strPayload_list cs, Char.ofNat_toNat]

theorem decStrChars_strPayload (s : String) :
    decStrChars (strPayload s) = some s.data :=
  decStrChars_strPayload_list s.data

theorem string_mk_data (s : String) : String.mk s.data = s := rfl

theorem int64OfBits_intBits64 (i : Int) (h1 : -(2 ^ 63) ≤ i) (h2 : i < 2 ^ 63) :
    int64OfBits (intBits64 i) = i := by
  unfold int64OfBits intBits64
  have hm : i % (2 ^ 64 : Int) = i ∨ i % (2 ^ 64 : Int) = i + 2 ^ 64 := by
    have := Int.emod_nonneg i (show (2 ^ 64 : Int) ≠ 0 by norm_num)
    have := Int.emod_lt_of_pos i (show (0 : Int) < 2 ^ 64 by norm_num)
    omega
  cases hm with
  | inl he =>
    have hnn : (0 : Int) ≤ i := by
      have := Int.emod_nonneg i (show (2 ^ 64 : Int) ≠ 0 by norm_num)
      omega
    rw [he]
    have htn : ((i.toNat : Int)) = i := Int.toNat_of_nonneg hnn
    have hsm : i.toNat % 2 ^ 64 = i.toNat := Nat.mod_eq_of_lt (by omega)
    rw [hsm, if_pos (by omega)]
    exact htn
  | inr he =>
    rw [he]
    have hnn : (0 : Int) ≤ i + 2 ^ 64 := by omega
    have htn : (((i + 2 ^ 64).toNat : Int)) = i + 2 ^ 64 :=
      Int.toNat_of_nonneg hnn
    have hsm : (i + 2 ^ 64).toNat % 2 ^ 64 = (i + 2 ^ 64).toNat :=
      Nat.mod_eq_of_lt (by omega)
    rw [hsm, if_neg (by omega)]
    omega



theorem decFnLoop_nil (acc : PFnProbeSpec) :
    decPFnProbeSpecLoop acc [] = some acc := by
  rw [decPFnProbeSpecLoop]

theorem decFnLoop_step_spec (acc : PFnProbeSpec) (s : String) (rest : List Nat) :
    decPFnProbeSpecLoop acc (lenField 1 (strPayload s) ++ rest) =
      decPFnProbeSpecLoop { acc with function_specifier := s } rest := by
  rw [lenField, tagBytes, varint_small (1 * 8 + 2) (by omega)]
  simp only [List.append_assoc, List.cons_append, List.nil_append]
  rw [decPFnProbeSpecLoop]
  split
  · next h1 => rw [devarint_cons_small _ (by omega)] at h1; cases h1
  · next t r h1 =>
    rw [devarint_cons_small _ (by omega)] at h1
    cases h1
    rw [if_pos (by omega)]
    split
    · next h2 => rw [devarint_varint] at h2; cases h2
    · next len r2 h2 =>
      rw [devarint_varint] at h2
      cases h2
      split
      · next h3 => rw [readN_exact] at h3; cases h3
      · next payload r3 h3 =>
        rw [readN_exact] at h3
        cases h3
        rw [decStrChars_strPayload]

theorem decFnLoop_step_target (acc : PFnProbeSpec) (v : Nat) (hv : v < 2 ^ 32)
    (rest : List Nat) :
    decPFnProbeSpecLoop acc ((tagBytes 2 0 ++ varint v) ++ rest) =
      decPFnProbeSpecLoop { acc with target := v } rest := by
  rw [tagBytes, varint_small (2 * 8 + 0) (by omega)]
  simp only [List.append_assoc, List.cons_append, List.nil_append]
  rw [decPFnProbeSpecLoop]
  split
  · next h1 => rw [devarint_cons_small _ (by omega)] at h1; cases h1
  · next t r h1 =>
    rw [devarint_cons_small _ (by omega)] at h1
    cases h1
    rw [if_neg (by omega), if_pos (by omega)]
    split
    · next h2 => rw [devarint_varint] at h2; cases h2
    · next w r2 h2 =>
      rw [devarint_varint] at h2
      cases h2
      rw [Nat.mod_eq_of_lt hv]

theorem decFnLoop_opt_spec (acc : PFnProbeSpec) (s : String) (rest : List Nat)
    (h : s = "" → acc.function_specifier = "") :
    decPFnProbeSpecLoop acc (strField 1 s ++ rest) =
      decPFnProbeSpecLoop { acc with function_specifier := s } rest := by
  by_cases hs : s = ""
  · rw [strField, if_pos hs, List.nil_append]
    have hacc : { acc with function_specifier := s } = acc := by
      cases acc
      simp_all
    rw [hacc]
  · rw [strField, if_neg hs]
    exact decFnLoop_step_spec acc s rest

theorem decFnLoop_opt_target (acc : PFnProbeSpec) (v : Nat) (hv : v < 2 ^ 32)
    (rest : List Nat) (h : v = 0 → acc.target = 0) :
    decPFnProbeSpecLoop acc (varintField 2 v ++ rest) =
      decPFnProbeSpecLoop { acc with target := v } rest := by
  by_cases h0 : v = 0
  · rw [varintField, if_pos h0, List.nil_append]
    have hacc : { acc with target := v } = acc := by
      cases acc
      simp_all
    rw [hacc]
  · rw [varintField, if_neg h0]
    exact decFnLoop_step_target acc v hv rest

theorem decFn_enc (f : PFnProbeSpec) (h : f.target < 2 ^ 32) :
    decPFnProbeSpecLoop ⟨"", 0⟩ (encPFnProbeSpec f) = some f := by
  obtain ⟨s, t⟩ := f
  have henc : encPFnProbeSpec ⟨s, t⟩ =
      strField 1 s ++ (varintField 2 t ++ []) := by
    rw [List.append_nil]; rfl
  rw [henc, decFnLoop_opt_spec _ _ _ (fun _ => rfl),
    decFnLoop_opt_target _ _ h _ (fun _ => rfl), decFnLoop_nil]



theorem decPSLoop_nil (acc : PProbeSpec) : decPProbeSpecLoop acc [] = some acc := by
  rw [decPProbeSpecLoop]

theorem decPSLoop_step_fn (acc : PProbeSpec) (f : PFnProbeSpec)
    (hf : f.target < 2 ^ 32) (rest : List Nat) :
    decPProbeSpecLoop acc (lenField 1 (encPFnProbeSpec f) ++ rest) =
      decPProbeSpecLoop { acc with spec := some f } rest := by
  rw [lenField, tagBytes, varint_small (1 * 8 + 2) (by omega)]
  simp only [List.append_assoc, List.cons_append, List.nil_append]
  rw [decPProbeSpecLoop]
  split
  · next h1 => rw [devarint_cons_small _ (by omega)] at h1; cases h1
  · next t r h1 =>
    rw [devarint_cons_small _ (by omega)] at h1
    cases h1
    rw [if_pos (by omega)]
    split
    · next h2 => rw [devarint_varint] at h2; cases h2
    · next len r2 h2 =>
      rw [devarint_varint] at h2
      cases h2
      split
      · next h3 => rw [readN_exact] at h3; cases h3
      · next payload r3 h3 =>
        rw [readN_exact] at h3
        cases h3
        rw [decFn_enc f hf]

theorem decPS_enc (ps : PProbeSpec) (h : ∀ f ∈ ps.spec, f.target < 2 ^ 32) :
    decPProbeSpecLoop ⟨Option.none⟩ (encPProbeSpec ps) = some ps := by
  obtain ⟨sp⟩ := ps
  cases sp with
  | none => exact decPSLoop_nil _
  | some f =>
    have henc : encPProbeSpec ⟨some f⟩ =
        lenField 1 (encPFnProbeSpec f) ++ [] := (List.append_nil _).symm
    rw [henc, decPSLoop_step_fn _ f (h f rfl), decPSLoop_nil]

theorem decConstLoop_nil (acc : PConstant) :
    decPConstantLoop acc [] = some acc := by
  rw [decPConstantLoop]

theorem decConstLoop_step_int (acc : PConstant) (i : Int)
    (h1 : -(2 ^ 63) ≤ i) (h2 : i < 2 ^ 63) (rest : List Nat) :
    decPConstantLoop acc (varintFieldAlways 1 (intBits64 i) ++ rest) =
      decPConstantLoop { acc with value := some (.intValue i) } rest := by
  rw [varintFieldAlways, tagBytes, varint_small (1 * 8 + 0) (by omega)]
  simp only [List.append_assoc, List.cons_append, List.nil_append]
  rw [decPConstantLoop]
  split
  · next hd => rw [devarint_cons_small _ (by omega)] at hd; cases hd
  · next t r hd =>
    rw [devarint_cons_small _ (by omega)] at hd
    cases hd
    rw [if_pos (by omega)]
    split
    · next hv => rw [devarint_varint] at hv; cases hv
    · next w r2 hv =>
      rw [devarint_varint] at hv
      cases hv
      rw [int64OfBits_intBits64 i h1 h2]

theorem decConstLoop_step_float (acc : PConstant) (b : Nat)
    (hb : b < 2 ^ 64) (rest : List Nat) :
    decPConstantLoop acc (fixed64Field 2 b ++ rest) =
      decPConstantLoop { acc with value := some (.floatValue b) } rest := by
  have hr : readN 8 (natToLE 8 b ++ rest) = some (natToLE 8 b, rest) := by
    nth_rewrite 1 [← natToLE_length 8 b]
    exact readN_exact _ _
  rw [fixed64Field, tagBytes, varint_small (2 * 8 + 1) (by omega)]
  simp only [List.append_assoc, List.cons_append, List.nil_append]
  rw [decPConstantLoop]
  split
  · next hd => rw [devarint_cons_small _ (by omega)] at hd; cases hd
  · next t r hd =>
    rw [devarint_cons_small _ (by omega)] at hd
    cases hd
    rw [if_neg (by omega), if_pos (by omega)]
    split
    · next hv => rw [hr] at hv; cases hv
    · next payload r2 hv =>
      rw [hr] at hv
      cases hv
      rw [leToNat_natToLE 8 b (by norm_num at hb ⊢; omega)]

theorem decConstLoop_step_boolv (acc : PConstant) (v : Nat) (hv128 : v < 128)
    (rest : List Nat) :
    decPConstantLoop acc (varintFieldAlways 4 v ++ rest) =
      decPConstantLoop
        { acc with value := some (.boolValue (decide (v ≠ 0))) } rest := by
  rw [varintFieldAlways, tagBytes, varint_small (4 * 8 + 0) (by omega),
    varint_small v hv128]
  simp only [List.append_assoc, List.cons_append, List.nil_append]
  rw [decPConstantLoop]
  split
  · next hd => rw [devarint_cons_small _ (by omega)] at hd; cases hd
  · next t r hd =>
    rw [devarint_cons_small _ (by omega)] at hd
    cases hd
    rw [if_neg (by omega), if_neg (by omega), if_pos (by omega)]
    split
    · next hv => rw [devarint_cons_small _ hv128] at hv; cases hv
    · next w r2 hv =>
      rw [devarint_cons_small _ hv128] at hv
      cases hv
      rfl

theorem decConstLoop_step_bool (acc : PConstant) (b : Bool) (rest : List Nat) :
    decPConstantLoop acc
        (varintFieldAlways 4 (if b then 1 else 0) ++ rest) =
      decPConstantLoop { acc with value := some (.boolValue b) } rest := by
  cases b
  · have h := decConstLoop_step_boolv acc 0 (by omega) rest
    simpa using h
  · have h := decConstLoop_step_boolv acc 1 (by omega) rest
    simpa using h

theorem decConstLoop_step_str (acc : PConstant) (s : String) (rest : List Nat) :
    decPConstantLoop acc (lenField 3 (strPayload s) ++ rest) =
      decPConstantLoop { acc with value := some (.stringValue s) } rest := by
  rw [lenField, tagBytes, varint_small (3 * 8 + 2) (by omega)]
  simp only [List.append_assoc, List.cons_append, List.nil_append]
  rw [decPConstantLoop]
  split
  · next hd => rw [devarint_cons_small _ (by omega)] at hd; cases hd
  · next t r hd =>
    rw [devarint_cons_small _ (by omega)] at hd
    cases hd
    rw [if_neg (by omega), if_neg (by omega), if_neg (by omega),
      if_pos (by omega)]
    split
    · next hv => rw [devarint_varint] at hv; cases hv
    · next len r2 hv =>
      rw [devarint_varint] at hv
      cases hv
      split
      · next h3 => rw [readN_exact] at h3; cases h3
      · next payload r3 h3 =>
        rw [readN_exact] at h3
        cases h3
        rw [if_neg (by omega), decStrChars_strPayload]
        norm_num

theorem decConstLoop_step_none (acc : PConstant) (rest : List Nat) :
    decPConstantLoop acc (lenField 5 [] ++ rest) =
      decPConstantLoop { acc with value := some .noneValue } rest := by
  rw [lenField, tagBytes, varint_small (5 * 8 + 2) (by omega)]
  simp only [List.append_assoc, List.cons_append, List.nil_append,
    List.length_nil]
  rw [decPConstantLoop]
  split
  · next hd => rw [devarint_cons_small _ (by omega)] at hd; cases hd
  · next t r hd =>
    rw [devarint_cons_small _ (by omega)] at hd
    cases hd
    rw [if_neg (by omega), if_neg (by omega), if_neg (by omega),
      if_pos (by omega)]
    split
    · next hv =>
      rw [varint_small 0 (by omega)] at hv
      simp only [List.cons_append, List.nil_append] at hv
      rw [devarint_cons_small _ (by omega)] at hv
      cases hv
    · next len r2 hv =>
      rw [varint_small 0 (by omega)] at hv
      simp only [List.cons_append, List.nil_append] at hv
      rw [devarint_cons_small _ (by omega)] at hv
      cases hv
      split
      · next h3 => rw [show readN 0 rest = some ([], rest) from readN_exact [] rest] at h3; cases h3
      · next payload r3 h3 =>
        rw [show readN 0 rest = some ([], rest) from readN_exact [] rest] at h3
        cases h3
        rw [if_pos (by omega)]

theorem decConstLoop_step_ident (acc : PConstant) (s : String) (rest : List Nat) :
    decPConstantLoop acc (lenField 6 (strPayload s) ++ rest) =
      decPConstantLoop { acc with value := some (.identifier s) } rest := by
  rw [lenField, tagBytes, varint_small (6 * 8 + 2) (by omega)]
  simp only [List.append_assoc, List.cons_append, List.nil_append]
  rw [decPConstantLoop]
  split
  · next hd => rw [devarint_cons_small _ (by omega)] at hd; cases hd
  · next t r hd =>
    rw [devarint_cons_small _ (by omega)] at hd
    cases hd
    rw [if_neg (by omega), if_neg (by omega), if_neg (by omega),
      if_pos (by omega)]
    split
    · next hv => rw [devarint_varint] at hv; cases hv
    · next len r2 hv =>
      rw [devarint_varint] at hv
      cases hv
      split
      · next h3 => rw [readN_exact] at h3; cases h3
      · next payload r3 h3 =>
        rw [readN_exact] at h3
        cases h3
        rw [if_neg (by omega), decStrChars_strPayload]
        norm_num

theorem decConstLoop_step_field (acc : PConstant) (s : String) (rest : List Nat) :
    decPConstantLoop acc (lenField 7 (strPayload s) ++ rest) =
      decPConstantLoop { acc with value := some (.fieldName s) } rest := by
  rw [lenField, tagBytes, varint_small (7 * 8 + 2) (by omega)]
  simp only [List.append_assoc, List.cons_append, List.nil_append]
  rw [decPConstantLoop]
  split
  · next hd => rw [devarint_cons_small _ (by omega)] at hd; cases hd
  · next t r hd =>
    rw [devarint_cons_small _ (by omega)] at hd
    cases hd
    rw [if_neg (by omega), if_neg (by omega), if_neg (by omega),
      if_pos (by omega)]
    split
    · next hv => rw [devarint_varint] at hv; cases hv
    · next len r2 hv =>
      rw [devarint_varint] at hv
      cases hv
      split
      · next h3 => rw [readN_exact] at h3; cases h3
      · next payload r3 h3 =>
        rw [readN_exact] at h3
        cases h3
        rw [if_neg (by omega), decStrChars_strPayload]
        norm_num

theorem decConstLoop_step_func (acc : PConstant) (s : String) (rest : List Nat) :
    decPConstantLoop acc (lenField 8 (strPayload s) ++ rest) =
      decPConstantLoop { acc with value := some (.functionName s) } rest := by
  rw [lenField, tagBytes, varint_small (8 * 8 + 2) (by omega)]
  simp only [List.append_assoc, List.cons_append, List.nil_append]
  rw [decPConstantLoop]
  split
  · next hd => rw [devarint_cons_small _ (by omega)] at hd; cases hd
  · next t r hd =>
    rw [devarint_cons_small _ (by omega)] at hd
    cases hd
    rw [if_neg (by omega), if_neg (by omega), if_neg (by omega),
      if_pos (by omega)]
    split
    · next hv => rw [devarint_varint] at hv; cases hv
    · next len r2 hv =>
      rw [devarint_varint] at hv
      cases hv
      split
      · next h3 => rw [readN_exact] at h3; cases h3
      · next payload r3 h3 =>
        rw [readN_exact] at h3
        cases h3
        rw [if_neg (by omega), decStrChars_strPayload]
        norm_num

theorem decConst_enc (c : PConstant) (h : PConstantWF c) :
    decPConstantLoop ⟨Option.none⟩ (encPConstant c) = some c := by
  obtain ⟨v⟩ := c
  cases v with
  | none => exact decConstLoop_nil _
  | some pv =>
    cases pv with
    | intValue i =>
      have henc : encPConstant ⟨some (.intValue i)⟩ =
          varintFieldAlways 1 (intBits64 i) ++ [] := (List.append_nil _).symm
      rw [henc, decConstLoop_step_int _ i h.1 h.2, decConstLoop_nil]
    | floatValue b =>
      have henc : encPConstant ⟨some (.floatValue b)⟩ =
          fixed64Field 2 b ++ [] := (List.append_nil _).symm
      rw [henc, decConstLoop_step_float _ b h, decConstLoop_nil]
    | stringValue s =>
      have henc : encPConstant ⟨some (.stringValue s)⟩ =
          lenField 3 (strPayload s) ++ [] := (List.append_nil _).symm
      rw [henc, decConstLoop_step_str, decConstLoop_nil]
    | boolValue b =>
      have henc : encPConstant ⟨some (.boolValue b)⟩ =
          varintFieldAlways 4 (if b then 1 else 0) ++ [] :=
        (List.append_nil _).symm
      rw [henc, decConstLoop_step_bool, decConstLoop_nil]
    | noneValue =>
      have henc : encPConstant ⟨some .noneValue⟩ =
          lenField 5 [] ++ [] := (List.append_nil _).symm
      rw [henc, decConstLoop_step_none, decConstLoop_nil]
    | identifier s =>
      have henc : encPConstant ⟨some (.identifier s)⟩ =
          lenField 6 (strPayload s) ++ [] := (List.append_nil _).symm
      rw [henc, decConstLoop_step_ident, decConstLoop_nil]
    | fieldName s =>
      have henc : encPConstant ⟨some (.fieldName s)⟩ =
          lenField 7 (strPayload s) ++ [] := (List.append_nil _).symm
      rw [henc, decConstLoop_step_field, decConstLoop_nil]
    | functionName s =>
      have henc : encPConstant ⟨some (.functionName s)⟩ =
          lenField 8 (strPayload s) ++ [] := (List.append_nil _).symm
      rw [henc, decConstLoop_step_func, decConstLoop_nil]



theorem decPoolLoop_nil (acc : PConstantPool) :
    decPConstantPoolLoop acc [] = some acc := by
  rw [decPConstantPoolLoop]

theorem decPoolLoop_step (acc : PConstantPool) (c : PConstant)
    (hc : PConstantWF c) (rest : List Nat) :
    decPConstantPoolLoop acc (lenField 1 (encPConstant c) ++ rest) =
      decPConstantPoolLoop { acc with constants := acc.constants ++ [c] }
        rest := by
  rw [lenField, tagBytes, varint_small (1 * 8 + 2) (by omega)]
  simp only [List.append_assoc, List.cons_append, List.nil_append]
  rw [decPConstantPoolLoop]
  split
  · next h1 => rw [devarint_cons_small _ (by omega)] at h1; cases h1
  · next t r h1 =>
    rw [devarint_cons_small _ (by omega)] at h1
    cases h1
    rw [if_pos (by omega)]
    split
    · next h2 => rw [devarint_varint] at h2; cases h2
    · next len r2 h2 =>
      rw [devarint_varint] at h2
      cases h2
      split
      · next h3 => rw [readN_exact] at h3; cases h3
      · next payload r3 h3 =>
        rw [readN_exact] at h3
        cases h3
        rw [decConst_enc c hc]

theorem decPoolLoop_enc_list : ∀ (cs : List PConstant) (acc : PConstantPool),
    (∀ c ∈ cs, PConstantWF c) →
    decPConstantPoolLoop acc
        ((cs.map (fun c => lenField 1 (encPConstant c))).flatten) =
      some ⟨acc.constants ++ cs⟩
  | [], acc, _ => by
    simp only [List.map_nil, List.flatten_nil]
    rw [decPoolLoop_nil, List.append_nil]
  | c :: cs, acc, h => by
    simp only [List.map_cons, List.flatten_cons]
    rw [decPoolLoop_step acc c (h c (List.mem_cons_self c cs)),
      decPoolLoop_enc_list cs _ (fun x hx => h x (List.mem_cons_of_mem c hx))]
    simp

theorem decProbeLoop_nil (acc : PProbe) : decPProbeLoop acc [] = some acc := by
  rw [decPProbeLoop]

theorem decProbeLoop_step_id (acc : PProbe) (s : String) (rest : List Nat) :
    decPProbeLoop acc (lenField 1 (strPayload s) ++ rest) =
      decPProbeLoop { acc with id := s } rest := by
  rw [lenField, tagBytes, varint_small (1 * 8 + 2) (by omega)]
  simp only [List.append_assoc, List.cons_append, List.nil_append]
  rw [decPProbeLoop]
  split
  · next h1 => rw [devarint_cons_small _ (by omega)] at h1; cases h1
  · next t r h1 =>
    rw [devarint_cons_small _ (by omega)] at h1
    cases h1
    rw [if_pos (by omega)]
    split
    · next h2 => rw [devarint_varint] at h2; cases h2
    · next len r2 h2 =>
      rw [devarint_varint] at h2
      cases h2
      split
      · next h3 => rw [readN_exact] at h3; cases h3
      · next payload r3 h3 =>
        rw [readN_exact] at h3
        cases h3
        rw [if_pos (by omega), decStrChars_strPayload]

theorem decProbeLoop_step_spec (acc : PProbe) (ps : PProbeSpec)
    (hf : ∀ f ∈ ps.spec, f.target < 2 ^ 32) (rest : List Nat) :
    decPProbeLoop acc (lenField 2 (encPProbeSpec ps) ++ rest) =
      decPProbeLoop { acc with spec := some ps } rest := by
  rw [lenField, tagBytes, varint_small (2 * 8 + 2) (by omega)]
  simp only [List.append_assoc, List.cons_append, List.nil_append]
  rw [decPProbeLoop]
  split
  · next h1 => rw [devarint_cons_small _ (by omega)] at h1; cases h1
  · next t r h1 =>
    rw [devarint_cons_small _ (by omega)] at h1
    cases h1
    rw [if_pos (by omega)]
    split
    · next h2 => rw [devarint_varint] at h2; cases h2
    · next len r2 h2 =>
      rw [devarint_varint] at h2
      cases h2
      split
      · next h3 => rw [readN_exact] at h3; cases h3
      · next payload r3 h3 =>
        rw [readN_exact] at h3
        cases h3
        rw [if_neg (by omega), if_pos (by omega), decPS_enc ps hf]

theorem decProbeLoop_step_pred (acc : PProbe) (bs : List Nat)
    (rest : List Nat) :
    decPProbeLoop acc (lenField 3 bs ++ rest) =
      decPProbeLoop { acc with predicate := bs } rest := by
  rw [lenField, tagBytes, varint_small (3 * 8 + 2) (by omega)]
  simp only [List.append_assoc, List.cons_append, List.nil_append]
  rw [decPProbeLoop]
  split
  · next h1 => rw [devarint_cons_small _ (by omega)] at h1; cases h1
  · next t r h1 =>
    rw [devarint_cons_small _ (by omega)] at h1
    cases h1
    rw [if_pos (by omega)]
    split
    · next h2 => rw [devarint_varint] at h2; cases h2
    · next len r2 h2 =>
      rw [devarint_varint] at h2
      cases h2
      split
      · next h3 => rw [readN_exact] at h3; cases h3
      · next payload r3 h3 =>
        rw [readN_exact] at h3
        cases h3
        rw [if_neg (by omega), if_neg (by omega), if_pos (by omega)]

theorem decProbeLoop_step_body (acc : PProbe) (bs : List Nat)
    (rest : List Nat) :
    decPProbeLoop acc (lenField 4 bs ++ rest) =
      decPProbeLoop { acc with body := bs } rest := by
  rw [lenField, tagBytes, varint_small (4 * 8 + 2) (by omega)]
  simp only [List.append_assoc, List.cons_append, List.nil_append]
  rw [decPProbeLoop]
  split
  · next h1 => rw [devarint_cons_small _ (by omega)] at h1; cases h1
  · next t r h1 =>
    rw [devarint_cons_small _ (by omega)] at h1
    cases h1
    rw [if_pos (by omega)]
    split
    · next h2 => rw [devarint_varint] at h2; cases h2
    · next len r2 h2 =>
      rw [devarint_varint] at h2
      cases h2
      split
      · next h3 => rw [readN_exact] at h3; cases h3
      · next payload r3 h3 =>
        rw [readN_exact] at h3
        cases h3
        rw [if_neg (by omega), if_neg (by omega), if_neg (by omega)]

theorem decProbeLoop_opt_id (acc : PProbe) (s : String) (rest : List Nat)
    (h : s = "" → acc.id = "") :
    decPProbeLoop acc (strField 1 s ++ rest) =
      decPProbeLoop { acc with id := s } rest := by
  by_cases hs : s = ""
  · rw [strField, if_pos hs, List.nil_append]
    have hacc : { acc with id := s } = acc := by
      cases acc
      simp_all
    rw [hacc]
  · rw [strField, if_neg hs]
    exact decProbeLoop_step_id acc s rest

theorem decProbeLoop_opt_pred (acc : PProbe) (bs : List Nat)
    (rest : List Nat) (h : bs = [] → acc.predicate = []) :
    decPProbeLoop acc (bytesField 3 bs ++ rest) =
      decPProbeLoop { acc with predicate := bs } rest := by
  by_cases hb : bs = []
  · rw [bytesField, if_pos hb, List.nil_append]
    have hacc : { acc with predicate := bs } = acc := by
      cases acc
      simp_all
    rw [hacc]
  · rw [bytesField, if_neg hb]
    exact decProbeLoop_step_pred acc bs rest

theorem decProbeLoop_opt_body (acc : PProbe) (bs : List Nat)
    (rest : List Nat) (h : bs = [] → acc.body = []) :
    decPProbeLoop acc (bytesField 4 bs ++ rest) =
      decPProbeLoop { acc with body := bs } rest := by
  by_cases hb : bs = []
  · rw [bytesField, if_pos hb, List.nil_append]
    have hacc : { acc with body := bs } = acc := by
      cases acc
      simp_all
    rw [hacc]
  · rw [bytesField, if_neg hb]
    exact decProbeLoop_step_body acc bs rest

theorem decProbe_enc (pr : PProbe) (h : PProbeWF pr) :
    decPProbeLoop ⟨"", Option.none, [], []⟩ (encPProbe pr) = some pr := by
  obtain ⟨id, spec, pred, body⟩ := pr
  cases spec with
  | none =>
    have henc : encPProbe ⟨id, Option.none, pred, body⟩ =
        strField 1 id ++ (bytesField 3 pred ++ (bytesField 4 body ++ [])) := by
      show (strField 1 id ++ [] ++ bytesField 3 pred ++ bytesField 4 body) = _
      simp
    rw [henc, decProbeLoop_opt_id _ _ _ (fun _ => rfl),
      decProbeLoop_opt_pred _ _ _ (fun _ => rfl),
      decProbeLoop_opt_body _ _ _ (fun _ => rfl), decProbeLoop_nil]
  | some ps =>
    obtain ⟨sp⟩ := ps
    have henc : encPProbe ⟨id, some ⟨sp⟩, pred, body⟩ =
        strField 1 id ++ (lenField 2 (encPProbeSpec ⟨sp⟩) ++
          (bytesField 3 pred ++ (bytesField 4 body ++ []))) := by
      show (strField 1 id ++ lenField 2 (encPProbeSpec ⟨sp⟩) ++
        bytesField 3 pred ++ bytesField 4 body) = _
      simp
    have hf : ∀ f ∈ (PProbeSpec.mk sp).spec, f.target < 2 ^ 32 := by
      intro f hfmem
      cases sp with
      | none => cases hfmem
      | some g =>
        rw [Option.mem_def] at hfmem
        injection hfmem with hgf
        subst hgf
        exact h
    rw [henc, decProbeLoop_opt_id _ _ _ (fun _ => rfl),
      decProbeLoop_step_spec _ ⟨sp⟩ hf,
      decProbeLoop_opt_pred _ _ _ (fun _ => rfl),
      decProbeLoop_opt_body _ _ _ (fun _ => rfl), decProbeLoop_nil]



theorem decProgLoop_nil (acc : PProgram) :
    decPProgramLoop acc [] = some acc := by
  rw [decPProgramLoop]

theorem decProgLoop_step_version (acc : PProgram) (v : Nat)
    (hv : v < 2 ^ 32) (rest : List Nat) :
    decPProgramLoop acc ((tagBytes 1 0 ++ varint v) ++ rest) =
      decPProgramLoop { acc with version := v } rest := by
  rw [tagBytes, varint_small (1 * 8 + 0) (by omega)]
  simp only [List.append_assoc, List.cons_append, List.nil_append]
  rw [decPProgramLoop]
  split
  · next h1 => rw [devarint_cons_small _ (by omega)] at h1; cases h1
  · next t r h1 =>
    rw [devarint_cons_small _ (by omega)] at h1
    cases h1
    rw [if_pos (by omega)]
    split
    · next h2 => rw [devarint_varint] at h2; cases h2
    · next w r2 h2 =>
      rw [devarint_varint] at h2
      cases h2
      rw [Nat.mod_eq_of_lt hv]

theorem decProgLoop_opt_version (acc : PProgram) (v : Nat)
    (hv : v < 2 ^ 32) (rest : List Nat) (h : v = 0 → acc.version = 0) :
    decPProgramLoop acc (varintField 1 v ++ rest) =
      decPProgramLoop { acc with version := v } rest := by
  by_cases h0 : v = 0
  · rw [varintField, if_pos h0, List.nil_append]
    have hacc : { acc with version := v } = acc := by
      cases acc
      simp_all
    rw [hacc]
  · rw [varintField, if_neg h0]
    exact decProgLoop_step_version acc v hv rest

theorem decProgLoop_step_pool (acc : PProgram) (p : PConstantPool)
    (hcs : ∀ c ∈ p.constants, PConstantWF c) (rest : List Nat) :
    decPProgramLoop acc (lenField 2 (encPConstantPool p) ++ rest) =
      decPProgramLoop { acc with constant_pool := some p } rest := by
  have hpool : decPConstantPoolLoop ⟨[]⟩ (encPConstantPool p) = some p :=
    decPoolLoop_enc_list p.constants ⟨[]⟩ hcs
  rw [lenField, tagBytes, varint_small (2 * 8 + 2) (by omega)]
  simp only [List.append_assoc, List.cons_append, List.nil_append]
  rw [decPProgramLoop]
  split
  · next h1 => rw [devarint_cons_small _ (by omega)] at h1; cases h1
  · next t r h1 =>
    rw [devarint_cons_small _ (by omega)] at h1
    cases h1
    rw [if_neg (by omega), if_pos (by omega)]
    split
    · next h2 => rw [devarint_varint] at h2; cases h2
    · next len r2 h2 =>
      rw [devarint_varint] at h2
      cases h2
      split
      · next h3 => rw [readN_exact] at h3; cases h3
      · next payload r3 h3 =>
        rw [readN_exact] at h3
        cases h3
        rw [hpool]

theorem decProgLoop_step_probe (acc : PProgram) (pr : PProbe)
    (hpr : PProbeWF pr) (rest : List Nat) :
    decPProgramLoop acc (lenField 3 (encPProbe pr) ++ rest) =
      decPProgramLoop { acc with probes := acc.probes ++ [pr] } rest := by
  rw [lenField, tagBytes, varint_small (3 * 8 + 2) (by omega)]
  simp only [List.append_assoc, List.cons_append, List.nil_append]
  rw [decPProgramLoop]
  split
  · next h1 => rw [devarint_cons_small _ (by omega)] at h1; cases h1
  · next t r h1 =>
    rw [devarint_cons_small _ (by omega)] at h1
    cases h1
    rw [if_neg (by omega), if_neg (by omega), if_pos (by omega)]
    split
    · next h2 => rw [devarint_varint] at h2; cases h2
    · next len r2 h2 =>
      rw [devarint_varint] at h2
      cases h2
      split
      · next h3 => rw [readN_exact] at h3; cases h3
      · next payload r3 h3 =>
        rw [readN_exact] at h3
        cases h3
        rw [decProbe_enc pr hpr]

theorem decProgLoop_probes : ∀ (prs : List PProbe) (acc : PProgram)
    (rest : List Nat), (∀ pr ∈ prs, PProbeWF pr) →
    decPProgramLoop acc
        ((prs.map (fun pr => lenField 3 (encPProbe pr))).flatten ++ rest) =
      decPProgramLoop { acc with probes := acc.probes ++ prs } rest
  | [], acc, rest, _ => by
    simp only [List.map_nil, List.flatten_nil, List.nil_append]
    have hacc : { acc with probes := acc.probes ++ [] } = acc := by
      cases acc
      simp
    rw [hacc]
  | pr :: prs, acc, rest, h => by
    simp only [List.map_cons, List.flatten_cons, List.append_assoc]
    rw [decProgLoop_step_probe acc pr (h pr (List.mem_cons_self pr prs)),
      decProgLoop_probes prs _ rest
        (fun x hx => h x (List.mem_cons_of_mem pr hx))]
    have hl : acc.probes ++ [pr] ++ prs = acc.probes ++ pr :: prs := by simp
    rw [hl]

theorem decProgLoop_step_sampling (acc : PProgram) (bits : Nat)
    (hb : bits < 2 ^ 32) (rest : List Nat)
    (hz : ¬ f32IsZero bits = true) :
    decPProgramLoop acc (f32Field 4 bits ++ rest) =
      decPProgramLoop { acc with sampling := bits } rest := by
  have hr : readN 4 (natToLE 4 bits ++ rest) = some (natToLE 4 bits, rest) := by
    nth_rewrite 1 [← natToLE_length 4 bits]
    exact readN_exact _ _
  rw [f32Field, if_neg hz, tagBytes, varint_small (4 * 8 + 5) (by omega)]
  simp only [List.append_assoc, List.cons_append, List.nil_append]
  rw [decPProgramLoop]
  split
  · next h1 => rw [devarint_cons_small _ (by omega)] at h1; cases h1
  · next t r h1 =>
    rw [devarint_cons_small _ (by omega)] at h1
    cases h1
    rw [if_neg (by omega), if_neg (by omega), if_neg (by omega),
      if_pos (by omega)]
    split
    · next h2 => rw [hr] at h2; cases h2
    · next payload r2 h2 =>
      rw [hr] at h2
      cases h2
      rw [leToNat_natToLE 4 bits (by norm_num at hb ⊢; omega)]

theorem decProgLoop_opt_sampling (acc : PProgram) (bits : Nat)
    (hb : bits < 2 ^ 32) (rest : List Nat)
    (h : f32IsZero bits = true → bits = 0 ∧ acc.sampling = 0) :
    decPProgramLoop acc (f32Field 4 bits ++ rest) =
      decPProgramLoop { acc with sampling := bits } rest := by
  by_cases h0 : f32IsZero bits = true
  · rw [f32Field, if_pos h0, List.nil_append]
    have hacc : { acc with sampling := bits } = acc := by
      cases acc
      have h1 := (h h0).1
      have h2 := (h h0).2
      simp_all
    rw [hacc]
  · exact decProgLoop_step_sampling acc bits hb rest h0

theorem decProg_enc (p : PProgram)
    (hv : p.version < 2 ^ 32) (hs : p.sampling < 2 ^ 32)
    (hsz : f32IsZero p.sampling = true → p.sampling = 0)
    (hc : ∀ pool ∈ p.constant_pool, ∀ c ∈ pool.constants, PConstantWF c)
    (hp : ∀ pr ∈ p.probes, PProbeWF pr) :
    decPProgramLoop ⟨0, Option.none, [], 0⟩ (encPProgram p) = some p := by
  obtain ⟨ver, cp, prs, smp⟩ := p
  cases cp with
  | none =>
    have henc : encPProgram ⟨ver, Option.none, prs, smp⟩ =
        varintField 1 ver ++
          ((prs.map (fun pr => lenField 3 (encPProbe pr))).flatten ++
            (f32Field 4 smp ++ [])) := by
      show (varintField 1 ver ++ [] ++
        (prs.map (fun pr => lenField 3 (encPProbe pr))).flatten ++
        f32Field 4 smp) = _
      simp
    rw [henc, decProgLoop_opt_version _ _ hv _ (fun _ => rfl),
      decProgLoop_probes prs _ _ hp,
      decProgLoop_opt_sampling _ _ hs _ (fun h0 => ⟨hsz h0, rfl⟩),
      decProgLoop_nil]
    rfl
  | some pool =>
    have henc : encPProgram ⟨ver, some pool, prs, smp⟩ =
        varintField 1 ver ++ (lenField 2 (encPConstantPool pool) ++
          ((prs.map (fun pr => lenField 3 (encPProbe pr))).flatten ++
            (f32Field 4 smp ++ []))) := by
      show (varintField 1 ver ++ lenField 2 (encPConstantPool pool) ++
        (prs.map (fun pr => lenField 3 (encPProbe pr))).flatten ++
        f32Field 4 smp) = _
      simp
    rw [henc, decProgLoop_opt_version _ _ hv _ (fun _ => rfl),
      decProgLoop_step_pool _ pool (hc pool rfl),
      decProgLoop_probes prs _ _ hp,
      decProgLoop_opt_sampling _ _ hs _ (fun h0 => ⟨hsz h0, rfl⟩),
      decProgLoop_nil]
    rfl

theorem fnTarget_fromProto_toProto (t : FnTarget) :
    FnTarget.fromProto t.toProto = .ok t := by
  cases t <;> rfl

theorem probeSpec_fromProto_toProto (s : ProbeSpec) :
    ProbeSpec.fromProto s.toProto = .ok s := by
  cases s with
  | fn spec t => cases t <;> rfl

theorem probe_fromProto_toProto (pr : Probe) :
    Probe.fromProto (Probe.toProto pr) = .ok pr := by
  obtain ⟨id, spec, pred, body⟩ := pr
  simp only [Probe.toProto, Probe.fromProto, probeSpec_fromProto_toProto]
  rfl

theorem convertConstant_toProto (c : Constant) :
    Program.convertConstant (Program.convertConstantToProto c) = .ok c := by
  cases c <;> rfl

theorem convertPoolLoop_map : ∀ (cs : List Constant) (pool : ConstantPool),
    pool.constants.length + cs.length ≤ 65535 →
    Program.convertPoolLoop pool (cs.map Program.convertConstantToProto) =
      .ok ⟨pool.constants ++ cs⟩
  | [], pool, _ => by
    simp only [List.map_nil, Program.convertPoolLoop, List.append_nil]
  | c :: cs, pool, h => by
    have hadd : (pool.add c : Outcome String (Nat × ConstantPool)) =
        .ok (pool.constants.length, ⟨pool.constants ++ [c]⟩) := by
      unfold ConstantPool.add
      rw [if_neg (by simp at h ⊢; omega)]
    simp only [List.map_cons, Program.convertPoolLoop,
      convertConstant_toProto, hadd]
    have hrec := convertPoolLoop_map cs ⟨pool.constants ++ [c]⟩
      (by simp at h ⊢; omega)
    rw [hrec]
    have hl : (pool.constants ++ [c]) ++ cs = pool.constants ++ c :: cs := by
      simp
    simp only [hl]

theorem convertProbes_map : ∀ (l : List Probe),
    Program.convertProbes (l.map Probe.toProto) = .ok l
  | [] => rfl
  | pr :: l => by
    simp only [List.map_cons, Program.convertProbes,
      probe_fromProto_toProto, convertProbes_map l]
    rfl

theorem fromProto_toProto (P : Program)
    (hlen : P.constant_pool.constants.length ≤ 65535) :
    Program.fromProto (Program.toProto P) = .ok P := by
  obtain ⟨ver, pool, probes, smp⟩ := P
  obtain ⟨cs⟩ := pool
  simp only at hlen
  have hpool : Program.convertConstantPool
      (some (Program.convertConstantPoolToProto ⟨cs⟩)) = .ok ⟨cs⟩ := by
    show Program.convertPoolLoop ConstantPool.new
      (cs.map Program.convertConstantToProto) = .ok ⟨cs⟩
    have hlen2 : cs.length ≤ 65535 := hlen
    have hnew : ConstantPool.new.constants.length = 0 := rfl
    have := convertPoolLoop_map cs ConstantPool.new (by rw [hnew]; omega)
    simpa using this
  simp only [Program.fromProto, Program.toProto, bind, Outcome.bind, pure,
    hpool, convertProbes_map]



theorem PConstantWF_toProto (c : Constant) (h : ConstantWF c) :
    PConstantWF (Program.convertConstantToProto c) := by
  cases c <;> exact h

theorem PProbeWF_toProto (pr : Probe) : PProbeWF (Probe.toProto pr) := by
  obtain ⟨id, spec, pred, body⟩ := pr
  cases spec with
  | fn s t =>
    cases t
    · exact (by norm_num : (0 : Nat) < 2 ^ 32)
    · exact (by norm_num : (1 : Nat) < 2 ^ 32)

/-- The wire round-trip: a well-typed program re-decodes to itself, field
for field. -/
theorem roundtrip_ok (P : Program) (h : ProgramWF P) :
    Program.fromProtoBytes (Program.toProtoBytes P) = .ok P := by
  obtain ⟨h1, h2, h3, h4, h5⟩ := h
  have hdec : decPProgram (Program.toProtoBytes P) =
      some (Program.toProto P) := by
    show decPProgramLoop ⟨0, Option.none, [], 0⟩
      (encPProgram (Program.toProto P)) = _
    apply decProg_enc
    · exact h1
    · exact h2
    · exact h3
    · intro pool hpool c hc
      simp only [Program.toProto] at hpool
      rw [Option.mem_def] at hpool
      injection hpool with hpe
      subst hpe
      simp only [Program.convertConstantPoolToProto] at hc
      obtain ⟨c0, hc0, rfl⟩ := List.mem_map.mp hc
      exact PConstantWF_toProto c0 (h5 c0 hc0)
    · intro pr hpr
      simp only [Program.toProto] at hpr
      obtain ⟨pr0, hpr0, rfl⟩ := List.mem_map.mp hpr
      exact PProbeWF_toProto pr0
  show (match decPProgram (Program.toProtoBytes P) with
    | Option.none => Outcome.err "Failed to decode protobuf"
    | some proto => Program.fromProto proto) = Outcome.ok P
  rw [hdec]
  exact fromProto_toProto P h4

/-- C2: for every program P satisfying the machine-typing invariants the
Rust structs guarantee (`ProgramWF`: `u32` version/sampling, canonical
zero sampling bits, a pool within the `u16` capacity, `i64`/`u64`
constant payloads), decoding the serialized bytes yields a program equal
to P — hence equal in every observable field: version, sampling, probe
ids, specs, constants in order, and the exact bytecode bytes. -/
theorem c2 (P : Program) (h : ProgramWF P) :
    Program.fromProtoBytes (Program.toProtoBytes P) = .ok P :=
  roundtrip_ok P h

theorem c2_witness :
    ProgramWF c2W ∧
    Program.fromProtoBytes (Program.toProtoBytes c2W) = .ok c2W :=
  ⟨by decide, c2 c2W (by decide)⟩

/-- C5 counterexample: a program whose version field is 2 — not the
supported version 1 — serializes and then DECODES SUCCESSFULLY, back to
version 2; the decoder performs no version validation at all. -/
theorem c5_counterexample :
    c5Program.version = 2 ∧
    Program.fromProtoBytes (Program.toProtoBytes c5Program) = .ok c5Program :=
  ⟨rfl, roundtrip_ok c5Program (by decide)⟩

end HogTrace
